import Mathlib

/-!
Verification development for the maars execution scheduler and rollback engine.

The definitions below are a shallow embedding of the Python sources:
  * `backend/task_agent/runner.py`  (class `ExecutionRunner`)
  * `backend/task_agent/pools.py`   (counting worker pool used by the runner)
  * `backend/execution/pools.py`    (slot-table worker pool)

The runner's cooperative concurrency (asyncio, one coroutine per task) is
modelled as a labelled transition system: each per-task unit is a record with a
program counter marking the `await` suspension point it is parked at, and the
code between two suspension points is one atomic step.  A run is a fold of
labels (which unit resumes next, and with which external outcome) over the
state produced by `start_execution`.
-/

abbrev TaskId := String

/-- Association-list lookup with a default, mirroring Python `dict.get(k, d)`. -/
def lookupD {α : Type} (m : List (TaskId × α)) (k : TaskId) (d : α) : α :=
  match m with
  | [] => d
  | (k', v) :: rest => if k' = k then v else lookupD rest k d

/-- Association-list lookup returning an option, mirroring Python `dict.get(k)`. -/
def lookupO {α : Type} (m : List (TaskId × α)) (k : TaskId) : Option α :=
  match m with
  | [] => none
  | (k', v) :: rest => if k' = k then some v else lookupO rest k

/-- Update the binding of `k` (or append it), mirroring Python `d[k] = v`. -/
def setKey {α : Type} (m : List (TaskId × α)) (k : TaskId) (v : α) : List (TaskId × α) :=
  match m with
  | [] => [(k, v)]
  | (k', v') :: rest => if k' = k then (k, v) :: rest else (k', v') :: setKey rest k v

/-- Remove the binding of `k`, mirroring Python `d.pop(k, None)`. -/
def removeKey {α : Type} (m : List (TaskId × α)) (k : TaskId) : List (TaskId × α) :=
  match m with
  | [] => []
  | (k', v') :: rest => if k' = k then rest else (k', v') :: removeKey rest k

/-- Keys of an association list. -/
def keysOf {α : Type} (m : List (TaskId × α)) : List TaskId := m.map (·.1)

/-- One task of the execution graph, as built by `set_layout` into `chain_cache`:
`task_id`, `dependencies`, and whether the task carries a nonempty output spec
(`task.get("output")` truthy).  The mutable `status` field lives in the runner
state, not here. -/
structure TaskSpec where
  task_id : TaskId
  dependencies : List TaskId
  hasOutputSpec : Bool
deriving DecidableEq

/-- The task-id universe of a graph (`[t["task_id"] for t in chain_cache]`). -/
def chainIds (chain : List TaskSpec) : List TaskId := chain.map (·.task_id)

/-- Lookup in `task_map` (`self.task_map.get(task_id)`). -/
def taskMapGet (chain : List TaskSpec) (id : TaskId) : Option TaskSpec :=
  chain.find? (fun t => t.task_id = id)

/-- The reverse dependency index `reverse_dependency_index.get(d, [])`: built at
`start_execution` by appending, in chain order, each task to the entry of each
of its dependencies, where only chain ids get an entry at all. -/
def dependentsOf (chain : List TaskSpec) (d : TaskId) : List TaskId :=
  if d ∈ chainIds chain then
    (chain.filter (fun t => d ∈ t.dependencies)).map (·.task_id)
  else []

/-! ## The counting worker pool (`backend/task_agent/pools.py`)

The pool imported by the runner: a slot counter `_slots_in_use`, a cap
`_max_concurrency`, and a dict `_task_status : task_id -> "busy"|"validating"`. -/

structure PoolState where
  slotsInUse : Nat
  maxConcurrency : Nat
  taskStatus : List (TaskId × String)
deriving DecidableEq

/-- Embedding of `initialize(max_concurrency)`. -/
def initPool (maxConcurrency : Nat) : PoolState :=
  { slotsInUse := 0, maxConcurrency := max 1 maxConcurrency, taskStatus := [] }

/-- Embedding of `assign_task(task_id)`: refuse at capacity, otherwise take a
slot and record the task as busy. -/
def assignTask (p : PoolState) (id : TaskId) : PoolState × Option TaskId :=
  if p.slotsInUse ≥ p.maxConcurrency then (p, none)
  else ({ p with slotsInUse := p.slotsInUse + 1, taskStatus := setKey p.taskStatus id "busy" },
        some id)

/-- Embedding of `release_by_task_id(task_id)`. -/
def releaseByTaskId (p : PoolState) (id : TaskId) : PoolState × Option TaskId :=
  if (lookupO p.taskStatus id).isSome then
    ({ p with slotsInUse := p.slotsInUse - 1, taskStatus := removeKey p.taskStatus id }, some id)
  else (p, none)

/-- Embedding of `set_task_status(task_id, status)`. -/
def setTaskStatus (p : PoolState) (id : TaskId) (st : String) : PoolState :=
  if (lookupO p.taskStatus id).isSome then
    { p with taskStatus := setKey p.taskStatus id st }
  else p

/-- Embedding of `get_stats()` for the counting pool: `{busy, validating, max}`. -/
structure PoolStats where
  busy : Nat
  validating : Nat
  maxc : Nat
deriving DecidableEq

def getPoolStats (p : PoolState) : PoolStats :=
  { busy := (p.taskStatus.filter (fun e => e.2 = "busy")).length,
    validating := (p.taskStatus.filter (fun e => e.2 = "validating")).length,
    maxc := p.maxConcurrency }

/-! ## Per-task units and the runner state -/

/-- Program counter of one per-task asyncio unit, naming the suspension point
inside `_execute_task` the coroutine is parked at.  `sleeping rc` is the
backoff sleep of the slot-acquisition loop after `rc` failed attempts at
retry counts `0..rc`; the two backoff states record the local variable
`failure_count` read *before* the increment, which the code compares against
`MAX_FAILURES - 1` after the sleep. -/
inductive UnitPC where
  | spawned
  | sleeping (retryCount : Nat)
  | executing
  | validating
  | execFailBackoff (fcLocal : Nat)
  | valFailBackoff (fcLocal : Nat)
  | finished
deriving DecidableEq

structure UnitState where
  task : TaskSpec
  pc : UnitPC
  cancelled : Bool
deriving DecidableEq

/-- The runner state: the fields of `ExecutionRunner` that the claims are
about, plus ghost observers (`rollbackCount`, `everExecuting`,
`everValidating`) that record whether the Rollback Engine fired and which
tasks ever reached the executor/validator; ghosts are write-only and do not
influence any transition. -/
structure RunnerState where
  isRunning : Bool
  abortSet : Bool
  runningTasks : Finset TaskId
  completedTasks : Finset TaskId
  pendingTasks : Finset TaskId
  taskTasks : List (TaskId × Nat)
  chain : List TaskSpec
  statuses : List (TaskId × String)
  taskFailureCount : List (TaskId × Nat)
  units : List UnitState
  artifacts : Finset TaskId
  planId : Option String
  maxFailures : Nat
  pool : PoolState
  rollbackCount : Nat
  everExecuting : Finset TaskId
  everValidating : Finset TaskId
deriving DecidableEq

/-- Status read from the task dicts (`task_map[id]["status"]`). -/
def getStatus (s : RunnerState) (id : TaskId) : String := lookupD s.statuses id ""

/-- Embedding of `_update_task_status`: writes only when the id is in `task_map`. -/
def updStatus (s : RunnerState) (id : TaskId) (st : String) : RunnerState :=
  match taskMapGet s.chain id with
  | some _ => { s with statuses := setKey s.statuses id st }
  | none => s

/-- Embedding of `_are_dependencies_satisfied`: vacuously true without
dependencies, otherwise all dependencies must be in `completed_tasks`. -/
def depsSatisfied (s : RunnerState) (t : TaskSpec) : Bool :=
  match t.dependencies with
  | [] => true
  | deps => deps.all (fun d => d ∈ s.completedTasks)

/-! ## Depth-first traversals

`collect` embeds the inner `collect` of `_get_downstream_task_ids` (visit a
node, then recurse into each reverse dependent), threading the `visited` set
and bounded by fuel; `findDownstream` embeds the inner `find_downstream` of
`_rollback_task`, which additionally skips children already scheduled for
rollback and threads the pair (visited, tasks_to_rollback). -/

def collect (E : TaskId → List TaskId) : Nat → TaskId → Finset TaskId → Finset TaskId
  | 0, _, vis => vis
  | fuel + 1, tid, vis =>
    if tid ∈ vis then vis
    else (E tid).foldl (fun acc d => collect E fuel d acc) (insert tid vis)

/-- Embedding of `_get_downstream_task_ids`: the task itself plus everything
reachable through the reverse dependency index. -/
def getDownstreamTaskIds (chain : List TaskSpec) (id : TaskId) : Finset TaskId :=
  insert id (collect (dependentsOf chain) (chain.length + 1) id ∅)

def findDownstream (E : TaskId → List TaskId) :
    Nat → TaskId → Finset TaskId × Finset TaskId → Finset TaskId × Finset TaskId
  | 0, _, st => st
  | fuel + 1, tid, st =>
    if tid ∈ st.1 then st
    else (E tid).foldl
      (fun st' d => if d ∈ st'.2 then st' else findDownstream E fuel d (st'.1, insert d st'.2))
      (insert tid st.1, st.2)

/-- The closure computed by `_rollback_task`: seed `{task} ∪ task.dependencies`,
then walk downstream from every dependency and from the task itself. -/
def rollbackClosure (chain : List TaskSpec) (t : TaskSpec) : Finset TaskId :=
  let fuel := chain.length + t.dependencies.length + 2
  let st0 : Finset TaskId × Finset TaskId := (∅, insert t.task_id t.dependencies.toFinset)
  let st1 := t.dependencies.foldl (fun st d => findDownstream (dependentsOf chain) fuel d st) st0
  (findDownstream (dependentsOf chain) fuel t.task_id st1).2

/-! ## Atomic blocks of the scheduler

Each definition below is the code between two `await` suspension points of
`_execute_task` (or one of its callees), executed atomically under asyncio's
cooperative scheduling. -/

/-- Register and launch one scheduling unit (`asyncio.create_task` plus the
`self.task_tasks[task_id] = ...` assignment); the new coroutine starts
suspended. -/
def spawnUnit (s : RunnerState) (t : TaskSpec) : RunnerState :=
  { s with taskTasks := setKey s.taskTasks t.task_id s.units.length,
           units := s.units ++ [{ task := t, pc := .spawned, cancelled := false }] }

/-- Embedding of `_schedule_ready_tasks`: filter the candidates against the
current sets, then spawn every ready task without an in-flight handle. -/
def scheduleReady (s : RunnerState) (tasksToCheck : List TaskSpec) : RunnerState :=
  if tasksToCheck = [] ∨ s.isRunning = false then s
  else
    let ready := tasksToCheck.filter (fun t =>
      !decide (t.task_id ∈ s.completedTasks) && !decide (t.task_id ∈ s.runningTasks) &&
      decide (t.task_id ∈ s.pendingTasks) && depsSatisfied s t)
    ready.foldl (fun s' t =>
      if (lookupO s'.taskTasks t.task_id).isSome then s' else spawnUnit s' t) s

/-- Set the program counter of unit `i`. -/
def setUnitPC (s : RunnerState) (i : Nat) (pc : UnitPC) : RunnerState :=
  match s.units[i]? with
  | some u => { s with units := s.units.set i { u with pc := pc } }
  | none => s

/-- Embedding of `_handle_task_error`: release the slot, count the task as
completed anyway, mark it `execution-failed`, and schedule its dependents. -/
def handleTaskError (s : RunnerState) (i : Nat) (t : TaskSpec) : RunnerState :=
  let s1 := { s with pool := (releaseByTaskId s.pool t.task_id).1 }
  let s2 := { s1 with completedTasks := insert t.task_id s1.completedTasks,
                      runningTasks := s1.runningTasks.erase t.task_id,
                      pendingTasks := s1.pendingTasks.erase t.task_id }
  let s3 := updStatus s2 t.task_id "execution-failed"
  let s4 := scheduleReady s3 ((dependentsOf s3.chain t.task_id).filterMap (taskMapGet s3.chain))
  setUnitPC s4 i .finished

/-- Slot acquired (lines 265-273): enter `running_tasks`, mark `doing`; a task
without an output spec raises at once, which the unit-level handler turns into
a slot release followed by `_handle_task_error`. -/
def acquireSuccess (s : RunnerState) (i : Nat) (t : TaskSpec) : RunnerState :=
  let s1 := { s with runningTasks := insert t.task_id s.runningTasks }
  let s2 := updStatus s1 t.task_id "doing"
  if t.hasOutputSpec then
    setUnitPC { s2 with everExecuting := insert t.task_id s2.everExecuting } i .executing
  else
    handleTaskError { s2 with pool := (releaseByTaskId s2.pool t.task_id).1 } i t

/-- First iteration of the slot-acquisition loop (no sleep has happened yet). -/
def tryAcquire (s : RunnerState) (i : Nat) (t : TaskSpec) : RunnerState :=
  match assignTask s.pool t.task_id with
  | (p, some _) => acquireSuccess { s with pool := p } i t
  | (p, none) => setUnitPC { s with pool := p } i (.sleeping 0)

/-- Slot-exhaustion fallback (lines 255-263): the task is marked `done` and its
dependents are scheduled without it ever having executed. -/
def fallbackBlock (s : RunnerState) (i : Nat) (t : TaskSpec) : RunnerState :=
  let s1 := { s with completedTasks := insert t.task_id s.completedTasks,
                     runningTasks := s.runningTasks.erase t.task_id,
                     pendingTasks := s.pendingTasks.erase t.task_id }
  let s2 := updStatus s1 t.task_id "done"
  let s3 := scheduleReady s2 ((dependentsOf s2.chain t.task_id).filterMap (taskMapGet s2.chain))
  setUnitPC s3 i .finished

/-- Waking from the acquisition backoff sleep: bump the retry count, re-check
the loop condition, and either retry `assign_task`, sleep again, or fall out of
the loop into the fallback block. -/
def sleepWake (s : RunnerState) (i : Nat) (t : TaskSpec) (rc : Nat) : RunnerState :=
  if s.isRunning ∧ rc + 1 < 50 then
    match assignTask s.pool t.task_id with
    | (p, some _) => acquireSuccess { s with pool := p } i t
    | (p, none) => setUnitPC { s with pool := p } i (.sleeping (rc + 1))
  else fallbackBlock s i t

/-- Result of the executor call (lines 308-323): on success persist the
artifact and move the held slot to validating; on failure record
`execution-failed`, bump the failure count, release the slot, and park in the
one-second backoff sleep remembering the pre-increment count. -/
def execResult (s : RunnerState) (i : Nat) (t : TaskSpec) (ok : Bool) : RunnerState :=
  if ok then
    let s1 := { s with artifacts := insert t.task_id s.artifacts }
    let s2 := { s1 with pool := setTaskStatus s1.pool t.task_id "validating" }
    let s3 := updStatus s2 t.task_id "validating"
    setUnitPC { s3 with everValidating := insert t.task_id s3.everValidating } i .validating
  else
    let s1 := updStatus s t.task_id "execution-failed"
    let fc := lookupD s1.taskFailureCount t.task_id 0
    let s2 := { s1 with taskFailureCount := setKey s1.taskFailureCount t.task_id (fc + 1) }
    let s3 := { s2 with pool := (releaseByTaskId s2.pool t.task_id).1 }
    setUnitPC s3 i (.execFailBackoff fc)

/-- Candidate set recomputed after a terminal success (lines 413-423): the
direct dependents, every dependency-free task still pending and not running,
and every pending task whose dependencies are now all satisfied. -/
def candOK (s : RunnerState) (id : TaskId) : Bool :=
  !decide (id ∈ s.runningTasks) && !decide (id ∈ s.completedTasks) &&
  (match taskMapGet s.chain id with
   | some pt => depsSatisfied s pt
   | none => false)

def successCandidates (s : RunnerState) (tid : TaskId) : Finset TaskId :=
  let c1 : Finset TaskId := (dependentsOf s.chain tid).toFinset
  let c2 := s.chain.foldl (fun acc t =>
    if t.dependencies = [] ∧ t.task_id ∈ s.pendingTasks ∧ t.task_id ∉ s.runningTasks
    then insert t.task_id acc else acc) c1
  c2 ∪ s.pendingTasks.filter (fun id => candOK s id = true)

/-- Terminal success of one task (lines 407-425): release was already done on
the validation-pass branch; move the task into `completed_tasks`, mark it
`done`, reset its failure count, and schedule the candidate set. -/
def valSuccess (s : RunnerState) (i : Nat) (t : TaskSpec) : RunnerState :=
  let s1 := { s with pool := (releaseByTaskId s.pool t.task_id).1 }
  let s2 := { s1 with runningTasks := s1.runningTasks.erase t.task_id,
                      completedTasks := insert t.task_id s1.completedTasks,
                      pendingTasks := s1.pendingTasks.erase t.task_id }
  let s3 := updStatus s2 t.task_id "done"
  let s4 := { s3 with taskFailureCount := removeKey s3.taskFailureCount t.task_id }
  let cands := successCandidates s4 t.task_id
  let s5 := scheduleReady s4
    (((chainIds s4.chain).filter (fun id => decide (id ∈ cands))).filterMap (taskMapGet s4.chain))
  setUnitPC s5 i .finished

/-- Validation failure (lines 382-386): record `validation-failed` and the
failure count, then park in the one-second backoff still holding the slot. -/
def valFailStep (s : RunnerState) (i : Nat) (t : TaskSpec) : RunnerState :=
  let s1 := updStatus s t.task_id "validation-failed"
  let fc := lookupD s1.taskFailureCount t.task_id 0
  let s2 := { s1 with taskFailureCount := setKey s1.taskFailureCount t.task_id (fc + 1) }
  setUnitPC s2 i (.valFailBackoff fc)

def valResult (s : RunnerState) (i : Nat) (t : TaskSpec) (ok : Bool) : RunnerState :=
  if ok then valSuccess s i t else valFailStep s i t

/-- Per-member mutation of the rollback loop (lines 506-518): reset membership,
status, failure count, in-flight handle and slot for mapped tasks, and delete
the persisted artifact for every closure member when a plan id is set. -/
def rollbackOne (s : RunnerState) (id : TaskId) : RunnerState :=
  let s1 :=
    match taskMapGet s.chain id with
    | some _ =>
      let a := { s with completedTasks := s.completedTasks.erase id,
                        pendingTasks := insert id s.pendingTasks,
                        runningTasks := s.runningTasks.erase id }
      let b := updStatus a id "undone"
      { b with taskFailureCount := removeKey b.taskFailureCount id,
               taskTasks := removeKey b.taskTasks id,
               pool := (releaseByTaskId b.pool id).1 }
    | none => s
  if s1.planId.isSome then { s1 with artifacts := s1.artifacts.erase id } else s1

/-- Iteration order over the rollback closure: chain order, then dangling
dependency ids.  The per-member effects are independent, so the set iteration
order of the Python code is immaterial. -/
def rollbackList (chain : List TaskSpec) (t : TaskSpec) : List TaskId :=
  let cl := rollbackClosure chain t
  (chainIds chain ++ t.dependencies.filter (fun d => !decide (d ∈ chainIds chain))).filter
    (fun id => decide (id ∈ cl))

/-- Embedding of `_rollback_task`: apply the per-member mutations over the
closure, then re-launch the closure members that are ready again. -/
def rollbackTask (s : RunnerState) (t : TaskSpec) : RunnerState :=
  let lst := rollbackList s.chain t
  let s1 := lst.foldl rollbackOne s
  let s2 := { s1 with rollbackCount := s1.rollbackCount + 1 }
  let ready := lst.filterMap (fun tid =>
    match taskMapGet s2.chain tid with
    | some tk => if depsSatisfied s2 tk ∧ tid ∈ s2.pendingTasks then some tk else none
    | none => none)
  if ready ≠ [] then scheduleReady s2 ready else s2

def rollbackBlock (s : RunnerState) (i : Nat) (t : TaskSpec) : RunnerState :=
  setUnitPC (rollbackTask s t) i .finished

/-- Waking from the post-execution-failure backoff (lines 324-333): the slot
was released before the sleep; compare the remembered pre-increment count with
`MAX_FAILURES - 1` and either retry in place (tail call re-entering
`_execute_task`) or roll back. -/
def execFailWake (s : RunnerState) (i : Nat) (t : TaskSpec) (fc : Nat) : RunnerState :=
  let s1 := { s with runningTasks := s.runningTasks.erase t.task_id,
                     completedTasks := s.completedTasks.erase t.task_id }
  if fc < s.maxFailures - 1 then
    if s1.isRunning then tryAcquire s1 i t else setUnitPC s1 i .finished
  else rollbackBlock s1 i t

/-- Waking from the post-validation-failure backoff (lines 387-399): release
the slot only now, then the same retry/rollback decision. -/
def valFailWake (s : RunnerState) (i : Nat) (t : TaskSpec) (fc : Nat) : RunnerState :=
  let s0 := { s with pool := (releaseByTaskId s.pool t.task_id).1 }
  let s1 := { s0 with runningTasks := s0.runningTasks.erase t.task_id,
                      completedTasks := s0.completedTasks.erase t.task_id }
  if fc < s.maxFailures - 1 then
    if s1.isRunning then tryAcquire s1 i t else setUnitPC s1 i .finished
  else rollbackBlock s1 i t

/-- Cancel the unit referenced by one in-flight handle, mirroring
`if asyncio_task and not asyncio_task.done(): asyncio_task.cancel()`. -/
def cancelAt (units : List UnitState) (idx : Nat) : List UnitState :=
  match units[idx]? with
  | some u => if u.pc ≠ .finished then units.set idx { u with cancelled := true } else units
  | none => units

/-- Embedding of `stop_async`: clear the running flag, set the abort event,
cancel every unit whose handle is still in `task_tasks`, release the slots of
exactly those task ids, then drop all handles and the running set. -/
def stopAsync (s : RunnerState) : RunnerState :=
  let s1 := { s with isRunning := false, abortSet := true }
  let ids := keysOf s1.taskTasks
  let units' := s1.taskTasks.foldl (fun us p => cancelAt us p.2) s1.units
  let pool' := ids.foldl (fun p id => (releaseByTaskId p id).1) s1.pool
  { s1 with units := units', pool := pool', taskTasks := [], runningTasks := ∅ }

/-- Embedding of `retry_task` (the `is_running` branch; when no run is active
the method just returns False). -/
def retryTask (s : RunnerState) (id : TaskId) : RunnerState :=
  match taskMapGet s.chain id with
  | none => s
  | some t =>
    if getStatus s id = "execution-failed" ∨ getStatus s id = "validation-failed" then
      if s.isRunning then
        let s1 := { s with completedTasks := s.completedTasks.erase id,
                           runningTasks := s.runningTasks.erase id,
                           pendingTasks := insert id s.pendingTasks,
                           taskFailureCount := removeKey s.taskFailureCount id,
                           taskTasks := removeKey s.taskTasks id }
        let s2 := updStatus s1 id "undone"
        let s3 := if s2.planId.isSome then { s2 with artifacts := s2.artifacts.erase id } else s2
        scheduleReady s3 [t]
      else s
    else s

/-! ## The labelled transition system -/

inductive UnitEvent where
  | go
  | wake
  | execDone (ok : Bool)
  | valDone (ok : Bool)
deriving DecidableEq

inductive Label where
  | unitStep (i : Nat) (e : UnitEvent)
  | stop
  | retry (id : TaskId)
deriving DecidableEq

/-- Resume unit `i` at its suspension point with event `e`; mismatched events
are impossible in the real control flow and leave the state unchanged. -/
def dispatch (s : RunnerState) (i : Nat) (u : UnitState) (e : UnitEvent) : RunnerState :=
  match u.pc, e with
  | .spawned, .go => if s.isRunning then tryAcquire s i u.task else setUnitPC s i .finished
  | .sleeping rc, .wake => sleepWake s i u.task rc
  | .executing, .execDone ok => execResult s i u.task ok
  | .validating, .valDone ok => valResult s i u.task ok
  | .execFailBackoff fc, .wake => execFailWake s i u.task fc
  | .valFailBackoff fc, .wake => valFailWake s i u.task fc
  | _, _ => s

/-- One scheduler step.  A cancelled coroutine dies with `CancelledError` at
its next resumption, mutating nothing. -/
def stepLabel (s : RunnerState) (l : Label) : RunnerState :=
  match l with
  | .unitStep i e =>
    match s.units[i]? with
    | some u => if u.cancelled then setUnitPC s i .finished else dispatch s i u e
    | none => s
  | .stop => stopAsync s
  | .retry id => retryTask s id

def runTrace (s : RunnerState) (ls : List Label) : RunnerState := ls.foldl stepLabel s

/-- Embedding of `_get_ready_tasks` (iteration canonicalised to chain order). -/
def getReadyTasks (s : RunnerState) : List TaskSpec :=
  s.chain.filter (fun t =>
    decide (t.task_id ∈ s.pendingTasks) && !decide (t.task_id ∈ s.runningTasks) &&
    !decide (t.task_id ∈ s.completedTasks) && depsSatisfied s t)

/-- Embedding of the per-run reset of `start_execution` (lines 147-196) plus
the initial launches of `_execute_tasks`: seed `pending` with every task, then
either reset every status to `undone`, or — when resuming from a known task —
reset exactly its downstream closure and seed `completed` with the remaining
`done` tasks, and finally spawn one unit per initially-ready task. -/
def startState (chain : List TaskSpec) (status0 : List (TaskId × String))
    (artifacts0 : Finset TaskId) (planId : Option String) (maxConc : Nat) (maxF : Nat)
    (resumeFrom : Option TaskId) : RunnerState :=
  let base : RunnerState := {
    isRunning := true, abortSet := false,
    runningTasks := ∅, completedTasks := ∅,
    pendingTasks := (chainIds chain).foldl (fun acc id => insert id acc) ∅,
    taskTasks := [], chain := chain, statuses := status0,
    taskFailureCount := [], units := [], artifacts := artifacts0,
    planId := planId, maxFailures := maxF, pool := initPool maxConc,
    rollbackCount := 0, everExecuting := ∅, everValidating := ∅ }
  let s1 :=
    match resumeFrom with
    | some r =>
      if r ∈ chainIds chain then
        let toReset := getDownstreamTaskIds chain r
        chain.foldl (fun s t =>
          if t.task_id ∈ toReset then
            let a := updStatus s t.task_id "undone"
            let b := if a.planId.isSome then { a with artifacts := a.artifacts.erase t.task_id }
                     else a
            { b with pendingTasks := insert t.task_id b.pendingTasks,
                     completedTasks := b.completedTasks.erase t.task_id,
                     taskFailureCount := removeKey b.taskFailureCount t.task_id }
          else if getStatus s t.task_id = "done" then
            { s with completedTasks := insert t.task_id s.completedTasks,
                     pendingTasks := s.pendingTasks.erase t.task_id }
          else s) base
      else chain.foldl (fun s t => updStatus s t.task_id "undone") base
    | none => chain.foldl (fun s t => updStatus s t.task_id "undone") base
  (getReadyTasks s1).foldl (fun s t => spawnUnit s t) s1

/-- The run-completion predicate of `_execute_tasks` (lines 230-237): the
polling loop has exited and the runner would emit `execution-complete`. -/
def emitsExecutionComplete (s : RunnerState) : Bool :=
  s.isRunning && decide (s.chain.length ≤ s.completedTasks.card) &&
    decide (s.runningTasks = ∅)

/-! ## The slot-table worker pool (`backend/execution/pools.py`)

A fixed-capacity list of workers `{id, status, taskId}` closed over
`max_workers`; `get_stats` first normalizes unknown statuses to idle, then
reinitializes the whole pool if the four per-status counts fail to sum to
capacity. -/

structure Worker where
  wid : Nat
  wstatus : String
  wtaskId : Option TaskId
deriving DecidableEq

/-- Embedding of the inner `init()`. -/
def initWorkers (maxWorkers : Nat) : List Worker :=
  (List.range maxWorkers).map (fun i => { wid := i + 1, wstatus := "idle", wtaskId := none })

/-- Embedding of `assign_task`: take the first idle slot (via `get_idle`). -/
def wAssignTask (ws : List Worker) (tid : TaskId) : List Worker × Option Nat :=
  match ws.findIdx? (fun w => w.wstatus = "idle") with
  | some i =>
    match ws[i]? with
    | some w =>
      let w1 := if w.wstatus ≠ "idle" then { w with wstatus := "idle", wtaskId := none } else w
      (ws.set i { w1 with wstatus := "busy", wtaskId := some tid }, some w1.wid)
    | none => (ws, none)
  | none => (ws, none)

/-- Embedding of `release_by_task_id`: reset the slot owning the task if its
status is busy/validating/failed, return its id either way when found. -/
def wReleaseByTaskId (ws : List Worker) (tid : TaskId) : List Worker × Option Nat :=
  match ws.findIdx? (fun w => w.wtaskId = some tid) with
  | some i =>
    match ws[i]? with
    | some w =>
      if w.wstatus = "busy" ∨ w.wstatus = "validating" ∨ w.wstatus = "failed" then
        (ws.set i { w with wstatus := "idle", wtaskId := none }, some w.wid)
      else (ws, some w.wid)
    | none => (ws, none)
  | none => (ws, none)

/-- Embedding of `set_status(wid, status)`: the status argument is an arbitrary
string. -/
def wSetStatus (ws : List Worker) (wid : Nat) (st : String) : List Worker :=
  match ws.findIdx? (fun w => w.wid = wid) with
  | some i =>
    match ws[i]? with
    | some w => ws.set i { w with wstatus := st }
    | none => ws
  | none => ws

/-- First loop of `get_stats`: any slot with a status outside the four known
ones is reset to idle in place. -/
def wNormalize (ws : List Worker) : List Worker :=
  ws.map (fun w =>
    if w.wstatus = "idle" ∨ w.wstatus = "busy" ∨ w.wstatus = "validating" ∨ w.wstatus = "failed"
    then w else { w with wstatus := "idle", wtaskId := none })

structure WStats where
  total : Nat
  busy : Nat
  validating : Nat
  idle : Nat
  failed : Nat
deriving DecidableEq

/-- Embedding of `get_stats`: after normalization, count per status; when the
counts fail to sum to capacity, reinitialize and report an all-idle pool.  The
third component records whether that self-healing branch was taken. -/
def wGetStats (maxWorkers : Nat) (ws : List Worker) : WStats × List Worker × Bool :=
  let ws1 := wNormalize ws
  let busy := (ws1.filter (fun w => w.wstatus = "busy")).length
  let validating := (ws1.filter (fun w => w.wstatus = "validating")).length
  let idle := (ws1.filter (fun w => w.wstatus = "idle")).length
  let failed := (ws1.filter (fun w => w.wstatus = "failed")).length
  if busy + validating + idle + failed ≠ maxWorkers then
    ({ total := maxWorkers, busy := 0, validating := 0, idle := maxWorkers, failed := 0 },
     initWorkers maxWorkers, true)
  else
    ({ total := maxWorkers, busy := busy, validating := validating, idle := idle,
       failed := failed }, ws1, false)

/-- Public operations of the slot-table pool. -/
inductive WOp where
  | assign (tid : TaskId)
  | release (tid : TaskId)
  | setStatus (wid : Nat) (st : String)
  | reinit
  | stats
deriving DecidableEq

def wApply (maxWorkers : Nat) (ws : List Worker) (op : WOp) : List Worker :=
  match op with
  | .assign tid => (wAssignTask ws tid).1
  | .release tid => (wReleaseByTaskId ws tid).1
  | .setStatus wid st => wSetStatus ws wid st
  | .reinit => initWorkers maxWorkers
  | .stats => (wGetStats maxWorkers ws).2.1

def wRun (maxWorkers : Nat) (ops : List WOp) : List Worker :=
  ops.foldl (wApply maxWorkers) (initWorkers maxWorkers)

/-! ## Concrete fixtures

Small task graphs and scripted traces used to evaluate the scheduler at
explicit inputs. -/

/-- Fan graph: `B` and `C` both depend on `A`. -/
def fanGraph : List TaskSpec := [⟨"A", [], true⟩, ⟨"B", ["A"], true⟩, ⟨"C", ["A"], true⟩]

def fanStatus : List (TaskId × String) := [("A", "undone"), ("B", "undone"), ("C", "undone")]

/-- Two independent tasks. -/
def pairGraph : List TaskSpec := [⟨"A", [], true⟩, ⟨"B", [], true⟩]

/-- A single task without dependencies. -/
def soloGraph : List TaskSpec := [⟨"A", [], true⟩]

/-- A task without an output spec, with a dependent. -/
def structGraph : List TaskSpec := [⟨"A", [], false⟩, ⟨"B", ["A"], true⟩]

/-- Run on `fanGraph` with `maxFailures = 1`: `A` completes, `B` and `C` start
executing, `C` fails once and triggers the rollback cascade (resetting `A`,
`B`, `C` and dropping `B`'s in-flight handle), then `B`'s orphaned unit
finishes successfully. -/
def c1Start : RunnerState := startState fanGraph fanStatus ∅ (some "p") 7 1 none

def c1Trace : List Label :=
  [.unitStep 0 .go, .unitStep 0 (.execDone true), .unitStep 0 (.valDone true),
   .unitStep 1 .go, .unitStep 2 .go, .unitStep 2 (.execDone false), .unitStep 2 .wake,
   .unitStep 1 (.execDone true), .unitStep 1 (.valDone true)]

/-- Run on `pairGraph` with capacity 1: `A` acquires the only slot, `B` backs
off; `A`'s execution fails, releasing the slot before its backoff sleep, and
`B` acquires the freed slot while `A` is still a member of `running_tasks`. -/
def c3Start : RunnerState := startState pairGraph [("A", "undone"), ("B", "undone")] ∅ (some "p") 1 3 none

def c3Trace : List Label :=
  [.unitStep 0 .go, .unitStep 1 .go, .unitStep 0 (.execDone false), .unitStep 1 .wake]

/-- Run on `soloGraph` with `maxFailures = 3`: two failures, two in-place
retries, then success. -/
def c5Start : RunnerState := startState soloGraph [("A", "undone")] ∅ (some "p") 7 3 none

def c5Trace : List Label :=
  [.unitStep 0 .go, .unitStep 0 (.execDone false), .unitStep 0 .wake,
   .unitStep 0 (.execDone false), .unitStep 0 .wake,
   .unitStep 0 (.execDone true), .unitStep 0 (.valDone true)]

def c7Start : RunnerState := startState soloGraph [("A", "undone")] ∅ (some "p") 7 3 none

/-- Run on `fanGraph` with `maxFailures = 2`: `C` fails twice and rolls back
while `B` is executing (orphaning `B`'s unit), the orphan then fails once,
retries in place and re-acquires a slot without re-registering a handle, and
finally `stop_async` is called. -/
def c8Start : RunnerState := startState fanGraph fanStatus ∅ (some "p") 7 2 none

def c8Trace : List Label :=
  [.unitStep 0 .go, .unitStep 0 (.execDone true), .unitStep 0 (.valDone true),
   .unitStep 1 .go, .unitStep 2 .go,
   .unitStep 2 (.execDone false), .unitStep 2 .wake, .unitStep 2 (.execDone false), .unitStep 2 .wake,
   .unitStep 1 (.execDone false), .unitStep 1 .wake,
   .stop]

/-- Run on `structGraph`: `A` hits the structural-error path, then `B` runs
and completes. -/
def c9Start : RunnerState :=
  startState structGraph [("A", "undone"), ("B", "undone")] ∅ (some "p") 7 3 none

def c9Trace : List Label :=
  [.unitStep 0 .go, .unitStep 1 .go, .unitStep 1 (.execDone true), .unitStep 1 (.valDone true)]

/-- A state for the C6 witness: one unit parked at retry count 49 of the
slot-acquisition loop of a saturated capacity-1 pool. -/
def c6State : RunnerState := {
  isRunning := true, abortSet := false,
  runningTasks := ∅, completedTasks := ∅,
  pendingTasks := {"A", "B"},
  taskTasks := [("A", 0)],
  chain := [⟨"A", [], true⟩, ⟨"B", ["A"], true⟩],
  statuses := [("A", "undone"), ("B", "undone")],
  taskFailureCount := [],
  units := [{ task := ⟨"A", [], true⟩, pc := .sleeping 49, cancelled := false }],
  artifacts := ∅, planId := some "p", maxFailures := 3,
  pool := { slotsInUse := 1, maxConcurrency := 1, taskStatus := [("X", "busy")] },
  rollbackCount := 0, everExecuting := ∅, everValidating := ∅ }

/-- Units parked in the one-second backoff after an execution failure: their
slot is already released but their task id is still in `running_tasks`. -/
def isExecFailBackoff : UnitPC → Bool
  | .execFailBackoff _ => true
  | _ => false

/-- Every id in `running_tasks` is accounted for: either the counting pool
still holds an entry for it, or some unit for it is parked in the
execution-failure backoff window. -/
def runningWitness (s : RunnerState) (id : TaskId) : Prop :=
  (lookupO s.pool.taskStatus id).isSome = true ∨
    ∃ (j : Nat) (u : UnitState),
      s.units[j]? = some u ∧ u.task.task_id = id ∧ isExecFailBackoff u.pc = true

/-- Accounting soundness of the counting pool: `slotsInUse` never exceeds the
capacity, and the status dict has distinct keys and never more entries than
`slotsInUse` (duplicate `assign_task` calls can overwrite an entry while still
consuming a slot, so only an inequality holds). -/
structure PoolInv (p : PoolState) : Prop where
  slots_le : p.slotsInUse ≤ p.maxConcurrency
  keys_nodup : (keysOf p.taskStatus).Nodup
  len_le : p.taskStatus.length ≤ p.slotsInUse

/-- The inductive invariant of the transition system: pool accounting, the
running-set witness, the facts that a stopped run has an empty running set and
an active run only uncancelled units, and disjointness of `pending_tasks` and
`completed_tasks`. -/
structure RunnerInv (s : RunnerState) : Prop where
  pool_inv : PoolInv s.pool
  running_acct : ∀ id ∈ s.runningTasks, runningWitness s id
  stopped_empty : s.isRunning = false → s.runningTasks = ∅
  active_uncancelled : s.isRunning = true → ∀ u ∈ s.units, u.cancelled = false
  pend_comp : ∀ x ∈ s.pendingTasks, x ∉ s.completedTasks

/-- Safety condition for replacing the program counter of unit `i`: either the
unit is not parked in the execution-failure backoff (so it witnesses nothing),
or every running id it could witness is already covered by a pool entry. -/
def pcSwapSafe (s : RunnerState) (i : Nat) : Prop :=
  ∀ u, s.units[i]? = some u →
    isExecFailBackoff u.pc = false ∨
    (∀ id ∈ s.runningTasks, u.task.task_id = id →
      (lookupO s.pool.taskStatus id).isSome = true)

/-- Reflexive-transitive reachability along a listed successor function: the
meaning of "transitive dependents" when the successor function is the reverse
dependency index. -/
inductive Reach (E : TaskId → List TaskId) (a : TaskId) : TaskId → Prop
  | refl : Reach E a a
  | tail {b c : TaskId} : Reach E a b → c ∈ E b → Reach E a c

/-! ## Lemmas about the slot-table pool -/

theorem initWorkers_length (n : Nat) : (initWorkers n).length = n := by
  simp [initWorkers]

theorem wNormalize_length (ws : List Worker) : (wNormalize ws).length = ws.length := by
  simp [wNormalize]

theorem wNormalize_known (ws : List Worker) :
    ∀ w ∈ wNormalize ws,
      w.wstatus = "idle" ∨ w.wstatus = "busy" ∨ w.wstatus = "validating" ∨ w.wstatus = "failed" := by
  intro w hw
  simp only [wNormalize, List.mem_map] at hw
  obtain ⟨w0, _, rfl⟩ := hw
  by_cases h : w0.wstatus = "idle" ∨ w0.wstatus = "busy" ∨ w0.wstatus = "validating" ∨
      w0.wstatus = "failed"
  · simp [h]
  · simp [h]

theorem four_counts (l : List Worker)
    (h : ∀ w ∈ l, w.wstatus = "idle" ∨ w.wstatus = "busy" ∨ w.wstatus = "validating" ∨
      w.wstatus = "failed") :
    (l.filter (fun w => w.wstatus = "busy")).length +
    (l.filter (fun w => w.wstatus = "validating")).length +
    (l.filter (fun w => w.wstatus = "idle")).length +
    (l.filter (fun w => w.wstatus = "failed")).length = l.length := by
  induction l with
  | nil => simp
  | cons w rest ih =>
    have hrest := ih (fun w' hw' => h w' (List.mem_cons_of_mem _ hw'))
    rcases h w (List.mem_cons_self _ _) with hw | hw | hw | hw <;>
      simp [List.filter_cons, hw] <;> omega

theorem wAssignTask_length (ws : List Worker) (tid : TaskId) :
    (wAssignTask ws tid).1.length = ws.length := by
  simp only [wAssignTask]
  split
  · split
    · simp
    · simp
  · simp

theorem wReleaseByTaskId_length (ws : List Worker) (tid : TaskId) :
    (wReleaseByTaskId ws tid).1.length = ws.length := by
  simp only [wReleaseByTaskId]
  split
  · split
    · split
      · simp
      · simp
    · simp
  · simp

theorem wSetStatus_length (ws : List Worker) (wid : Nat) (st : String) :
    (wSetStatus ws wid st).length = ws.length := by
  simp only [wSetStatus]
  split
  · split
    · simp
    · simp
  · simp

theorem wApply_length (n : Nat) (ws : List Worker) (op : WOp) (h : ws.length = n) :
    (wApply n ws op).length = n := by
  cases op with
  | assign tid => rw [wApply, wAssignTask_length, h]
  | release tid => rw [wApply, wReleaseByTaskId_length, h]
  | setStatus wid st => rw [wApply, wSetStatus_length, h]
  | reinit => rw [wApply, initWorkers_length]
  | stats =>
    simp only [wApply, wGetStats]
    split
    · simp [initWorkers_length]
    · simp [wNormalize_length, h]

theorem wRun_length (n : Nat) (ops : List WOp) : (wRun n ops).length = n := by
  suffices h : ∀ ws, ws.length = n → (ops.foldl (wApply n) ws).length = n by
    exact h _ (initWorkers_length n)
  induction ops with
  | nil => intro ws h; simpa using h
  | cons op rest ih => intro ws h; exact ih _ (wApply_length n ws op h)

/-- C10: over every sequence of slot-table pool operations from `init`, the
four per-status counts of `get_stats` (taken after its normalization loop) sum
exactly to the pool capacity, so the defensive reinitialize branch that would
report an all-idle pool is never taken. -/
theorem c10_get_stats_never_self_heals (n : Nat) (ops : List WOp) :
    (wGetStats n (wRun n ops)).2.2 = false := by
  have hlen : (wRun n ops).length = n := wRun_length n ops
  have hsum := four_counts (wNormalize (wRun n ops)) (wNormalize_known (wRun n ops))
  rw [wNormalize_length, hlen] at hsum
  simp only [wGetStats]
  rw [if_neg (by omega)]

/-! ## Association-list lemmas -/

theorem lookupD_setKey_same {α : Type} (m : List (TaskId × α)) (k : TaskId) (v d : α) :
    lookupD (setKey m k v) k d = v := by
  induction m with
  | nil => simp [setKey, lookupD]
  | cons e rest ih =>
    by_cases h : e.1 = k
    · simp [setKey, h, lookupD]
    · simp [setKey, h, lookupD, ih]

theorem lookupO_setKey_same {α : Type} (m : List (TaskId × α)) (k : TaskId) (v : α) :
    lookupO (setKey m k v) k = some v := by
  induction m with
  | nil => simp [setKey, lookupO]
  | cons e rest ih =>
    by_cases h : e.1 = k
    · simp [setKey, h, lookupO]
    · simp [setKey, h, lookupO, ih]

theorem lookupO_setKey_other {α : Type} (m : List (TaskId × α)) (k k' : TaskId) (v : α)
    (h : k ≠ k') : lookupO (setKey m k v) k' = lookupO m k' := by
  induction m with
  | nil => simp [setKey, lookupO, h]
  | cons e rest ih =>
    by_cases he : e.1 = k
    · simp [setKey, he, lookupO, h]
    · simp [setKey, he, lookupO, ih]

theorem lookupD_setKey_other {α : Type} (m : List (TaskId × α)) (k k' : TaskId) (v d : α)
    (h : k ≠ k') : lookupD (setKey m k v) k' d = lookupD m k' d := by
  induction m with
  | nil => simp [setKey, lookupD, h]
  | cons e rest ih =>
    by_cases he : e.1 = k
    · simp [setKey, he, lookupD, h]
    · simp [setKey, he, lookupD, ih]

theorem lookupO_removeKey_other {α : Type} (m : List (TaskId × α)) (k k' : TaskId)
    (h : k ≠ k') : lookupO (removeKey m k) k' = lookupO m k' := by
  induction m with
  | nil => simp [removeKey]
  | cons e rest ih =>
    by_cases he : e.1 = k
    · simp [removeKey, he, lookupO, fun hh : k = k' => h hh]
    · simp [removeKey, he, lookupO, ih]

theorem lookupD_removeKey_other {α : Type} (m : List (TaskId × α)) (k k' : TaskId) (d : α)
    (h : k ≠ k') : lookupD (removeKey m k) k' d = lookupD m k' d := by
  induction m with
  | nil => simp [removeKey]
  | cons e rest ih =>
    by_cases he : e.1 = k
    · simp [removeKey, he, lookupD, fun hh : k = k' => h hh]
    · simp [removeKey, he, lookupD, ih]

/-! ## Concrete-trace results -/

/-- C1: the consistency invariant fails on the code.  In the `c1Trace`
interleaving, the rollback cascade triggered by `C` resets `A`, `B` and `C` to
`undone` and drops `B`'s in-flight handle without cancelling the coroutine
(`_rollback_task` pops `task_tasks` but never calls `.cancel()`); `B`'s
orphaned unit then finishes and marks `B` `done` while its dependency `A` is
still `undone`.  Immediately after the rollback step (prefix of length 7) `B`
is `undone` and its unit is still executing, uncancelled. -/
theorem c1_rollback_resurrects_done :
    getStatus (runTrace c1Start c1Trace) "B" = "done" ∧
    (taskMapGet (runTrace c1Start c1Trace).chain "B").map (fun t => t.dependencies) =
      some ["A"] ∧
    getStatus (runTrace c1Start c1Trace) "A" = "undone" ∧
    (runTrace c1Start c1Trace).rollbackCount = 1 ∧
    getStatus (runTrace c1Start (c1Trace.take 7)) "B" = "undone" ∧
    (runTrace c1Start (c1Trace.take 7)).units[1]? =
      some { task := ⟨"B", ["A"], true⟩, pc := .executing, cancelled := false } := by
  decide

/-- C3 counterexample: at the state reached by `c3Trace` (capacity 1), the
execution-failure path of `A` has released its slot before the backoff sleep
while leaving `A` in `running_tasks`, and `B` has acquired the freed slot, so
`running_tasks` holds two ids against a worker-pool capacity of one. -/
theorem c3_running_exceeds_capacity :
    ¬ ((runTrace c3Start c3Trace).runningTasks.card ≤
        (runTrace c3Start c3Trace).pool.maxConcurrency) := by
  decide

/-- C7 counterexample: after a task acquires a slot it is simultaneously a
member of `running_tasks` and of `pending_tasks` (the code removes a task from
`pending` only when it is marked `done`), while its unit is executing. -/
theorem c7_running_task_still_pending :
    "A" ∈ (runTrace c7Start [.unitStep 0 .go]).runningTasks ∧
    "A" ∈ (runTrace c7Start [.unitStep 0 .go]).pendingTasks ∧
    (runTrace c7Start [.unitStep 0 .go]).units[0]? =
      some { task := ⟨"A", [], true⟩, pc := .executing, cancelled := false } := by
  decide

/-- C8 counterexample: in `c8Trace`, `B`'s handle is dropped by the rollback
cascade while its coroutine is in flight; the orphan later re-acquires a slot
through its in-place retry without re-registering a handle.  At the moment
`stop_async` runs (prefix of length 11) the orphan is executing; after
`stop_async` it is still uncancelled and still executing, and the pool reports
`busy = 1`, not `busy = 0`. -/
theorem c8_stop_misses_orphaned_unit :
    (runTrace c8Start (c8Trace.take 11)).units[1]? =
      some { task := ⟨"B", ["A"], true⟩, pc := .executing, cancelled := false } ∧
    (runTrace c8Start c8Trace).units[1]? =
      some { task := ⟨"B", ["A"], true⟩, pc := .executing, cancelled := false } ∧
    (getPoolStats (runTrace c8Start c8Trace).pool).busy = 1 ∧
    (runTrace c8Start c8Trace).isRunning = false := by
  decide

/-- C9: a task whose unit raises outside the handled execute/validate pipeline
(here: `A` has no output spec) is routed through `_handle_task_error`, which
marks it `execution-failed` yet inserts it into `completed_tasks` and removes
it from `pending_tasks`; its dependent `B` then sees its dependencies as
satisfied, is scheduled, and completes, after which the run-termination
predicate holds and `execution-complete` would be emitted while `A` still has
status `execution-failed`. -/
theorem c9_error_path_counts_as_completed :
    getStatus (runTrace c9Start (c9Trace.take 1)) "A" = "execution-failed" ∧
    "A" ∈ (runTrace c9Start (c9Trace.take 1)).completedTasks ∧
    "A" ∉ (runTrace c9Start (c9Trace.take 1)).pendingTasks ∧
    (taskMapGet structGraph "B").map
      (depsSatisfied (runTrace c9Start (c9Trace.take 1))) = some true ∧
    (lookupO (runTrace c9Start (c9Trace.take 1)).taskTasks "B").isSome = true ∧
    emitsExecutionComplete (runTrace c9Start c9Trace) = true ∧
    getStatus (runTrace c9Start c9Trace) "A" = "execution-failed" ∧
    (runTrace c9Start c9Trace).rollbackCount = 0 ∧
    "A" ∉ (runTrace c9Start c9Trace).everExecuting := by
  decide

/-! ## Frame lemmas for the scheduler blocks -/

theorem updStatus_eq (s : RunnerState) (id : TaskId) (st : String) :
    updStatus s id st = { s with statuses := (updStatus s id st).statuses } := by
  simp only [updStatus]
  split <;> rfl

theorem setUnitPC_eq (s : RunnerState) (i : Nat) (pc : UnitPC) :
    setUnitPC s i pc = { s with units := (setUnitPC s i pc).units } := by
  simp only [setUnitPC]
  split <;> rfl

theorem spawnFoldStep_eq (s : RunnerState) (t : TaskSpec) :
    (if (lookupO s.taskTasks t.task_id).isSome then s else spawnUnit s t) =
      { s with
        taskTasks := (if (lookupO s.taskTasks t.task_id).isSome then s else spawnUnit s t).taskTasks,
        units := (if (lookupO s.taskTasks t.task_id).isSome then s else spawnUnit s t).units } := by
  split <;> rfl

theorem spawnFold_eq (l : List TaskSpec) (s : RunnerState) :
    l.foldl (fun s' t => if (lookupO s'.taskTasks t.task_id).isSome then s' else spawnUnit s' t) s =
      { s with
        taskTasks := (l.foldl (fun s' t =>
          if (lookupO s'.taskTasks t.task_id).isSome then s' else spawnUnit s' t) s).taskTasks,
        units := (l.foldl (fun s' t =>
          if (lookupO s'.taskTasks t.task_id).isSome then s' else spawnUnit s' t) s).units } := by
  induction l generalizing s with
  | nil => rfl
  | cons t rest ih =>
    simp only [List.foldl_cons]
    rw [ih (if (lookupO s.taskTasks t.task_id).isSome then s else spawnUnit s t)]
    split <;> rfl

theorem scheduleReady_eq (s : RunnerState) (l : List TaskSpec) :
    scheduleReady s l =
      { s with taskTasks := (scheduleReady s l).taskTasks,
               units := (scheduleReady s l).units } := by
  simp only [scheduleReady]
  split
  · rfl
  · exact spawnFold_eq _ s

theorem handleTaskError_rollbackCount (s : RunnerState) (i : Nat) (t : TaskSpec) :
    (handleTaskError s i t).rollbackCount = s.rollbackCount := by
  simp only [handleTaskError]
  rw [setUnitPC_eq, scheduleReady_eq, updStatus_eq]

theorem acquireSuccess_rollbackCount (s : RunnerState) (i : Nat) (t : TaskSpec) :
    (acquireSuccess s i t).rollbackCount = s.rollbackCount := by
  simp only [acquireSuccess]
  split
  · rw [setUnitPC_eq, updStatus_eq]
  · rw [handleTaskError_rollbackCount, updStatus_eq]

theorem tryAcquire_rollbackCount (s : RunnerState) (i : Nat) (t : TaskSpec) :
    (tryAcquire s i t).rollbackCount = s.rollbackCount := by
  simp only [tryAcquire]
  split
  · rw [acquireSuccess_rollbackCount]
  · rw [setUnitPC_eq]

theorem rollbackOne_rollbackCount (s : RunnerState) (id : TaskId) :
    (rollbackOne s id).rollbackCount = s.rollbackCount := by
  simp only [rollbackOne]
  split
  · split
    · rw [updStatus_eq]
    · rfl
  · split
    · rw [updStatus_eq]
    · rfl

theorem rollbackFold_rollbackCount (l : List TaskId) (s : RunnerState) :
    (l.foldl rollbackOne s).rollbackCount = s.rollbackCount := by
  induction l generalizing s with
  | nil => rfl
  | cons id rest ih => rw [List.foldl_cons, ih, rollbackOne_rollbackCount]

theorem rollbackTask_rollbackCount (s : RunnerState) (t : TaskSpec) :
    (rollbackTask s t).rollbackCount = s.rollbackCount + 1 := by
  simp only [rollbackTask]
  split
  · rw [scheduleReady_eq]
    simp only [RunnerState.rollbackCount]
    rw [rollbackFold_rollbackCount]
  · simp only [RunnerState.rollbackCount]
    rw [rollbackFold_rollbackCount]

theorem rollbackBlock_rollbackCount (s : RunnerState) (i : Nat) (t : TaskSpec) :
    (rollbackBlock s i t).rollbackCount = s.rollbackCount + 1 := by
  simp only [rollbackBlock]
  rw [setUnitPC_eq]
  simp only [RunnerState.rollbackCount]
  rw [rollbackTask_rollbackCount]

theorem stepLabel_wake_execFail (s : RunnerState) (i : Nat) (u : UnitState) (fc : Nat)
    (hu : s.units[i]? = some u) (hc : u.cancelled = false) (hpc : u.pc = .execFailBackoff fc) :
    stepLabel s (.unitStep i .wake) = execFailWake s i u.task fc := by
  cases u with
  | mk task pc cancelled =>
    cases hpc
    cases hc
    simp only [stepLabel, hu]
    rfl

/-- C5: retry/rollback threshold semantics.  General part: a unit waking from
the execution-failure backoff with remembered pre-increment count `fc` (i.e.
after its `fc + 1`-st recorded failure) invokes the Rollback Engine exactly
when `fc + 1 ≥ maxFailures`, and otherwise retries in place.  Concrete part
(`c5Trace`, `maxFailures = 3`): a task that fails twice and then succeeds is
retried in place twice (back to `doing` with failure counts 1 and 2), ends
with status `done` in `completed_tasks`, has its failure-count entry removed,
and never triggers a rollback. -/
theorem c5_retry_and_rollback_threshold (s : RunnerState) (i : Nat) (u : UnitState) (fc : Nat)
    (hu : s.units[i]? = some u) (hc : u.cancelled = false)
    (hpc : u.pc = .execFailBackoff fc) :
    ((stepLabel s (.unitStep i .wake)).rollbackCount = s.rollbackCount + 1 ↔
      s.maxFailures ≤ fc + 1) ∧
    getStatus (runTrace c5Start c5Trace) "A" = "done" ∧
    "A" ∈ (runTrace c5Start c5Trace).completedTasks ∧
    lookupO (runTrace c5Start c5Trace).taskFailureCount "A" = none ∧
    (runTrace c5Start c5Trace).rollbackCount = 0 ∧
    getStatus (runTrace c5Start (c5Trace.take 3)) "A" = "doing" ∧
    lookupD (runTrace c5Start (c5Trace.take 3)).taskFailureCount "A" 0 = 1 ∧
    getStatus (runTrace c5Start (c5Trace.take 5)) "A" = "doing" ∧
    lookupD (runTrace c5Start (c5Trace.take 5)).taskFailureCount "A" 0 = 2 := by
  refine ⟨?_, by decide, by decide, by decide, by decide, by decide, by decide, by decide,
    by decide⟩
  rw [stepLabel_wake_execFail s i u fc hu hc hpc]
  simp only [execFailWake]
  by_cases hlt : fc < s.maxFailures - 1
  · rw [if_pos hlt]
    split
    · rw [tryAcquire_rollbackCount]
      simp only [RunnerState.rollbackCount]
      exact iff_of_false (by omega) (by omega)
    · rw [setUnitPC_eq]
      simp only [RunnerState.rollbackCount]
      exact iff_of_false (by omega) (by omega)
  · rw [if_neg hlt]
    rw [rollbackBlock_rollbackCount]
    exact iff_of_true (by rfl) (by omega)

/-- Witness for C5: the threshold equivalence applied at the concrete state
after two steps of `c5Trace` (first failure recorded, unit parked in the
execution-failure backoff with `fc = 0` and `maxFailures = 3`). -/
theorem c5_retry_and_rollback_threshold_witness :
    (stepLabel (runTrace c5Start (c5Trace.take 2)) (.unitStep 0 .wake)).rollbackCount =
      (runTrace c5Start (c5Trace.take 2)).rollbackCount + 1 ↔
    (runTrace c5Start (c5Trace.take 2)).maxFailures ≤ 0 + 1 :=
  (c5_retry_and_rollback_threshold (runTrace c5Start (c5Trace.take 2)) 0
    { task := ⟨"A", [], true⟩, pc := .execFailBackoff 0, cancelled := false } 0
    (by decide) (by decide) (by decide)).1

theorem taskMapGet_id (chain : List TaskSpec) (id : TaskId) (x : TaskSpec)
    (h : taskMapGet chain id = some x) : x.task_id = id := by
  have := List.find?_some h
  simpa using this

theorem updStatus_of_mem (s : RunnerState) (id : TaskId) (st : String)
    (h : (taskMapGet s.chain id).isSome = true) :
    updStatus s id st = { s with statuses := setKey s.statuses id st } := by
  simp only [updStatus]
  rcases hx : taskMapGet s.chain id with _ | x
  · rw [hx] at h; cases h
  · rfl

theorem spawnFold_preserves_handle (l : List TaskSpec) (s : RunnerState) (k : TaskId)
    (h : (lookupO s.taskTasks k).isSome = true) :
    (lookupO (l.foldl (fun s' t =>
      if (lookupO s'.taskTasks t.task_id).isSome then s' else spawnUnit s' t) s).taskTasks
      k).isSome = true := by
  induction l generalizing s with
  | nil => exact h
  | cons t rest ih =>
    simp only [List.foldl_cons]
    apply ih
    split
    · exact h
    · by_cases hk : t.task_id = k
      · subst hk; simp [spawnUnit, lookupO_setKey_same]
      · simp only [spawnUnit]
        rw [lookupO_setKey_other _ _ _ _ hk]
        exact h

theorem spawnFold_spawns (l : List TaskSpec) (s : RunnerState) (t : TaskSpec) (ht : t ∈ l) :
    (lookupO (l.foldl (fun s' t' =>
      if (lookupO s'.taskTasks t'.task_id).isSome then s' else spawnUnit s' t') s).taskTasks
      t.task_id).isSome = true := by
  induction l generalizing s with
  | nil => cases ht
  | cons t' rest ih =>
    simp only [List.foldl_cons]
    rcases List.mem_cons.mp ht with rfl | hmem
    · apply spawnFold_preserves_handle
      split
      · assumption
      · simp [spawnUnit, lookupO_setKey_same]
    · exact ih _ hmem

theorem scheduleReady_spawns (s : RunnerState) (l : List TaskSpec) (t : TaskSpec)
    (ht : t ∈ l) (hrun : s.isRunning = true)
    (h1 : t.task_id ∉ s.completedTasks) (h2 : t.task_id ∉ s.runningTasks)
    (h3 : t.task_id ∈ s.pendingTasks) (h4 : depsSatisfied s t = true) :
    (lookupO (scheduleReady s l).taskTasks t.task_id).isSome = true := by
  simp only [scheduleReady]
  rw [if_neg]
  · exact spawnFold_spawns _ s t (List.mem_filter.mpr ⟨ht, by simp [h1, h2, h3, h4]⟩)
  · rintro (hnil | hfalse)
    · rw [hnil] at ht; cases ht
    · rw [hrun] at hfalse; cases hfalse

theorem setUnitPC_taskTasks (s : RunnerState) (i : Nat) (pc : UnitPC) :
    (setUnitPC s i pc).taskTasks = s.taskTasks := by
  simp only [setUnitPC]
  split <;> rfl

/-- C6: a unit that exhausts the 50-attempt slot-acquisition bound while the
run is active marks its task `done`, adds it to `completed_tasks`, removes it
from `pending_tasks` and `running_tasks`, leaves the failure-count map and the
pool untouched, never invokes rollback, never reaches the executor or the
validator, and schedules every ready direct dependent that has no in-flight
handle. -/
theorem c6_slot_exhaustion_fallback (s : RunnerState) (i : Nat) (u : UnitState)
    (hu : s.units[i]? = some u) (hc : u.cancelled = false) (hpc : u.pc = .sleeping 49)
    (hrun : s.isRunning = true)
    (hmap : taskMapGet s.chain u.task.task_id = some u.task) :
    getStatus (stepLabel s (.unitStep i .wake)) u.task.task_id = "done" ∧
    u.task.task_id ∈ (stepLabel s (.unitStep i .wake)).completedTasks ∧
    u.task.task_id ∉ (stepLabel s (.unitStep i .wake)).pendingTasks ∧
    u.task.task_id ∉ (stepLabel s (.unitStep i .wake)).runningTasks ∧
    (stepLabel s (.unitStep i .wake)).taskFailureCount = s.taskFailureCount ∧
    (stepLabel s (.unitStep i .wake)).rollbackCount = s.rollbackCount ∧
    (stepLabel s (.unitStep i .wake)).everExecuting = s.everExecuting ∧
    (stepLabel s (.unitStep i .wake)).everValidating = s.everValidating ∧
    (stepLabel s (.unitStep i .wake)).pool = s.pool ∧
    (∀ d td, taskMapGet s.chain d = some td → d ∈ dependentsOf s.chain u.task.task_id →
      d ∉ s.completedTasks → d ∉ s.runningTasks → d ∈ s.pendingTasks →
      d ≠ u.task.task_id →
      depsSatisfied { s with completedTasks := insert u.task.task_id s.completedTasks } td =
        true →
      (lookupO (stepLabel s (.unitStep i .wake)).taskTasks d).isSome = true) := by
  have hred : stepLabel s (.unitStep i .wake) = fallbackBlock s i u.task := by
    have h1 : stepLabel s (.unitStep i .wake) = sleepWake s i u.task 49 := by
      cases u with
      | mk task pc cancelled =>
        cases hpc; cases hc
        simp only [stepLabel, hu]
        rfl
    rw [h1]
    simp only [sleepWake]
    rw [if_neg]
    rintro ⟨-, h50⟩
    omega
  rw [hred]
  simp only [fallbackBlock]
  rw [updStatus_of_mem]
  · refine ⟨?_, ?_, ?_, ?_, ?_, ?_, ?_, ?_, ?_, ?_⟩
    · rw [setUnitPC_eq, scheduleReady_eq]
      simp [getStatus, lookupD_setKey_same]
    · rw [setUnitPC_eq, scheduleReady_eq]
      exact Finset.mem_insert_self _ _
    · rw [setUnitPC_eq, scheduleReady_eq]
      exact Finset.not_mem_erase _ _
    · rw [setUnitPC_eq, scheduleReady_eq]
      exact Finset.not_mem_erase _ _
    · rw [setUnitPC_eq, scheduleReady_eq]
    · rw [setUnitPC_eq, scheduleReady_eq]
    · rw [setUnitPC_eq, scheduleReady_eq]
    · rw [setUnitPC_eq, scheduleReady_eq]
    · rw [setUnitPC_eq, scheduleReady_eq]
    · intro d td hmapd hdep hd1 hd2 hd3 hne hds
      have hid : td.task_id = d := taskMapGet_id _ _ _ hmapd
      rw [setUnitPC_taskTasks, ← hid]
      apply scheduleReady_spawns _ _ td
      · exact List.mem_filterMap.mpr ⟨d, hdep, hmapd⟩
      · exact hrun
      · rw [hid]
        intro hmem
        rcases Finset.mem_insert.mp hmem with h | h
        · exact hne h
        · exact hd1 h
      · rw [hid]
        intro hmem
        exact hd2 (Finset.mem_of_mem_erase hmem)
      · rw [hid]
        exact Finset.mem_erase.mpr ⟨hne, hd3⟩
      · exact hds
  · simp [hmap]

/-! ## Key-set lemmas for the counting pool -/

theorem keysOf_length {α : Type} (m : List (TaskId × α)) : (keysOf m).length = m.length :=
  List.length_map m _

theorem keysOf_cons {α : Type} (e : TaskId × α) (rest : List (TaskId × α)) :
    keysOf (e :: rest) = e.1 :: keysOf rest := rfl

theorem lookupO_isSome_iff {α : Type} (m : List (TaskId × α)) (k : TaskId) :
    (lookupO m k).isSome = true ↔ k ∈ keysOf m := by
  induction m with
  | nil => simp [lookupO, keysOf]
  | cons e rest ih =>
    by_cases h : e.1 = k
    · simp [lookupO, h, keysOf_cons]
    · simp only [lookupO, h, if_false, keysOf_cons, List.mem_cons]
      rw [ih]
      constructor
      · intro hm; exact Or.inr hm
      · rintro (rfl | hm)
        · exact absurd rfl h
        · exact hm

theorem keysOf_setKey_present {α : Type} (m : List (TaskId × α)) (k : TaskId) (v : α)
    (h : k ∈ keysOf m) : keysOf (setKey m k v) = keysOf m := by
  induction m with
  | nil => simp [keysOf] at h
  | cons e rest ih =>
    by_cases he : e.1 = k
    · simp [setKey, he, keysOf_cons]
    · have hr : k ∈ keysOf rest := by
        rw [keysOf_cons, List.mem_cons] at h
        rcases h with rfl | h
        · exact absurd rfl he
        · exact h
      rw [show setKey (e :: rest) k v = e :: setKey rest k v by simp [setKey, he]]
      rw [keysOf_cons, keysOf_cons, ih hr]

theorem keysOf_setKey_absent {α : Type} (m : List (TaskId × α)) (k : TaskId) (v : α)
    (h : k ∉ keysOf m) : keysOf (setKey m k v) = keysOf m ++ [k] := by
  induction m with
  | nil => simp [setKey, keysOf]
  | cons e rest ih =>
    have he : e.1 ≠ k := by
      intro hh
      exact h (by rw [keysOf_cons, hh]; exact List.mem_cons_self _ _)
    have hr : k ∉ keysOf rest := by
      intro hh
      exact h (by rw [keysOf_cons]; exact List.mem_cons_of_mem _ hh)
    rw [show setKey (e :: rest) k v = e :: setKey rest k v by simp [setKey, he]]
    rw [keysOf_cons, keysOf_cons, ih hr, List.cons_append]

theorem keysOf_removeKey {α : Type} (m : List (TaskId × α)) (k : TaskId) :
    keysOf (removeKey m k) = (keysOf m).erase k := by
  induction m with
  | nil => simp [removeKey, keysOf]
  | cons e rest ih =>
    by_cases he : e.1 = k
    · rw [show removeKey (e :: rest) k = rest by simp [removeKey, he]]
      rw [keysOf_cons, he, List.erase_cons_head]
    · rw [show removeKey (e :: rest) k = e :: removeKey rest k by simp [removeKey, he]]
      rw [keysOf_cons, keysOf_cons, ih, List.erase_cons_tail]
      simp [he]

theorem setKey_length_present {α : Type} (m : List (TaskId × α)) (k : TaskId) (v : α)
    (h : k ∈ keysOf m) : (setKey m k v).length = m.length := by
  rw [← keysOf_length, keysOf_setKey_present m k v h, keysOf_length]

theorem setKey_length_absent {α : Type} (m : List (TaskId × α)) (k : TaskId) (v : α)
    (h : k ∉ keysOf m) : (setKey m k v).length = m.length + 1 := by
  rw [← keysOf_length, keysOf_setKey_absent m k v h]
  simp [keysOf_length]

theorem removeKey_length_present {α : Type} (m : List (TaskId × α)) (k : TaskId)
    (h : k ∈ keysOf m) : (removeKey m k).length + 1 = m.length := by
  rw [← keysOf_length, keysOf_removeKey, List.length_erase_of_mem h, keysOf_length]
  have : 1 ≤ m.length := by
    rcases m with _ | _
    · simp [keysOf] at h
    · simp
  omega

/-! ## Pool-operation invariant lemmas -/

theorem poolInv_assign (p : PoolState) (id : TaskId) (h : PoolInv p) :
    PoolInv (assignTask p id).1 := by
  simp only [assignTask]
  split
  · exact h
  · rename_i hlt
    by_cases hmem : id ∈ keysOf p.taskStatus
    · refine ⟨?_, ?_, ?_⟩
      · show p.slotsInUse + 1 ≤ p.maxConcurrency
        omega
      · show (keysOf (setKey p.taskStatus id "busy")).Nodup
        rw [keysOf_setKey_present _ _ _ hmem]
        exact h.keys_nodup
      · show (setKey p.taskStatus id "busy").length ≤ p.slotsInUse + 1
        rw [setKey_length_present _ _ _ hmem]
        have := h.len_le
        omega
    · refine ⟨?_, ?_, ?_⟩
      · show p.slotsInUse + 1 ≤ p.maxConcurrency
        omega
      · show (keysOf (setKey p.taskStatus id "busy")).Nodup
        rw [keysOf_setKey_absent _ _ _ hmem]
        rw [List.nodup_append]
        exact ⟨h.keys_nodup, List.nodup_singleton _, by
          intro a ha hb
          rw [List.mem_singleton] at hb
          subst hb
          exact hmem ha⟩
      · show (setKey p.taskStatus id "busy").length ≤ p.slotsInUse + 1
        rw [setKey_length_absent _ _ _ hmem]
        have := h.len_le
        omega

theorem poolInv_release (p : PoolState) (id : TaskId) (h : PoolInv p) :
    PoolInv (releaseByTaskId p id).1 := by
  simp only [releaseByTaskId]
  split
  · rename_i hsome
    have hmem : id ∈ keysOf p.taskStatus := (lookupO_isSome_iff _ _).mp hsome
    refine ⟨?_, ?_, ?_⟩
    · show p.slotsInUse - 1 ≤ p.maxConcurrency
      have := h.slots_le
      omega
    · show (keysOf (removeKey p.taskStatus id)).Nodup
      rw [keysOf_removeKey]
      exact h.keys_nodup.erase _
    · show (removeKey p.taskStatus id).length ≤ p.slotsInUse - 1
      have h1 := removeKey_length_present p.taskStatus id hmem
      have h2 := h.len_le
      omega
  · exact h

theorem poolInv_setStatus (p : PoolState) (id : TaskId) (st : String) (h : PoolInv p) :
    PoolInv (setTaskStatus p id st) := by
  simp only [setTaskStatus]
  split
  · rename_i hsome
    have hmem : id ∈ keysOf p.taskStatus := (lookupO_isSome_iff _ _).mp hsome
    refine ⟨h.slots_le, ?_, ?_⟩
    · show (keysOf (setKey p.taskStatus id st)).Nodup
      rw [keysOf_setKey_present _ _ _ hmem]
      exact h.keys_nodup
    · show (setKey p.taskStatus id st).length ≤ p.slotsInUse
      rw [setKey_length_present _ _ _ hmem]
      exact h.len_le
  · exact h

theorem lookupO_release_other (p : PoolState) (id id' : TaskId) (h : id' ≠ id) :
    lookupO (releaseByTaskId p id).1.taskStatus id' = lookupO p.taskStatus id' := by
  simp only [releaseByTaskId]
  split
  · exact lookupO_removeKey_other _ _ _ (Ne.symm h)
  · rfl

theorem lookupO_assign_other (p : PoolState) (id id' : TaskId) (h : id' ≠ id) :
    lookupO (assignTask p id).1.taskStatus id' = lookupO p.taskStatus id' := by
  simp only [assignTask]
  split
  · rfl
  · exact lookupO_setKey_other _ _ _ _ (Ne.symm h)

theorem lookupO_setStatus_isSome (p : PoolState) (id : TaskId) (st : String) (id' : TaskId) :
    (lookupO (setTaskStatus p id st).taskStatus id').isSome =
      (lookupO p.taskStatus id').isSome := by
  simp only [setTaskStatus]
  split
  · rename_i hsome
    by_cases h : id = id'
    · subst h
      rw [lookupO_setKey_same, hsome]
      rfl
    · rw [lookupO_setKey_other _ _ _ _ h]
  · rfl

/-! ## Unit-list witness lemmas -/

theorem getElem?_some_lt {α : Type} {l : List α} {i : Nat} {x : α} (h : l[i]? = some x) :
    i < l.length := by
  by_contra hle
  rw [List.getElem?_eq_none (by omega)] at h
  cases h

theorem failWitness_set_pc {units : List UnitState} {i : Nat} {x : UnitState} {id : TaskId}
    (hsafe : ∀ u, units[i]? = some u → isExecFailBackoff u.pc = false)
    (h : ∃ (j : Nat) (u : UnitState), units[j]? = some u ∧ u.task.task_id = id ∧
      isExecFailBackoff u.pc = true) :
    ∃ (j : Nat) (u : UnitState), (units.set i x)[j]? = some u ∧ u.task.task_id = id ∧
      isExecFailBackoff u.pc = true := by
  obtain ⟨j, u, hj, hid, hfail⟩ := h
  by_cases hij : i = j
  · subst hij
    rw [hsafe u hj] at hfail
    cases hfail
  · exact ⟨j, u, by rw [List.getElem?_set_ne hij]; exact hj, hid, hfail⟩

theorem failWitness_set_id {units : List UnitState} {i : Nat} {x : UnitState} {id : TaskId}
    (hne : ∀ u, units[i]? = some u → u.task.task_id ≠ id)
    (h : ∃ (j : Nat) (u : UnitState), units[j]? = some u ∧ u.task.task_id = id ∧
      isExecFailBackoff u.pc = true) :
    ∃ (j : Nat) (u : UnitState), (units.set i x)[j]? = some u ∧ u.task.task_id = id ∧
      isExecFailBackoff u.pc = true := by
  obtain ⟨j, u, hj, hid, hfail⟩ := h
  by_cases hij : i = j
  · subst hij
    exact absurd hid (hne u hj)
  · exact ⟨j, u, by rw [List.getElem?_set_ne hij]; exact hj, hid, hfail⟩

theorem failWitness_append {units extra : List UnitState} {id : TaskId}
    (h : ∃ (j : Nat) (u : UnitState), units[j]? = some u ∧ u.task.task_id = id ∧
      isExecFailBackoff u.pc = true) :
    ∃ (j : Nat) (u : UnitState), (units ++ extra)[j]? = some u ∧ u.task.task_id = id ∧
      isExecFailBackoff u.pc = true := by
  obtain ⟨j, u, hj, hid, hfail⟩ := h
  refine ⟨j, u, ?_, hid, hfail⟩
  rw [List.getElem?_append_left (getElem?_some_lt hj)]
  exact hj

/-- The spawn loop of `_schedule_ready_tasks` only appends fresh units, each
uncancelled and parked at the spawn point. -/
theorem spawnFold_units (l : List TaskSpec) (s : RunnerState) :
    ∃ extra, (l.foldl (fun s' t =>
      if (lookupO s'.taskTasks t.task_id).isSome then s' else spawnUnit s' t) s).units =
      s.units ++ extra ∧ ∀ u ∈ extra, u.cancelled = false ∧ u.pc = .spawned := by
  induction l generalizing s with
  | nil => exact ⟨[], by simp⟩
  | cons t rest ih =>
    simp only [List.foldl_cons]
    obtain ⟨extra, hex, hce⟩ :=
      ih (if (lookupO s.taskTasks t.task_id).isSome then s else spawnUnit s t)
    by_cases hc : (lookupO s.taskTasks t.task_id).isSome = true
    · rw [if_pos hc] at hex
      exact ⟨extra, by rw [if_pos hc]; exact hex, hce⟩
    · rw [if_neg hc] at hex
      refine ⟨{ task := t, pc := .spawned, cancelled := false } :: extra, ?_, ?_⟩
      · rw [if_neg hc, hex]
        simp [spawnUnit]
      · intro u hu
        rcases List.mem_cons.mp hu with rfl | hu
        · exact ⟨rfl, rfl⟩
        · exact hce u hu

theorem scheduleReady_units (s : RunnerState) (l : List TaskSpec) :
    ∃ extra, (scheduleReady s l).units = s.units ++ extra ∧
      ∀ u ∈ extra, u.cancelled = false ∧ u.pc = .spawned := by
  simp only [scheduleReady]
  split
  · exact ⟨[], by simp⟩
  · exact spawnFold_units _ s

/-! ## Pending/completed disjointness helpers -/

theorem pendComp_move {P C : Finset TaskId} (t : TaskId) (h : ∀ x ∈ P, x ∉ C) :
    ∀ x ∈ P.erase t, x ∉ insert t C := by
  intro x hx hins
  rcases Finset.mem_insert.mp hins with rfl | hC
  · exact Finset.ne_of_mem_erase hx rfl
  · exact h x (Finset.mem_of_mem_erase hx) hC

theorem pendComp_unmove {P C : Finset TaskId} (t : TaskId) (h : ∀ x ∈ P, x ∉ C) :
    ∀ x ∈ insert t P, x ∉ C.erase t := by
  intro x hx hC
  rcases Finset.mem_insert.mp hx with rfl | hP
  · exact Finset.ne_of_mem_erase hC rfl
  · exact h x hP (Finset.mem_of_mem_erase hC)

theorem pendComp_cerase {P C : Finset TaskId} (t : TaskId) (h : ∀ x ∈ P, x ∉ C) :
    ∀ x ∈ P, x ∉ C.erase t := fun x hx hC => h x hx (Finset.mem_of_mem_erase hC)

theorem poolInv_releaseFold (ids : List TaskId) (p : PoolState) (h : PoolInv p) :
    PoolInv (ids.foldl (fun p' id => (releaseByTaskId p' id).1) p) := by
  induction ids generalizing p with
  | nil => exact h
  | cons id rest ih => exact ih _ (poolInv_release p id h)

/-! ## Invariant preservation, block by block -/

theorem runnerInv_stopAsync (s : RunnerState) (h : RunnerInv s) : RunnerInv (stopAsync s) := by
  simp only [stopAsync]
  refine ⟨?_, ?_, ?_, ?_, ?_⟩
  · exact poolInv_releaseFold _ _ h.pool_inv
  · intro id hid
    exact absurd hid (Finset.not_mem_empty id)
  · intro _
    rfl
  · intro hr
    cases hr
  · exact h.pend_comp

theorem failWitness_set_mixed {units : List UnitState} {i : Nat} {x : UnitState} {id : TaskId}
    (hmix : ∀ u, units[i]? = some u → isExecFailBackoff u.pc = false ∨ u.task.task_id ≠ id)
    (h : ∃ (j : Nat) (u : UnitState), units[j]? = some u ∧ u.task.task_id = id ∧
      isExecFailBackoff u.pc = true) :
    ∃ (j : Nat) (u : UnitState), (units.set i x)[j]? = some u ∧ u.task.task_id = id ∧
      isExecFailBackoff u.pc = true := by
  obtain ⟨j, u, hj, hid, hfail⟩ := h
  by_cases hij : i = j
  · subst hij
    rcases hmix u hj with hpc | hne
    · rw [hpc] at hfail; cases hfail
    · exact absurd hid hne
  · exact ⟨j, u, by rw [List.getElem?_set_ne hij]; exact hj, hid, hfail⟩

theorem runnerInv_updStatus (s : RunnerState) (id : TaskId) (st : String) (h : RunnerInv s) :
    RunnerInv (updStatus s id st) := by
  rw [updStatus_eq]
  exact ⟨h.pool_inv, h.running_acct, h.stopped_empty, h.active_uncancelled, h.pend_comp⟩

theorem runnerInv_scheduleReady (s : RunnerState) (l : List TaskSpec) (h : RunnerInv s) :
    RunnerInv (scheduleReady s l) := by
  obtain ⟨extra, hex, hce⟩ := scheduleReady_units s l
  rw [scheduleReady_eq]
  refine ⟨h.pool_inv, ?_, h.stopped_empty, ?_, h.pend_comp⟩
  · intro id hid
    rcases h.running_acct id hid with hp | hw
    · exact Or.inl hp
    · right
      show ∃ (j : Nat) (u : UnitState), (scheduleReady s l).units[j]? = some u ∧
        u.task.task_id = id ∧ isExecFailBackoff u.pc = true
      rw [hex]
      exact failWitness_append hw
  · intro hr u hu
    show u.cancelled = false
    have hu' : u ∈ (scheduleReady s l).units := hu
    rw [hex] at hu'
    rcases List.mem_append.mp hu' with hold | hnew
    · exact h.active_uncancelled hr u hold
    · exact (hce u hnew).1

theorem runnerInv_setUnitPC (s : RunnerState) (i : Nat) (pc' : UnitPC) (h : RunnerInv s)
    (hmix : pcSwapSafe s i) :
    RunnerInv (setUnitPC s i pc') := by
  simp only [setUnitPC]
  rcases hui : s.units[i]? with _ | u
  · exact h
  · refine ⟨h.pool_inv, ?_, h.stopped_empty, ?_, h.pend_comp⟩
    · intro id hid
      rcases h.running_acct id hid with hp | hw
      · exact Or.inl hp
      · rcases hmix u hui with hpc | hpool
        · right
          apply failWitness_set_mixed ?_ hw
          intro u' hu'
          rw [hui] at hu'
          injection hu' with hequ
          subst hequ
          exact Or.inl hpc
        · by_cases heq : u.task.task_id = id
          · exact Or.inl (hpool id hid heq)
          · right
            apply failWitness_set_mixed ?_ hw
            intro u' hu'
            rw [hui] at hu'
            injection hu' with hequ
            subst hequ
            exact Or.inr heq
    · intro hr u' hu'
      rcases List.mem_or_eq_of_mem_set hu' with hold | rfl
      · exact h.active_uncancelled hr u' hold
      · exact h.active_uncancelled hr u (List.getElem?_mem hui)

/-- The common tail of several blocks: schedule a candidate list, then park
the acting unit at a new suspension point. -/
theorem runnerInv_finish (X : RunnerState) (l : List TaskSpec) (i : Nat) (pc' : UnitPC)
    (hX : RunnerInv X) (hmixX : pcSwapSafe X i) :
    RunnerInv (setUnitPC (scheduleReady X l) i pc') := by
  apply runnerInv_setUnitPC _ _ _ (runnerInv_scheduleReady X l hX)
  intro u hu
  obtain ⟨extra, hex, hce⟩ := scheduleReady_units X l
  rw [hex] at hu
  by_cases hlt : i < X.units.length
  · rw [List.getElem?_append_left hlt] at hu
    rcases hmixX u hu with hpc | hpool
    · exact Or.inl hpc
    · right
      intro id hid heq
      have hid' : id ∈ X.runningTasks := by
        rw [scheduleReady_eq] at hid
        exact hid
      show (lookupO (scheduleReady X l).pool.taskStatus id).isSome = true
      rw [scheduleReady_eq]
      exact hpool id hid' heq
  · rw [List.getElem?_append_right (by omega)] at hu
    left
    rw [(hce u (List.getElem?_mem hu)).2]
    rfl

theorem runnerInv_completeMove (s : RunnerState) (tid : TaskId) (h : RunnerInv s) :
    RunnerInv { s with completedTasks := insert tid s.completedTasks,
                       runningTasks := s.runningTasks.erase tid,
                       pendingTasks := s.pendingTasks.erase tid } := by
  refine ⟨h.pool_inv, ?_, ?_, h.active_uncancelled, pendComp_move tid h.pend_comp⟩
  · intro id hid
    exact h.running_acct id (Finset.mem_of_mem_erase hid)
  · intro hr
    show s.runningTasks.erase tid = ∅
    rw [h.stopped_empty hr]
    exact Finset.erase_empty tid

/-- The combined effect of releasing the slot of `tid` and moving `tid` from
`pending`/`running` into `completed` preserves the invariant, even when the
incoming state only accounts for running ids other than `tid`. -/
theorem runnerInv_errorMove (s : RunnerState) (tid : TaskId)
    (hpool : PoolInv s.pool)
    (hacct : ∀ id ∈ s.runningTasks, id ≠ tid → runningWitness s id)
    (hstop : s.isRunning = false → s.runningTasks ⊆ {tid})
    (hactive : s.isRunning = true → ∀ u ∈ s.units, u.cancelled = false)
    (hpc : ∀ x ∈ s.pendingTasks, x ∉ s.completedTasks) :
    RunnerInv { s with pool := (releaseByTaskId s.pool tid).1,
                       completedTasks := insert tid s.completedTasks,
                       runningTasks := s.runningTasks.erase tid,
                       pendingTasks := s.pendingTasks.erase tid } := by
  refine ⟨poolInv_release _ _ hpool, ?_, ?_, hactive, pendComp_move tid hpc⟩
  · intro id hid
    have hne : id ≠ tid := Finset.ne_of_mem_erase hid
    rcases hacct id (Finset.mem_of_mem_erase hid) hne with hp | hw
    · left
      show (lookupO (releaseByTaskId s.pool tid).1.taskStatus id).isSome = true
      rw [lookupO_release_other _ _ _ hne]
      exact hp
    · exact Or.inr hw
  · intro hr
    show s.runningTasks.erase tid = ∅
    rw [← Finset.subset_empty]
    intro x hx
    have hx1 := hstop hr (Finset.mem_of_mem_erase hx)
    rw [Finset.mem_singleton] at hx1
    exact absurd hx1 (Finset.ne_of_mem_erase hx)


theorem runnerInv_handleTaskError (s : RunnerState) (i : Nat) (t : TaskSpec)
    (hpool : PoolInv s.pool)
    (hacct : ∀ id ∈ s.runningTasks, id ≠ t.task_id → runningWitness s id)
    (hstop : s.isRunning = false → s.runningTasks ⊆ {t.task_id})
    (hactive : s.isRunning = true → ∀ u ∈ s.units, u.cancelled = false)
    (hpc : ∀ x ∈ s.pendingTasks, x ∉ s.completedTasks)
    (hmix : ∀ u, s.units[i]? = some u →
      isExecFailBackoff u.pc = false ∨ u.task.task_id = t.task_id) :
    RunnerInv (handleTaskError s i t) := by
  simp only [handleTaskError]
  apply runnerInv_finish
  · exact runnerInv_updStatus _ _ _
      (runnerInv_errorMove s t.task_id hpool hacct hstop hactive hpc)
  · intro u hu
    rw [updStatus_eq] at hu
    have hu' : s.units[i]? = some u := hu
    rcases hmix u hu' with hpc' | hid
    · exact Or.inl hpc'
    · right
      intro id hidr heq
      rw [updStatus_eq] at hidr
      have hm : id ∈ s.runningTasks.erase t.task_id := hidr
      exact absurd (hid.symm.trans heq).symm (Finset.ne_of_mem_erase hm)

theorem runnerInv_acquireSuccess (s : RunnerState) (i : Nat) (t : TaskSpec) (h : RunnerInv s)
    (hrun : s.isRunning = true)
    (htid : (lookupO s.pool.taskStatus t.task_id).isSome = true)
    (hmix : ∀ u, s.units[i]? = some u →
      isExecFailBackoff u.pc = false ∨ u.task.task_id = t.task_id) :
    RunnerInv (acquireSuccess s i t) := by
  simp only [acquireSuccess]
  have hs1 : RunnerInv { s with runningTasks := insert t.task_id s.runningTasks } := by
    refine ⟨h.pool_inv, ?_, ?_, h.active_uncancelled, h.pend_comp⟩
    · intro id hid
      rcases Finset.mem_insert.mp hid with rfl | hid'
      · exact Or.inl htid
      · exact h.running_acct id hid'
    · intro hr
      rw [hrun] at hr
      cases hr
  split
  · apply runnerInv_setUnitPC
    · have h2 := runnerInv_updStatus _ t.task_id "doing" hs1
      exact ⟨h2.pool_inv, h2.running_acct, h2.stopped_empty, h2.active_uncancelled, h2.pend_comp⟩
    · intro u hu
      rw [updStatus_eq] at hu
      have hu' : s.units[i]? = some u := hu
      rcases hmix u hu' with hpc | hid
      · exact Or.inl hpc
      · right
        intro id hidr heq
        have hide : id = t.task_id := (heq.symm.trans hid)
        subst hide
        show (lookupO (updStatus { s with
          runningTasks := insert t.task_id s.runningTasks } t.task_id
            "doing").pool.taskStatus t.task_id).isSome = true
        rw [updStatus_eq]
        exact htid
  · apply runnerInv_handleTaskError
    · exact poolInv_release _ _ (runnerInv_updStatus _ t.task_id "doing" hs1).pool_inv
    · intro id hid hne
      have hid' : id ∈ insert t.task_id s.runningTasks := by
        rw [updStatus_eq] at hid
        exact hid
      rcases Finset.mem_insert.mp hid' with rfl | hidr
      · exact absurd rfl hne
      · rcases h.running_acct id hidr with hp | hw
        · left
          show (lookupO ((releaseByTaskId (updStatus { s with
            runningTasks := insert t.task_id s.runningTasks } t.task_id
              "doing").pool t.task_id).1).taskStatus id).isSome = true
          rw [updStatus_eq, lookupO_release_other _ _ _ hne]
          exact hp
        · right
          obtain ⟨j, u, hj, hji, hjf⟩ := hw
          refine ⟨j, u, ?_, hji, hjf⟩
          rw [updStatus_eq]
          exact hj
    · intro hr
      rw [updStatus_eq] at hr
      have : s.isRunning = false := hr
      rw [hrun] at this
      cases this
    · intro hr u hu
      rw [updStatus_eq] at hu
      exact h.active_uncancelled hrun u hu
    · intro x hx
      rw [updStatus_eq] at hx ⊢
      intro hc
      exact h.pend_comp x hx hc
    · intro u hu
      rw [updStatus_eq] at hu
      exact hmix u hu

theorem assignTask_none_char (p0 : PoolState) (id : TaskId) (p : PoolState)
    (h : assignTask p0 id = (p, none)) : p = p0 := by
  simp only [assignTask] at h
  split at h
  · exact (Prod.mk.injEq _ _ _ _ ▸ h).1.symm
  · cases (Prod.mk.injEq _ _ _ _ ▸ h).2

theorem assignTask_some_char (p0 : PoolState) (id : TaskId) (p : PoolState) (v : TaskId)
    (h : assignTask p0 id = (p, some v)) :
    p = { p0 with slotsInUse := p0.slotsInUse + 1,
                  taskStatus := setKey p0.taskStatus id "busy" } := by
  simp only [assignTask] at h
  split at h
  · cases (Prod.mk.injEq _ _ _ _ ▸ h).2
  · exact (Prod.mk.injEq _ _ _ _ ▸ h).1.symm

theorem lookupO_assign_isSome_mono (p0 : PoolState) (id id' : TaskId)
    (h : (lookupO p0.taskStatus id').isSome = true) :
    (lookupO (assignTask p0 id).1.taskStatus id').isSome = true := by
  simp only [assignTask]
  split
  · exact h
  · by_cases he : id = id'
    · subst he
      rw [lookupO_setKey_same]
      rfl
    · rw [lookupO_setKey_other _ _ _ _ he]
      exact h

theorem runnerInv_tryAcquire (s : RunnerState) (i : Nat) (t : TaskSpec) (h : RunnerInv s)
    (hrun : s.isRunning = true) (hsafe : pcSwapSafe s i)
    (hmixT : ∀ u, s.units[i]? = some u →
      isExecFailBackoff u.pc = false ∨ u.task.task_id = t.task_id) :
    RunnerInv (tryAcquire s i t) := by
  simp only [tryAcquire]
  split
  · rename_i p v heq
    have hchar := assignTask_some_char s.pool t.task_id p v heq
    apply runnerInv_acquireSuccess
    · refine ⟨?_, ?_, h.stopped_empty, h.active_uncancelled, h.pend_comp⟩
      · show PoolInv p
        rw [show p = (assignTask s.pool t.task_id).1 by rw [heq]]
        exact poolInv_assign _ _ h.pool_inv
      · intro id hid
        rcases h.running_acct id hid with hp | hw
        · left
          show (lookupO p.taskStatus id).isSome = true
          rw [show p = (assignTask s.pool t.task_id).1 by rw [heq]]
          exact lookupO_assign_isSome_mono _ _ _ hp
        · exact Or.inr hw
    · exact hrun
    · show (lookupO p.taskStatus t.task_id).isSome = true
      rw [hchar]
      show (lookupO (setKey s.pool.taskStatus t.task_id "busy") t.task_id).isSome = true
      rw [lookupO_setKey_same]
      rfl
    · exact hmixT
  · rename_i p heq
    have hchar := assignTask_none_char s.pool t.task_id p heq
    subst hchar
    exact runnerInv_setUnitPC _ i (.sleeping 0) h hsafe

theorem runnerInv_fallbackBlock (s : RunnerState) (i : Nat) (t : TaskSpec) (h : RunnerInv s)
    (hmix : ∀ u, s.units[i]? = some u →
      isExecFailBackoff u.pc = false ∨ u.task.task_id = t.task_id) :
    RunnerInv (fallbackBlock s i t) := by
  simp only [fallbackBlock]
  apply runnerInv_finish
  · exact runnerInv_updStatus _ _ _ (runnerInv_completeMove s t.task_id h)
  · intro u hu
    rw [updStatus_eq] at hu
    have hu' : s.units[i]? = some u := hu
    rcases hmix u hu' with hpc | hid
    · exact Or.inl hpc
    · right
      intro id hidr heq
      rw [updStatus_eq] at hidr
      have hm : id ∈ s.runningTasks.erase t.task_id := hidr
      exact absurd (hid.symm.trans heq).symm (Finset.ne_of_mem_erase hm)

theorem setUnitPC_of_some (s : RunnerState) (i : Nat) (u : UnitState) (pc' : UnitPC)
    (hu : s.units[i]? = some u) :
    setUnitPC s i pc' =
      { s with units := s.units.set i { task := u.task, pc := pc', cancelled := u.cancelled } } := by
  simp only [setUnitPC, hu]

theorem runnerInv_execResult (s : RunnerState) (i : Nat) (t : TaskSpec) (ok : Bool)
    (h : RunnerInv s) (u : UnitState) (hu : s.units[i]? = some u)
    (hupc : isExecFailBackoff u.pc = false) (hutid : u.task.task_id = t.task_id) :
    RunnerInv (execResult s i t ok) := by
  simp only [execResult]
  split
  · -- success: move the slot to validating and park in validation
    apply runnerInv_setUnitPC
    · have hbase : RunnerInv
          { s with
            artifacts := insert t.task_id s.artifacts,
            pool := setTaskStatus s.pool t.task_id "validating" } := by
        refine ⟨poolInv_setStatus _ _ _ h.pool_inv, ?_, h.stopped_empty,
          h.active_uncancelled, h.pend_comp⟩
        intro id hid
        rcases h.running_acct id hid with hp | hw
        · left
          show (lookupO (setTaskStatus s.pool t.task_id "validating").taskStatus id).isSome = true
          rw [lookupO_setStatus_isSome]
          exact hp
        · exact Or.inr hw
      have h3 := runnerInv_updStatus _ t.task_id "validating" hbase
      exact ⟨h3.pool_inv, h3.running_acct, h3.stopped_empty, h3.active_uncancelled, h3.pend_comp⟩
    · intro u' hu'
      rw [updStatus_eq] at hu'
      have hu'' : s.units[i]? = some u' := hu'
      rw [hu] at hu''
      injection hu'' with hequ
      subst hequ
      exact Or.inl hupc
  · -- failure: record the failure, release the slot, park in the backoff
    rw [updStatus_eq]
    rw [setUnitPC_of_some _ i u _ (by exact hu)]
    refine ⟨?_, ?_, ?_, ?_, ?_⟩
    · exact poolInv_release _ _ h.pool_inv
    · intro id hid
      have hid' : id ∈ s.runningTasks := hid
      by_cases heq : id = t.task_id
      · subst heq
        right
        refine ⟨i,
          { task := u.task,
            pc := UnitPC.execFailBackoff (lookupD s.taskFailureCount t.task_id 0),
            cancelled := u.cancelled }, ?_, hutid, rfl⟩
        exact List.getElem?_set_eq_of_lt _ (getElem?_some_lt hu)
      · rcases h.running_acct id hid' with hp | hw
        · left
          show (lookupO (releaseByTaskId s.pool t.task_id).1.taskStatus id).isSome = true
          rw [lookupO_release_other _ _ _ heq]
          exact hp
        · right
          apply failWitness_set_mixed ?_ hw
          intro u' hu'
          have hu'' : s.units[i]? = some u' := hu'
          rw [hu] at hu''
          injection hu'' with hequ
          subst hequ
          exact Or.inr (fun hx => heq (hx.symm.trans hutid))
    · intro hr
      exact h.stopped_empty hr
    · intro hr u' hu'
      rcases List.mem_or_eq_of_mem_set hu' with hold | rfl
      · exact h.active_uncancelled hr u' hold
      · exact h.active_uncancelled hr u (List.getElem?_mem hu)
    · exact h.pend_comp

/-- The invariant only reads six fields of the state; transporting it along
equalities of those fields lets record-update chains be replaced by their
normal forms. -/
theorem runnerInv_congr {s s' : RunnerState} (h : RunnerInv s)
    (hpool : s'.pool = s.pool) (hrun : s'.runningTasks = s.runningTasks)
    (hpend : s'.pendingTasks = s.pendingTasks) (hcomp : s'.completedTasks = s.completedTasks)
    (hunits : s'.units = s.units) (hir : s'.isRunning = s.isRunning) : RunnerInv s' := by
  refine ⟨?_, ?_, ?_, ?_, ?_⟩
  · rw [hpool]
    exact h.pool_inv
  · intro id hid
    rw [hrun] at hid
    rcases h.running_acct id hid with hp | hw
    · left
      rw [hpool]
      exact hp
    · right
      rw [hunits]
      exact hw
  · intro hr
    rw [hir] at hr
    rw [hrun]
    exact h.stopped_empty hr
  · intro hr
    rw [hir] at hr
    rw [hunits]
    exact h.active_uncancelled hr
  · intro x hx
    rw [hpend] at hx
    rw [hcomp]
    exact h.pend_comp x hx

theorem runnerInv_valSuccess (s : RunnerState) (i : Nat) (t : TaskSpec) (h : RunnerInv s)
    (u : UnitState) (hu : s.units[i]? = some u)
    (hupc : isExecFailBackoff u.pc = false) :
    RunnerInv (valSuccess s i t) := by
  simp only [valSuccess]
  rw [updStatus_eq]
  apply runnerInv_finish
  · refine runnerInv_congr
      (runnerInv_errorMove s t.task_id h.pool_inv ?_ ?_ h.active_uncancelled h.pend_comp)
      rfl rfl rfl rfl rfl rfl
    · intro id hid _
      exact h.running_acct id hid
    · intro hr
      rw [h.stopped_empty hr]
      exact Finset.empty_subset _
  · intro u' hu'
    have hu'' : s.units[i]? = some u' := hu'
    rw [hu] at hu''
    injection hu'' with hequ
    subst hequ
    exact Or.inl hupc

theorem runnerInv_valFailStep (s : RunnerState) (i : Nat) (t : TaskSpec) (h : RunnerInv s)
    (u : UnitState) (hu : s.units[i]? = some u)
    (hupc : isExecFailBackoff u.pc = false) :
    RunnerInv (valFailStep s i t) := by
  simp only [valFailStep]
  rw [updStatus_eq]
  apply runnerInv_setUnitPC
  · exact runnerInv_congr h rfl rfl rfl rfl rfl rfl
  · intro u' hu'
    have hu'' : s.units[i]? = some u' := hu'
    rw [hu] at hu''
    injection hu'' with hequ
    subst hequ
    exact Or.inl hupc

theorem runnerInv_rollbackOne (s : RunnerState) (id' : TaskId) (h : RunnerInv s) :
    RunnerInv (rollbackOne s id') := by
  simp only [rollbackOne]
  rcases hm : taskMapGet s.chain id' with _ | tk
  · split
    · exact runnerInv_congr h rfl rfl rfl rfl rfl rfl
    · exact h
  · rw [updStatus_eq]
    have hR : RunnerInv
        { s with
          completedTasks := s.completedTasks.erase id',
          pendingTasks := insert id' s.pendingTasks,
          runningTasks := s.runningTasks.erase id',
          statuses := setKey s.statuses id' "undone",
          taskFailureCount := removeKey s.taskFailureCount id',
          taskTasks := removeKey s.taskTasks id',
          pool := (releaseByTaskId s.pool id').1 } := by
      refine ⟨poolInv_release _ _ h.pool_inv, ?_, ?_, h.active_uncancelled,
        pendComp_unmove id' h.pend_comp⟩
      · intro id hid
        have hne : id ≠ id' := Finset.ne_of_mem_erase hid
        rcases h.running_acct id (Finset.mem_of_mem_erase hid) with hp | hw
        · left
          show (lookupO (releaseByTaskId s.pool id').1.taskStatus id).isSome = true
          rw [lookupO_release_other _ _ _ hne]
          exact hp
        · exact Or.inr hw
      · intro hr
        show s.runningTasks.erase id' = ∅
        rw [h.stopped_empty hr]
        exact Finset.erase_empty id'
    split
    · exact runnerInv_congr hR rfl rfl rfl rfl rfl rfl
    · exact runnerInv_congr hR rfl rfl rfl rfl rfl rfl

theorem runnerInv_rollbackFold (lst : List TaskId) (s : RunnerState) (h : RunnerInv s) :
    RunnerInv (lst.foldl rollbackOne s) := by
  induction lst generalizing s with
  | nil => exact h
  | cons id rest ih => exact ih _ (runnerInv_rollbackOne s id h)

theorem runnerInv_rollbackTask (s : RunnerState) (t : TaskSpec) (h : RunnerInv s) :
    RunnerInv (rollbackTask s t) := by
  simp only [rollbackTask]
  split
  · apply runnerInv_scheduleReady
    exact runnerInv_congr (runnerInv_rollbackFold _ s h) rfl rfl rfl rfl rfl rfl
  · exact runnerInv_congr (runnerInv_rollbackFold _ s h) rfl rfl rfl rfl rfl rfl

theorem rollbackOne_running_subset (s : RunnerState) (id' : TaskId) :
    (rollbackOne s id').runningTasks ⊆ s.runningTasks := by
  simp only [rollbackOne]
  rcases hm : taskMapGet s.chain id' with _ | tk
  · split
    · exact fun x hx => hx
    · exact fun x hx => hx
  · rw [updStatus_eq]
    split
    · exact fun x hx => Finset.mem_of_mem_erase hx
    · exact fun x hx => Finset.mem_of_mem_erase hx

theorem rollbackOne_units (s : RunnerState) (id' : TaskId) :
    (rollbackOne s id').units = s.units := by
  simp only [rollbackOne]
  rcases hm : taskMapGet s.chain id' with _ | tk
  · split
    · rfl
    · rfl
  · rw [updStatus_eq]
    split
    · rfl
    · rfl

theorem rollbackFold_running_subset (lst : List TaskId) (s : RunnerState) :
    (lst.foldl rollbackOne s).runningTasks ⊆ s.runningTasks := by
  induction lst generalizing s with
  | nil => exact fun x hx => hx
  | cons id rest ih =>
    exact fun x hx => rollbackOne_running_subset s id (ih (rollbackOne s id) hx)

theorem rollbackFold_units (lst : List TaskId) (s : RunnerState) :
    (lst.foldl rollbackOne s).units = s.units := by
  induction lst generalizing s with
  | nil => rfl
  | cons id rest ih => rw [List.foldl_cons, ih, rollbackOne_units]

theorem rollbackTask_running_subset (s : RunnerState) (t : TaskSpec) :
    (rollbackTask s t).runningTasks ⊆ s.runningTasks := by
  simp only [rollbackTask]
  split
  · intro x hx
    rw [scheduleReady_eq] at hx
    exact rollbackFold_running_subset _ s hx
  · exact rollbackFold_running_subset _ s

theorem units_append_of_scheduleReady (X : RunnerState) (l : List TaskSpec)
    (base : List UnitState) (hX : X.units = base) :
    ∃ extra, (scheduleReady X l).units = base ++ extra ∧
      ∀ u ∈ extra, u.cancelled = false ∧ u.pc = .spawned := by
  obtain ⟨extra, hex, hce⟩ := scheduleReady_units X l
  exact ⟨extra, by rw [hex, hX], hce⟩

theorem rollbackTask_units (s : RunnerState) (t : TaskSpec) :
    ∃ extra, (rollbackTask s t).units = s.units ++ extra ∧
      ∀ u ∈ extra, u.cancelled = false ∧ u.pc = .spawned := by
  simp only [rollbackTask]
  split
  · apply units_append_of_scheduleReady
    exact rollbackFold_units _ s
  · exact ⟨[], by rw [List.append_nil]; exact rollbackFold_units _ s, by simp⟩

theorem runnerInv_rollbackBlock (s : RunnerState) (i : Nat) (t : TaskSpec) (h : RunnerInv s)
    (hnot : ∀ u, s.units[i]? = some u → u.task.task_id ∉ s.runningTasks) :
    RunnerInv (rollbackBlock s i t) := by
  simp only [rollbackBlock]
  apply runnerInv_setUnitPC _ _ _ (runnerInv_rollbackTask s t h)
  intro u hu
  obtain ⟨extra, hex, hce⟩ := rollbackTask_units s t
  rw [hex] at hu
  by_cases hlt : i < s.units.length
  · rw [List.getElem?_append_left hlt] at hu
    right
    intro id hid heq
    have hid' : id ∈ s.runningTasks := rollbackTask_running_subset s t hid
    exact absurd (heq ▸ hid') (hnot u hu)
  · rw [List.getElem?_append_right (by omega)] at hu
    left
    rw [(hce u (List.getElem?_mem hu)).2]
    rfl

theorem runnerInv_execFailWake (s : RunnerState) (i : Nat) (t : TaskSpec) (fc : Nat)
    (h : RunnerInv s) (u : UnitState) (hu : s.units[i]? = some u)
    (hutid : u.task.task_id = t.task_id) :
    RunnerInv (execFailWake s i t fc) := by
  simp only [execFailWake]
  have hs1 : RunnerInv { s with runningTasks := s.runningTasks.erase t.task_id,
                                completedTasks := s.completedTasks.erase t.task_id } := by
    refine ⟨h.pool_inv, ?_, ?_, h.active_uncancelled, pendComp_cerase _ h.pend_comp⟩
    · intro id hid
      exact h.running_acct id (Finset.mem_of_mem_erase hid)
    · intro hr
      show s.runningTasks.erase t.task_id = ∅
      rw [h.stopped_empty hr]
      exact Finset.erase_empty _
  have hnot1 : ∀ u', s.units[i]? = some u' →
      u'.task.task_id ∉ s.runningTasks.erase t.task_id := by
    intro u' hu'
    rw [hu] at hu'
    injection hu' with hequ
    subst hequ
    rw [hutid]
    exact Finset.not_mem_erase _ _
  split
  · split
    · apply runnerInv_tryAcquire _ i t hs1
      · rename_i hrun
        exact hrun
      · intro u' hu'
        exact Or.inr (fun id hid heq => absurd (heq ▸ hid) (hnot1 u' hu'))
      · intro u' hu'
        have hu'' : s.units[i]? = some u' := hu'
        rw [hu] at hu''
        injection hu'' with hequ
        subst hequ
        exact Or.inr hutid
    · apply runnerInv_setUnitPC _ _ _ hs1
      intro u' hu'
      exact Or.inr (fun id hid heq => absurd (heq ▸ hid) (hnot1 u' hu'))
  · exact runnerInv_rollbackBlock _ i t hs1 hnot1

theorem runnerInv_valFailWake (s : RunnerState) (i : Nat) (t : TaskSpec) (fc : Nat)
    (h : RunnerInv s) (u : UnitState) (hu : s.units[i]? = some u)
    (hutid : u.task.task_id = t.task_id) :
    RunnerInv (valFailWake s i t fc) := by
  simp only [valFailWake]
  have hs1 : RunnerInv { s with pool := (releaseByTaskId s.pool t.task_id).1,
                                runningTasks := s.runningTasks.erase t.task_id,
                                completedTasks := s.completedTasks.erase t.task_id } := by
    refine ⟨poolInv_release _ _ h.pool_inv, ?_, ?_, h.active_uncancelled,
      pendComp_cerase _ h.pend_comp⟩
    · intro id hid
      have hne : id ≠ t.task_id := Finset.ne_of_mem_erase hid
      rcases h.running_acct id (Finset.mem_of_mem_erase hid) with hp | hw
      · left
        show (lookupO (releaseByTaskId s.pool t.task_id).1.taskStatus id).isSome = true
        rw [lookupO_release_other _ _ _ hne]
        exact hp
      · exact Or.inr hw
    · intro hr
      show s.runningTasks.erase t.task_id = ∅
      rw [h.stopped_empty hr]
      exact Finset.erase_empty _
  have hnot1 : ∀ u', s.units[i]? = some u' →
      u'.task.task_id ∉ s.runningTasks.erase t.task_id := by
    intro u' hu'
    rw [hu] at hu'
    injection hu' with hequ
    subst hequ
    rw [hutid]
    exact Finset.not_mem_erase _ _
  split
  · split
    · apply runnerInv_tryAcquire _ i t hs1
      · rename_i hrun
        exact hrun
      · intro u' hu'
        exact Or.inr (fun id hid heq => absurd (heq ▸ hid) (hnot1 u' hu'))
      · intro u' hu'
        have hu'' : s.units[i]? = some u' := hu'
        rw [hu] at hu''
        injection hu'' with hequ
        subst hequ
        exact Or.inr hutid
    · apply runnerInv_setUnitPC _ _ _ hs1
      intro u' hu'
      exact Or.inr (fun id hid heq => absurd (heq ▸ hid) (hnot1 u' hu'))
  · exact runnerInv_rollbackBlock _ i t hs1 hnot1

theorem runnerInv_retryTask (s : RunnerState) (id : TaskId) (h : RunnerInv s) :
    RunnerInv (retryTask s id) := by
  simp only [retryTask]
  split
  · exact h
  · split
    · split
      · rw [updStatus_eq]
        apply runnerInv_scheduleReady
        have hbase : RunnerInv
            { s with completedTasks := s.completedTasks.erase id,
                     runningTasks := s.runningTasks.erase id,
                     pendingTasks := insert id s.pendingTasks,
                     taskFailureCount := removeKey s.taskFailureCount id,
                     taskTasks := removeKey s.taskTasks id } := by
          refine ⟨h.pool_inv, ?_, ?_, h.active_uncancelled, pendComp_unmove id h.pend_comp⟩
          · intro x hx
            exact h.running_acct x (Finset.mem_of_mem_erase hx)
          · intro hr
            show s.runningTasks.erase id = ∅
            rw [h.stopped_empty hr]
            exact Finset.erase_empty _
        split
        · exact runnerInv_congr hbase rfl rfl rfl rfl rfl rfl
        · exact runnerInv_congr hbase rfl rfl rfl rfl rfl rfl
      · exact h
    · exact h

theorem runnerInv_dispatch (s : RunnerState) (i : Nat) (u : UnitState) (e : UnitEvent)
    (h : RunnerInv s) (hu : s.units[i]? = some u) :
    RunnerInv (dispatch s i u e) := by
  have hsafe_of_pc : isExecFailBackoff u.pc = false → pcSwapSafe s i := by
    intro hpc u' hu'
    rw [hu] at hu'
    injection hu' with hequ
    subst hequ
    exact Or.inl hpc
  have hmix_of_pc : isExecFailBackoff u.pc = false →
      ∀ u', s.units[i]? = some u' →
        isExecFailBackoff u'.pc = false ∨ u'.task.task_id = u.task.task_id := by
    intro hpc u' hu'
    rw [hu] at hu'
    injection hu' with hequ
    subst hequ
    exact Or.inl hpc
  rcases u with ⟨task, pc, cancelled⟩
  cases pc <;> cases e <;> simp only [dispatch] <;> try exact h
  · -- spawned, go
    split
    · rename_i hrun
      exact runnerInv_tryAcquire s i task h hrun (hsafe_of_pc rfl) (hmix_of_pc rfl)
    · exact runnerInv_setUnitPC s i .finished h (hsafe_of_pc rfl)
  · -- sleeping, wake
    rename_i rc
    simp only [sleepWake]
    split
    · rename_i hcond
      split
      · rename_i p v heq
        have hchar := assignTask_some_char s.pool task.task_id p v heq
        apply runnerInv_acquireSuccess
        · refine ⟨?_, ?_, h.stopped_empty, h.active_uncancelled, h.pend_comp⟩
          · show PoolInv p
            rw [show p = (assignTask s.pool task.task_id).1 by rw [heq]]
            exact poolInv_assign _ _ h.pool_inv
          · intro id hid
            rcases h.running_acct id hid with hp | hw
            · left
              show (lookupO p.taskStatus id).isSome = true
              rw [show p = (assignTask s.pool task.task_id).1 by rw [heq]]
              exact lookupO_assign_isSome_mono _ _ _ hp
            · exact Or.inr hw
        · exact hcond.1
        · show (lookupO p.taskStatus task.task_id).isSome = true
          rw [hchar]
          show (lookupO (setKey s.pool.taskStatus task.task_id "busy") task.task_id).isSome = true
          rw [lookupO_setKey_same]
          rfl
        · exact hmix_of_pc rfl
      · rename_i p heq
        have hchar := assignTask_none_char s.pool task.task_id p heq
        subst hchar
        exact runnerInv_setUnitPC _ i (.sleeping (rc + 1)) h (hsafe_of_pc rfl)
    · exact runnerInv_fallbackBlock s i task h (hmix_of_pc rfl)
  · -- executing, execDone
    rename_i ok
    exact runnerInv_execResult s i task ok h _ hu rfl rfl
  · -- validating, valDone
    rename_i ok
    simp only [valResult]
    split
    · exact runnerInv_valSuccess s i task h _ hu rfl
    · exact runnerInv_valFailStep s i task h _ hu rfl
  · -- execFailBackoff, wake
    rename_i fc
    exact runnerInv_execFailWake s i task fc h _ hu rfl
  · -- valFailBackoff, wake
    rename_i fc
    exact runnerInv_valFailWake s i task fc h _ hu rfl

theorem runnerInv_stepLabel (s : RunnerState) (l : Label) (h : RunnerInv s) :
    RunnerInv (stepLabel s l) := by
  match l with
  | .unitStep i e =>
    simp only [stepLabel]
    split
    · rename_i u hu
      split
      · rename_i hc
        apply runnerInv_setUnitPC s i .finished h
        intro u' hu'
        right
        intro id hid _
        cases hr : s.isRunning with
        | false =>
          rw [h.stopped_empty hr] at hid
          exact absurd hid (Finset.not_mem_empty _)
        | true =>
          have hcf := h.active_uncancelled hr u (List.getElem?_mem hu)
          rw [hc] at hcf
          cases hcf
      · exact runnerInv_dispatch s i u e h hu
    · exact h
  | .stop => exact runnerInv_stopAsync s h
  | .retry id => exact runnerInv_retryTask s id h

theorem runnerInv_runTrace (s : RunnerState) (ls : List Label) (h : RunnerInv s) :
    RunnerInv (runTrace s ls) := by
  induction ls generalizing s with
  | nil => exact h
  | cons l rest ih => exact ih _ (runnerInv_stepLabel s l h)

theorem runnerInv_spawnUnit (s : RunnerState) (t : TaskSpec) (h : RunnerInv s) :
    RunnerInv (spawnUnit s t) := by
  simp only [spawnUnit]
  refine ⟨h.pool_inv, ?_, h.stopped_empty, ?_, h.pend_comp⟩
  · intro id hid
    rcases h.running_acct id hid with hp | hw
    · exact Or.inl hp
    · exact Or.inr (failWitness_append hw)
  · intro hr u hu
    show u.cancelled = false
    have hu' : u ∈ s.units ++ [{ task := t, pc := .spawned, cancelled := false }] := hu
    rcases List.mem_append.mp hu' with hold | hnew
    · exact h.active_uncancelled hr u hold
    · rw [List.mem_singleton] at hnew
      subst hnew
      rfl

theorem runnerInv_foldl (f : RunnerState → TaskSpec → RunnerState)
    (hf : ∀ s t, RunnerInv s → RunnerInv (f s t)) (l : List TaskSpec) :
    ∀ (s : RunnerState), RunnerInv s → RunnerInv (l.foldl f s) := by
  induction l with
  | nil => exact fun s h => h
  | cons t rest ih => exact fun s h => ih _ (hf s t h)

theorem runnerInv_toPending (s : RunnerState) (id : TaskId) (h : RunnerInv s) :
    RunnerInv { s with pendingTasks := insert id s.pendingTasks,
                       completedTasks := s.completedTasks.erase id,
                       taskFailureCount := removeKey s.taskFailureCount id } := by
  refine ⟨h.pool_inv, ?_, h.stopped_empty, h.active_uncancelled,
    pendComp_unmove id h.pend_comp⟩
  intro x hx
  exact h.running_acct x hx

theorem runnerInv_toCompleted (s : RunnerState) (id : TaskId) (h : RunnerInv s) :
    RunnerInv { s with completedTasks := insert id s.completedTasks,
                       pendingTasks := s.pendingTasks.erase id } := by
  refine ⟨h.pool_inv, ?_, h.stopped_empty, h.active_uncancelled,
    pendComp_move id h.pend_comp⟩
  intro x hx
  exact h.running_acct x hx

theorem runnerInv_resumeStep (toReset : Finset TaskId) (s : RunnerState) (t : TaskSpec)
    (h : RunnerInv s) :
    RunnerInv (if t.task_id ∈ toReset then
        let a := updStatus s t.task_id "undone"
        let b := if a.planId.isSome then { a with artifacts := a.artifacts.erase t.task_id }
                 else a
        { b with pendingTasks := insert t.task_id b.pendingTasks,
                 completedTasks := b.completedTasks.erase t.task_id,
                 taskFailureCount := removeKey b.taskFailureCount t.task_id }
      else if getStatus s t.task_id = "done" then
        { s with completedTasks := insert t.task_id s.completedTasks,
                 pendingTasks := s.pendingTasks.erase t.task_id }
      else s) := by
  have ha := runnerInv_toPending (updStatus s t.task_id "undone") t.task_id
    (runnerInv_updStatus s t.task_id "undone" h)
  split
  · simp only []
    split
    · exact runnerInv_congr ha rfl rfl rfl rfl rfl rfl
    · exact runnerInv_congr ha rfl rfl rfl rfl rfl rfl
  · split
    · exact runnerInv_toCompleted s t.task_id h
    · exact h

theorem runnerInv_startState (chain : List TaskSpec) (status0 : List (TaskId × String))
    (artifacts0 : Finset TaskId) (planId : Option String) (maxConc maxF : Nat)
    (resumeFrom : Option TaskId) :
    RunnerInv (startState chain status0 artifacts0 planId maxConc maxF resumeFrom) := by
  have hbase : RunnerInv {
      isRunning := true, abortSet := false,
      runningTasks := ∅, completedTasks := ∅,
      pendingTasks := (chainIds chain).foldl (fun acc id => insert id acc) ∅,
      taskTasks := [], chain := chain, statuses := status0,
      taskFailureCount := [], units := [], artifacts := artifacts0,
      planId := planId, maxFailures := maxF, pool := initPool maxConc,
      rollbackCount := 0, everExecuting := ∅, everValidating := ∅ } := by
    refine ⟨⟨?_, ?_, ?_⟩, ?_, ?_, ?_, ?_⟩
    · exact Nat.zero_le _
    · show (keysOf ([] : List (TaskId × String))).Nodup
      simp [keysOf]
    · exact Nat.le_refl 0
    · intro id hid
      exact absurd hid (Finset.not_mem_empty id)
    · intro hr
      cases hr
    · intro _ u hu
      cases hu
    · intro x _ hc
      exact absurd hc (Finset.not_mem_empty x)
  simp only [startState]
  apply runnerInv_foldl _ (fun s t h => runnerInv_spawnUnit s t h)
  split
  · rename_i r
    split
    · exact runnerInv_foldl _
        (fun s t h => runnerInv_resumeStep (getDownstreamTaskIds chain r) s t h) chain _ hbase
    · exact runnerInv_foldl _ (fun s t h => runnerInv_updStatus s t.task_id "undone" h)
        chain _ hbase
  · exact runnerInv_foldl _ (fun s t h => runnerInv_updStatus s t.task_id "undone" h)
      chain _ hbase

theorem running_card_bound (s : RunnerState) (h : RunnerInv s) :
    s.runningTasks.card ≤ s.pool.maxConcurrency +
      (s.units.filter (fun u => isExecFailBackoff u.pc)).length := by
  classical
  have hsub : s.runningTasks ⊆ (keysOf s.pool.taskStatus).toFinset ∪
      ((s.units.filter (fun u => isExecFailBackoff u.pc)).map
        (fun u => u.task.task_id)).toFinset := by
    intro id hid
    rcases h.running_acct id hid with hp | ⟨j, u, hj, hid', hfail⟩
    · exact Finset.mem_union_left _ (List.mem_toFinset.mpr ((lookupO_isSome_iff _ _).mp hp))
    · apply Finset.mem_union_right
      apply List.mem_toFinset.mpr
      apply List.mem_map.mpr
      exact ⟨u, List.mem_filter.mpr ⟨List.getElem?_mem hj, hfail⟩, hid'⟩
  calc s.runningTasks.card
      ≤ ((keysOf s.pool.taskStatus).toFinset ∪
          ((s.units.filter (fun u => isExecFailBackoff u.pc)).map
            (fun u => u.task.task_id)).toFinset).card := Finset.card_le_card hsub
    _ ≤ (keysOf s.pool.taskStatus).toFinset.card +
          ((s.units.filter (fun u => isExecFailBackoff u.pc)).map
            (fun u => u.task.task_id)).toFinset.card := Finset.card_union_le _ _
    _ ≤ (keysOf s.pool.taskStatus).length +
          ((s.units.filter (fun u => isExecFailBackoff u.pc)).map
            (fun u => u.task.task_id)).length :=
        Nat.add_le_add (List.toFinset_card_le _) (List.toFinset_card_le _)
    _ = s.pool.taskStatus.length +
          (s.units.filter (fun u => isExecFailBackoff u.pc)).length := by
        rw [keysOf_length, List.length_map]
    _ ≤ s.pool.slotsInUse +
          (s.units.filter (fun u => isExecFailBackoff u.pc)).length :=
        Nat.add_le_add_right h.pool_inv.len_le _
    _ ≤ s.pool.maxConcurrency +
          (s.units.filter (fun u => isExecFailBackoff u.pc)).length :=
        Nat.add_le_add_right h.pool_inv.slots_le _

/-- C3 (amended): in every state reachable by any trace of scheduler steps
from any start configuration, the number of ids in `running_tasks` is bounded
by the worker-pool capacity plus the number of units currently parked in the
one-second execution-failure backoff — the failure path at runner.py lines
316-333 releases the slot before discarding the task from `running_tasks`, so
each such unit can hold one id beyond capacity, and nothing more. -/
theorem c3_running_bounded_with_backoff_slack (chain : List TaskSpec)
    (status0 : List (TaskId × String)) (artifacts0 : Finset TaskId) (planId : Option String)
    (maxConc maxF : Nat) (resumeFrom : Option TaskId) (labels : List Label) :
    (runTrace (startState chain status0 artifacts0 planId maxConc maxF resumeFrom)
        labels).runningTasks.card ≤
      (runTrace (startState chain status0 artifacts0 planId maxConc maxF resumeFrom)
        labels).pool.maxConcurrency +
      ((runTrace (startState chain status0 artifacts0 planId maxConc maxF resumeFrom)
        labels).units.filter (fun u => isExecFailBackoff u.pc)).length :=
  running_card_bound _ (runnerInv_runTrace _ labels
    (runnerInv_startState chain status0 artifacts0 planId maxConc maxF resumeFrom))

/-- C7 (amended): in every state reachable by any trace of scheduler steps
from any start configuration, `pending_tasks` and `completed_tasks` are
disjoint — but a running task stays in `pending_tasks` for the whole duration
of its execution (the code removes a task from `pending` only when it
completes), and the three sets need not cover the task-id universe. -/
theorem c7_pending_completed_disjoint (chain : List TaskSpec)
    (status0 : List (TaskId × String)) (artifacts0 : Finset TaskId) (planId : Option String)
    (maxConc maxF : Nat) (resumeFrom : Option TaskId) (labels : List Label) :
    Disjoint
      (runTrace (startState chain status0 artifacts0 planId maxConc maxF resumeFrom)
        labels).pendingTasks
      (runTrace (startState chain status0 artifacts0 planId maxConc maxF resumeFrom)
        labels).completedTasks := by
  have h := runnerInv_runTrace _ labels
    (runnerInv_startState chain status0 artifacts0 planId maxConc maxF resumeFrom)
  rw [Finset.disjoint_left]
  intro x hx hc
  exact h.pend_comp x hx hc

/-- Witness for C6: the fallback fires at the concrete state `c6State`, whose
single unit for `A` is at retry 49 of the acquisition loop over a saturated
capacity-1 pool. -/
theorem c6_slot_exhaustion_fallback_witness :
    c6State.units[0]? =
      some { task := ⟨"A", [], true⟩, pc := UnitPC.sleeping 49, cancelled := false } ∧
    (getStatus (stepLabel c6State (.unitStep 0 .wake)) "A" = "done" ∧
     "A" ∈ (stepLabel c6State (.unitStep 0 .wake)).completedTasks ∧
     "A" ∉ (stepLabel c6State (.unitStep 0 .wake)).pendingTasks ∧
     "A" ∉ (stepLabel c6State (.unitStep 0 .wake)).runningTasks ∧
     (stepLabel c6State (.unitStep 0 .wake)).taskFailureCount = c6State.taskFailureCount ∧
     (stepLabel c6State (.unitStep 0 .wake)).rollbackCount = c6State.rollbackCount ∧
     (stepLabel c6State (.unitStep 0 .wake)).everExecuting = c6State.everExecuting ∧
     (stepLabel c6State (.unitStep 0 .wake)).everValidating = c6State.everValidating ∧
     (stepLabel c6State (.unitStep 0 .wake)).pool = c6State.pool ∧
     (∀ d td, taskMapGet c6State.chain d = some td →
       d ∈ dependentsOf c6State.chain "A" →
       d ∉ c6State.completedTasks → d ∉ c6State.runningTasks → d ∈ c6State.pendingTasks →
       d ≠ "A" →
       depsSatisfied { c6State with completedTasks := insert "A" c6State.completedTasks } td =
         true →
       (lookupO (stepLabel c6State (.unitStep 0 .wake)).taskTasks d).isSome = true)) :=
  ⟨by decide,
   c6_slot_exhaustion_fallback c6State 0
     { task := ⟨"A", [], true⟩, pc := UnitPC.sleeping 49, cancelled := false }
     (by decide) rfl rfl rfl (by decide)⟩

theorem cancelAt_at (us : List UnitState) (idx j : Nat) (u : UnitState)
    (hj : us[j]? = some u) :
    ∃ u', (cancelAt us idx)[j]? = some u' ∧ u'.pc = u.pc ∧ u'.task = u.task ∧
      (u.cancelled = true → u'.cancelled = true) := by
  simp only [cancelAt]
  split
  · rename_i v hv
    split
    · by_cases hij : idx = j
      · subst hij
        rw [hj] at hv
        injection hv with he
        subst he
        exact ⟨{ u with cancelled := true },
          List.getElem?_set_eq_of_lt _ (getElem?_some_lt hj), rfl, rfl, fun _ => rfl⟩
      · exact ⟨u, by rw [List.getElem?_set_ne hij]; exact hj, rfl, rfl, fun h => h⟩
    · exact ⟨u, hj, rfl, rfl, fun h => h⟩
  · exact ⟨u, hj, rfl, rfl, fun h => h⟩

theorem cancelAt_triggers (us : List UnitState) (idx : Nat) (u : UnitState)
    (hu : us[idx]? = some u) (hpc : u.pc ≠ .finished) :
    (cancelAt us idx)[idx]? = some { u with cancelled := true } := by
  simp only [cancelAt, hu]
  rw [if_pos hpc]
  exact List.getElem?_set_eq_of_lt _ (getElem?_some_lt hu)

theorem cancelFold_mono (l : List (TaskId × Nat)) (us : List UnitState) (j : Nat)
    (u : UnitState) (hj : us[j]? = some u) :
    ∃ u', (l.foldl (fun us p => cancelAt us p.2) us)[j]? = some u' ∧ u'.pc = u.pc ∧
      u'.task = u.task ∧ (u.cancelled = true → u'.cancelled = true) := by
  induction l generalizing us u with
  | nil => exact ⟨u, hj, rfl, rfl, fun h => h⟩
  | cons p rest ih =>
    obtain ⟨u1, h1, hpc1, ht1, hc1⟩ := cancelAt_at us p.2 j u hj
    obtain ⟨u2, h2, hpc2, ht2, hc2⟩ := ih (cancelAt us p.2) u1 h1
    exact ⟨u2, h2, hpc2.trans hpc1, ht2.trans ht1, fun h => hc2 (hc1 h)⟩

theorem cancelFold_cancels (l : List (TaskId × Nat)) (us : List UnitState) (id : TaskId)
    (i : Nat) (u : UnitState) (hmem : (id, i) ∈ l) (hu : us[i]? = some u)
    (hpc : u.pc ≠ .finished) :
    ∃ u', (l.foldl (fun us p => cancelAt us p.2) us)[i]? = some u' ∧
      u'.cancelled = true ∧ u'.task = u.task := by
  induction l generalizing us u with
  | nil => cases hmem
  | cons p rest ih =>
    rcases List.mem_cons.mp hmem with heq | hmem'
    · have hp2 : p.2 = i := by rw [← heq]
      have htr : (cancelAt us p.2)[i]? = some { u with cancelled := true } := by
        rw [hp2]
        exact cancelAt_triggers us i u hu hpc
      obtain ⟨u2, h2, _, ht2, hc2⟩ := cancelFold_mono rest (cancelAt us p.2) i _ htr
      exact ⟨u2, h2, hc2 rfl, ht2⟩
    · obtain ⟨u1, h1, hpc1, ht1, _⟩ := cancelAt_at us p.2 i u hu
      obtain ⟨u2, h2, hc2, ht2⟩ := ih (cancelAt us p.2) u1 hmem' h1 (by rw [hpc1]; exact hpc)
      exact ⟨u2, h2, hc2, ht2.trans ht1⟩

/-- C8 (amended): `stop_async` clears the running flag, sets the abort event,
empties `task_tasks` and `running_tasks`, and cancels exactly the units whose
handles are still registered in `task_tasks` at the moment of the call — a
unit whose handle was popped earlier (for example by a rollback cascade) is
not cancelled and any slot it re-acquired is not released, as the
counterexample shows. -/
theorem c8_stop_cancels_tracked_units (s : RunnerState) (id : TaskId) (i : Nat)
    (u : UnitState) (hmem : (id, i) ∈ s.taskTasks) (hu : s.units[i]? = some u)
    (hpc : u.pc ≠ .finished) :
    (stopAsync s).isRunning = false ∧ (stopAsync s).abortSet = true ∧
    (stopAsync s).taskTasks = [] ∧ (stopAsync s).runningTasks = ∅ ∧
    ∃ u', (stopAsync s).units[i]? = some u' ∧ u'.cancelled = true ∧ u'.task = u.task := by
  refine ⟨rfl, rfl, rfl, rfl, ?_⟩
  exact cancelFold_cancels s.taskTasks s.units id i u hmem hu hpc

/-- Witness for C8 (amended) at the concrete state `c6State`, whose
`task_tasks` still holds the handle `("A", 0)` for a live unit. -/
theorem c8_stop_cancels_tracked_units_witness :
    ("A", 0) ∈ c6State.taskTasks ∧
    ((stopAsync c6State).isRunning = false ∧ (stopAsync c6State).abortSet = true ∧
     (stopAsync c6State).taskTasks = [] ∧ (stopAsync c6State).runningTasks = ∅ ∧
     ∃ u', (stopAsync c6State).units[0]? = some u' ∧ u'.cancelled = true ∧
       u'.task = ({ task := ⟨"A", [], true⟩, pc := UnitPC.sleeping 49,
                    cancelled := false } : UnitState).task) :=
  ⟨by decide,
   c8_stop_cancels_tracked_units c6State "A" 0
     { task := ⟨"A", [], true⟩, pc := UnitPC.sleeping 49, cancelled := false }
     (by decide) (by decide) (by decide)⟩

theorem Reach.trans_of {E : TaskId → List TaskId} {a b c : TaskId}
    (h1 : Reach E a b) (h2 : Reach E b c) : Reach E a c := by
  induction h2 with
  | refl => exact h1
  | tail _ hm ih => exact Reach.tail ih hm

theorem collect_mono (E : TaskId → List TaskId) :
    ∀ (fuel : Nat) (tid : TaskId) (vis : Finset TaskId), vis ⊆ collect E fuel tid vis := by
  intro fuel
  induction fuel with
  | zero =>
    intro tid vis
    simp [collect]
  | succ f ih =>
    intro tid vis
    by_cases h : tid ∈ vis
    · simp [collect, h]
    · simp only [collect]
      rw [if_neg h]
      have hfold : ∀ (l : List TaskId) (acc : Finset TaskId),
          acc ⊆ l.foldl (fun a d => collect E f d a) acc := by
        intro l
        induction l with
        | nil => intro acc; exact Finset.Subset.refl acc
        | cons d rest ihl =>
          intro acc
          exact (ih d acc).trans (ihl (collect E f d acc))
      exact (Finset.subset_insert tid vis).trans (hfold (E tid) (insert tid vis))

theorem collect_sound (E : TaskId → List TaskId) :
    ∀ (fuel : Nat) (tid : TaskId) (vis : Finset TaskId) (x : TaskId),
      x ∈ collect E fuel tid vis → x ∈ vis ∨ Reach E tid x := by
  intro fuel
  induction fuel with
  | zero =>
    intro tid vis x hx
    exact Or.inl (by simpa [collect] using hx)
  | succ f ih =>
    intro tid vis x hx
    by_cases h : tid ∈ vis
    · left
      simpa [collect, h] using hx
    · simp only [collect] at hx
      rw [if_neg h] at hx
      have hfold : ∀ (l : List TaskId) (acc : Finset TaskId),
          (∀ y ∈ acc, y ∈ vis ∨ Reach E tid y) →
          (∀ d ∈ l, Reach E tid d) →
          ∀ y ∈ l.foldl (fun a d => collect E f d a) acc, y ∈ vis ∨ Reach E tid y := by
        intro l
        induction l with
        | nil =>
          intro acc hacc _ y hy
          exact hacc y hy
        | cons d rest ihl =>
          intro acc hacc hl y hy
          apply ihl (collect E f d acc) ?_ (fun d' hd' => hl d' (List.mem_cons_of_mem d hd')) y hy
          intro z hz
          rcases ih d acc z hz with hin | hrz
          · exact hacc z hin
          · exact Or.inr ((hl d (List.mem_cons_self d rest)).trans_of hrz)
      apply hfold (E tid) (insert tid vis) ?_ ?_ x hx
      · intro y hy
        rcases Finset.mem_insert.mp hy with rfl | hyv
        · exact Or.inr Reach.refl
        · exact Or.inl hyv
      · intro d hd
        exact Reach.tail Reach.refl hd

theorem collect_complete (E : TaskId → List TaskId) (U : Finset TaskId)
    (hE : ∀ x d, d ∈ E x → d ∈ U) :
    ∀ (fuel : Nat) (tid : TaskId) (vis : Finset TaskId), tid ∈ U → (U \ vis).card ≤ fuel →
      tid ∈ collect E fuel tid vis ∧
      (∀ x ∈ collect E fuel tid vis, x ∉ vis → ∀ d ∈ E x, d ∈ collect E fuel tid vis) := by
  intro fuel
  induction fuel with
  | zero =>
    intro tid vis htid hcard
    have hsub : U ⊆ vis := by
      intro y hy
      by_contra hyn
      have hmem : y ∈ U \ vis := Finset.mem_sdiff.mpr ⟨hy, hyn⟩
      have hpos := Finset.card_pos.mpr ⟨y, hmem⟩
      omega
    constructor
    · simpa [collect] using hsub htid
    · intro x hx hxv
      exact absurd (by simpa [collect] using hx) hxv
  | succ f ih =>
    intro tid vis htid hcard
    by_cases h : tid ∈ vis
    · constructor
      · simpa [collect, h]
      · intro x hx hxv
        exact absurd (by simpa [collect, h] using hx) hxv
    · have htidm : tid ∈ U \ vis := Finset.mem_sdiff.mpr ⟨htid, h⟩
      have hpos : 0 < (U \ vis).card := Finset.card_pos.mpr ⟨tid, htidm⟩
      have hins : U \ insert tid vis = (U \ vis).erase tid := by
        ext y
        simp only [Finset.mem_sdiff, Finset.mem_insert, Finset.mem_erase]
        tauto
      have hcard' : (U \ insert tid vis).card ≤ f := by
        rw [hins, Finset.card_erase_of_mem htidm]
        omega
      have hfold : ∀ (l : List TaskId) (acc : Finset TaskId),
          (∀ d ∈ l, d ∈ U) → (U \ acc).card ≤ f →
          acc ⊆ l.foldl (fun a d => collect E f d a) acc ∧
          (∀ x ∈ l.foldl (fun a d => collect E f d a) acc, x ∉ acc →
            ∀ d ∈ E x, d ∈ l.foldl (fun a d => collect E f d a) acc) ∧
          (∀ d ∈ l, d ∈ l.foldl (fun a d => collect E f d a) acc) := by
        intro l
        induction l with
        | nil =>
          intro acc _ _
          refine ⟨Finset.Subset.refl acc, ?_, ?_⟩
          · intro x hx hxn
            exact absurd hx hxn
          · intro d hd
            cases hd
        | cons d rest ihl =>
          intro acc hld hcacc
          obtain ⟨hd_in, hproc1⟩ := ih d acc (hld d (List.mem_cons_self d rest)) hcacc
          have hmono1 : acc ⊆ collect E f d acc := collect_mono E f d acc
          have hcacc1 : (U \ collect E f d acc).card ≤ f := by
            apply le_trans (Finset.card_le_card ?_) hcacc
            exact Finset.sdiff_subset_sdiff (Finset.Subset.refl U) hmono1
          obtain ⟨hsub2, hproc2, hmem2⟩ := ihl (collect E f d acc)
            (fun d' hd' => hld d' (List.mem_cons_of_mem d hd')) hcacc1
          refine ⟨hmono1.trans hsub2, ?_, ?_⟩
          · intro x hx hxn
            by_cases hx1 : x ∈ collect E f d acc
            · intro d' hd'
              exact hsub2 (hproc1 x hx1 hxn d' hd')
            · exact hproc2 x hx hx1
          · intro d' hd'
            rcases List.mem_cons.mp hd' with rfl | hd'r
            · exact hsub2 hd_in
            · exact hmem2 d' hd'r
      obtain ⟨hsub, hproc, hmem⟩ := hfold (E tid) (insert tid vis)
        (fun d hd => hE tid d hd) hcard'
      constructor
      · simp only [collect]
        rw [if_neg h]
        exact hsub (Finset.mem_insert_self tid vis)
      · intro x hx hxv d hd
        simp only [collect] at hx ⊢
        rw [if_neg h] at hx ⊢
        by_cases hx0 : x ∈ insert tid vis
        · rcases Finset.mem_insert.mp hx0 with rfl | hv
          · exact hmem d hd
          · exact absurd hv hxv
        · exact hproc x hx hx0 d hd

theorem mem_collect_iff (E : TaskId → List TaskId) (U : Finset TaskId)
    (hE : ∀ x d, d ∈ E x → d ∈ U) (fuel : Nat) (tid : TaskId)
    (htid : tid ∈ U) (hfuel : U.card ≤ fuel) (x : TaskId) :
    x ∈ collect E fuel tid ∅ ↔ Reach E tid x := by
  have hcard : (U \ ∅).card ≤ fuel := by simpa using hfuel
  obtain ⟨helem, hproc⟩ := collect_complete E U hE fuel tid ∅ htid hcard
  constructor
  · intro hx
    rcases collect_sound E fuel tid ∅ x hx with hin | hr
    · exact absurd hin (Finset.not_mem_empty x)
    · exact hr
  · intro hr
    induction hr with
    | refl => exact helem
    | tail hab hm ihr => exact hproc _ ihr (Finset.not_mem_empty _) _ hm

theorem dependentsOf_subset_chain (chain : List TaskSpec) (x d : TaskId)
    (hd : d ∈ dependentsOf chain x) : d ∈ chainIds chain := by
  simp only [dependentsOf] at hd
  split at hd
  · simp only [List.mem_map] at hd
    obtain ⟨t, ht, rfl⟩ := hd
    exact List.mem_map.mpr ⟨t, List.mem_of_mem_filter ht, rfl⟩
  · cases hd

theorem mem_getDownstreamTaskIds (chain : List TaskSpec) (r x : TaskId) :
    x ∈ getDownstreamTaskIds chain r ↔ Reach (dependentsOf chain) r x := by
  classical
  have hcardU : (insert r (chainIds chain).toFinset).card ≤ chain.length + 1 := by
    have h1 := Finset.card_insert_le r (chainIds chain).toFinset
    have h2 := List.toFinset_card_le (chainIds chain)
    have h3 : (chainIds chain).length = chain.length := List.length_map _ _
    omega
  have hiff := mem_collect_iff (dependentsOf chain) (insert r (chainIds chain).toFinset)
    (fun y d hd => Finset.mem_insert_of_mem
      (List.mem_toFinset.mpr (dependentsOf_subset_chain chain y d hd)))
    (chain.length + 1) r (Finset.mem_insert_self _ _) hcardU x
  simp only [getDownstreamTaskIds, Finset.mem_insert]
  rw [hiff]
  constructor
  · rintro (rfl | hr)
    · exact Reach.refl
    · exact hr
  · intro hr
    exact Or.inr hr

theorem findDownstream_mono (E : TaskId → List TaskId) :
    ∀ (fuel : Nat) (tid : TaskId) (st : Finset TaskId × Finset TaskId),
      st.1 ⊆ (findDownstream E fuel tid st).1 ∧ st.2 ⊆ (findDownstream E fuel tid st).2 := by
  intro fuel
  induction fuel with
  | zero =>
    intro tid st
    simp [findDownstream]
  | succ f ih =>
    intro tid st
    by_cases h : tid ∈ st.1
    · simp [findDownstream, h]
    · simp only [findDownstream]
      rw [if_neg h]
      have hfold : ∀ (l : List TaskId) (acc : Finset TaskId × Finset TaskId),
          acc.1 ⊆ (l.foldl (fun st' d =>
            if d ∈ st'.2 then st' else findDownstream E f d (st'.1, insert d st'.2)) acc).1 ∧
          acc.2 ⊆ (l.foldl (fun st' d =>
            if d ∈ st'.2 then st' else findDownstream E f d (st'.1, insert d st'.2)) acc).2 := by
        intro l
        induction l with
        | nil => intro acc; exact ⟨Finset.Subset.refl _, Finset.Subset.refl _⟩
        | cons d rest ihl =>
          intro acc
          by_cases hd : d ∈ acc.2
          · have := ihl acc
            simpa [hd] using this
          · have h1 := ih d (acc.1, insert d acc.2)
            have h2 := ihl (findDownstream E f d (acc.1, insert d acc.2))
            refine ⟨?_, ?_⟩
            · have : acc.1 ⊆ (findDownstream E f d (acc.1, insert d acc.2)).1 := h1.1
              simpa [hd] using this.trans h2.1
            · have : acc.2 ⊆ (findDownstream E f d (acc.1, insert d acc.2)).2 :=
                (Finset.subset_insert d acc.2).trans h1.2
              simpa [hd] using this.trans h2.2
      constructor
      · exact (Finset.subset_insert tid st.1).trans (hfold (E tid) (insert tid st.1, st.2)).1
      · exact (hfold (E tid) (insert tid st.1, st.2)).2

theorem findDownstream_sound (E : TaskId → List TaskId) (C : TaskId → Prop)
    (hC : ∀ x, C x → ∀ d ∈ E x, C d) :
    ∀ (fuel : Nat) (tid : TaskId) (st : Finset TaskId × Finset TaskId),
      C tid → (∀ x ∈ st.1, C x) → (∀ x ∈ st.2, C x) →
      (∀ x ∈ (findDownstream E fuel tid st).1, C x) ∧
      (∀ x ∈ (findDownstream E fuel tid st).2, C x) := by
  intro fuel
  induction fuel with
  | zero =>
    intro tid st _ h1 h2
    exact ⟨h1, h2⟩
  | succ f ih =>
    intro tid st htid h1 h2
    by_cases h : tid ∈ st.1
    · simpa [findDownstream, h] using And.intro h1 h2
    · simp only [findDownstream]
      rw [if_neg h]
      have hfold : ∀ (l : List TaskId) (acc : Finset TaskId × Finset TaskId),
          (∀ d ∈ l, C d) → (∀ x ∈ acc.1, C x) → (∀ x ∈ acc.2, C x) →
          (∀ x ∈ (l.foldl (fun st' d =>
            if d ∈ st'.2 then st' else findDownstream E f d (st'.1, insert d st'.2)) acc).1, C x) ∧
          (∀ x ∈ (l.foldl (fun st' d =>
            if d ∈ st'.2 then st' else findDownstream E f d (st'.1, insert d st'.2)) acc).2, C x) := by
        intro l
        induction l with
        | nil =>
          intro acc _ ha1 ha2
          exact ⟨ha1, ha2⟩
        | cons d rest ihl =>
          intro acc hl ha1 ha2
          by_cases hd : d ∈ acc.2
          · have := ihl acc (fun d' hd' => hl d' (List.mem_cons_of_mem d hd')) ha1 ha2
            simpa [hd] using this
          · have hCd : C d := hl d (List.mem_cons_self d rest)
            have hinner := ih d (acc.1, insert d acc.2) hCd ha1 ?_
            · have := ihl (findDownstream E f d (acc.1, insert d acc.2))
                (fun d' hd' => hl d' (List.mem_cons_of_mem d hd')) hinner.1 hinner.2
              simpa [hd] using this
            · intro x hx
              rcases Finset.mem_insert.mp hx with rfl | hxa
              · exact hCd
              · exact ha2 x hxa
      apply hfold (E tid) (insert tid st.1, st.2) (fun d hd => hC tid htid d hd) ?_ h2
      intro x hx
      rcases Finset.mem_insert.mp hx with rfl | hxa
      · exact htid
      · exact h1 x hxa

theorem findDownstream_complete (E : TaskId → List TaskId) (U : Finset TaskId)
    (hE : ∀ x d, d ∈ E x → d ∈ U) :
    ∀ (fuel : Nat) (tid : TaskId) (st : Finset TaskId × Finset TaskId),
      tid ∈ U → (U \ st.1).card ≤ fuel →
      tid ∈ (findDownstream E fuel tid st).1 ∧
      (∀ x ∈ (findDownstream E fuel tid st).1, x ∉ st.1 →
        ∀ d ∈ E x, d ∈ (findDownstream E fuel tid st).2) ∧
      (findDownstream E fuel tid st).2 ⊆ st.2 ∪ (findDownstream E fuel tid st).1 := by
  intro fuel
  induction fuel with
  | zero =>
    intro tid st htid hcard
    have hsub : U ⊆ st.1 := by
      intro y hy
      by_contra hyn
      have hmem : y ∈ U \ st.1 := Finset.mem_sdiff.mpr ⟨hy, hyn⟩
      have hpos := Finset.card_pos.mpr ⟨y, hmem⟩
      omega
    refine ⟨hsub htid, ?_, ?_⟩
    · intro x hx hxn
      exact absurd (by simpa [findDownstream] using hx) hxn
    · simp [findDownstream]
  | succ f ih =>
    intro tid st htid hcard
    by_cases h : tid ∈ st.1
    · refine ⟨by simpa [findDownstream, h], ?_, ?_⟩
      · intro x hx hxn
        exact absurd (by simpa [findDownstream, h] using hx) hxn
      · simp [findDownstream, h]
    · have htidm : tid ∈ U \ st.1 := Finset.mem_sdiff.mpr ⟨htid, h⟩
      have hins : U \ insert tid st.1 = (U \ st.1).erase tid := by
        ext y
        simp only [Finset.mem_sdiff, Finset.mem_insert, Finset.mem_erase]
        tauto
      have hpos : 0 < (U \ st.1).card := Finset.card_pos.mpr ⟨tid, htidm⟩
      have hcard' : (U \ insert tid st.1).card ≤ f := by
        rw [hins, Finset.card_erase_of_mem htidm]
        omega
      have hfold : ∀ (l : List TaskId) (acc : Finset TaskId × Finset TaskId),
          (∀ d ∈ l, d ∈ U) → (U \ acc.1).card ≤ f →
          (acc.1 ⊆ (l.foldl (fun st' d =>
            if d ∈ st'.2 then st' else findDownstream E f d (st'.1, insert d st'.2)) acc).1 ∧
           acc.2 ⊆ (l.foldl (fun st' d =>
            if d ∈ st'.2 then st' else findDownstream E f d (st'.1, insert d st'.2)) acc).2) ∧
          (∀ x ∈ (l.foldl (fun st' d =>
            if d ∈ st'.2 then st' else findDownstream E f d (st'.1, insert d st'.2)) acc).1,
            x ∉ acc.1 → ∀ d ∈ E x, d ∈ (l.foldl (fun st' d =>
            if d ∈ st'.2 then st' else findDownstream E f d (st'.1, insert d st'.2)) acc).2) ∧
          (∀ d ∈ l, d ∈ (l.foldl (fun st' d =>
            if d ∈ st'.2 then st' else findDownstream E f d (st'.1, insert d st'.2)) acc).2) ∧
          (l.foldl (fun st' d =>
            if d ∈ st'.2 then st' else findDownstream E f d (st'.1, insert d st'.2)) acc).2 ⊆
            acc.2 ∪ (l.foldl (fun st' d =>
            if d ∈ st'.2 then st' else findDownstream E f d (st'.1, insert d st'.2)) acc).1 := by
        intro l
        induction l with
        | nil =>
          intro acc _ _
          refine ⟨⟨Finset.Subset.refl _, Finset.Subset.refl _⟩, ?_, ?_, ?_⟩
          · intro x hx hxn
            exact absurd hx hxn
          · intro d hd
            cases hd
          · exact Finset.subset_union_left
        | cons d rest ihl =>
          intro acc hld hcacc
          by_cases hd : d ∈ acc.2
          · obtain ⟨hm, hp, ht, hc⟩ := ihl acc
              (fun d' hd' => hld d' (List.mem_cons_of_mem d hd')) hcacc
            refine ⟨by simpa [hd] using hm, by simpa [hd] using hp, ?_, by simpa [hd] using hc⟩
            intro d' hd'
            rcases List.mem_cons.mp hd' with rfl | hd'r
            · simpa [hd] using hm.2 hd
            · simpa [hd] using ht d' hd'r
          · obtain ⟨ha1, hb1, hc1⟩ := ih d (acc.1, insert d acc.2)
              (hld d (List.mem_cons_self d rest)) hcacc
            have hm1 := findDownstream_mono E f d (acc.1, insert d acc.2)
            have hcacc1 : (U \ (findDownstream E f d (acc.1, insert d acc.2)).1).card ≤ f := by
              apply le_trans (Finset.card_le_card ?_) hcacc
              exact Finset.sdiff_subset_sdiff (Finset.Subset.refl U) hm1.1
            obtain ⟨hm2, hp2, ht2, hc2⟩ := ihl (findDownstream E f d (acc.1, insert d acc.2))
              (fun d' hd' => hld d' (List.mem_cons_of_mem d hd')) hcacc1
            have hdin2 : d ∈ (rest.foldl (fun st' d =>
                if d ∈ st'.2 then st' else findDownstream E f d (st'.1, insert d st'.2))
                (findDownstream E f d (acc.1, insert d acc.2))).2 :=
              hm2.2 (hm1.2 (Finset.mem_insert_self d acc.2))
            have hdin1 : d ∈ (rest.foldl (fun st' d =>
                if d ∈ st'.2 then st' else findDownstream E f d (st'.1, insert d st'.2))
                (findDownstream E f d (acc.1, insert d acc.2))).1 :=
              hm2.1 ha1
            refine ⟨⟨?_, ?_⟩, ?_, ?_, ?_⟩
            · simpa [hd] using (hm1.1.trans hm2.1 : acc.1 ⊆ _)
            · have : acc.2 ⊆ (findDownstream E f d (acc.1, insert d acc.2)).2 :=
                (Finset.subset_insert d acc.2).trans hm1.2
              simpa [hd] using this.trans hm2.2
            · intro x hx hxn d' hd'
              simp only [List.foldl_cons, if_neg hd] at hx ⊢
              by_cases hx1 : x ∈ (findDownstream E f d (acc.1, insert d acc.2)).1
              · exact hm2.2 (hb1 x hx1 hxn d' hd')
              · exact hp2 x hx hx1 d' hd'
            · intro d' hd'
              rcases List.mem_cons.mp hd' with rfl | hd'r
              · simpa [hd] using hdin2
              · simpa [hd] using ht2 d' hd'r
            · intro x hx
              simp only [List.foldl_cons, if_neg hd] at hx ⊢
              rcases Finset.mem_union.mp (hc2 hx) with hx2 | hx1
              · rcases hc1 hx2 with hx3
                rcases Finset.mem_union.mp hx3 with hx4 | hx5
                · rcases Finset.mem_insert.mp hx4 with rfl | hx6
                  · exact Finset.mem_union_right _ hdin1
                  · exact Finset.mem_union_left _ hx6
                · exact Finset.mem_union_right _ (hm2.1 hx5)
              · exact Finset.mem_union_right _ hx1
      obtain ⟨⟨hma, hmb⟩, hproc, htgt, hclo⟩ := hfold (E tid) (insert tid st.1, st.2)
        (fun d hd => hE tid d hd) hcard'
      refine ⟨?_, ?_, ?_⟩
      · simp only [findDownstream]
        rw [if_neg h]
        exact hma (Finset.mem_insert_self tid st.1)
      · intro x hx hxn d hd
        simp only [findDownstream] at hx ⊢
        rw [if_neg h] at hx ⊢
        by_cases hx0 : x ∈ insert tid st.1
        · rcases Finset.mem_insert.mp hx0 with rfl | hv
          · exact htgt d hd
          · exact absurd hv hxn
        · exact hproc x hx hx0 d hd
      · intro x hx
        simp only [findDownstream] at hx ⊢
        rw [if_neg h] at hx ⊢
        exact hclo hx

theorem findDownstream_closure_iff (E : TaskId → List TaskId) (U : Finset TaskId)
    (hE : ∀ x d, d ∈ E x → d ∈ U) (fuel : Nat) (hfuel : U.card ≤ fuel)
    (root : TaskId) (deps : List TaskId) (hroot : root ∈ U) (hdeps : ∀ d ∈ deps, d ∈ U)
    (x : TaskId) :
    x ∈ (findDownstream E fuel root
          (deps.foldl (fun st d => findDownstream E fuel d st)
            ((∅ : Finset TaskId), insert root deps.toFinset))).2 ↔
      ∃ sd ∈ insert root deps.toFinset, Reach E sd x := by
  classical
  have hcard : ∀ st : Finset TaskId × Finset TaskId, (U \ st.1).card ≤ fuel := by
    intro st
    exact le_trans (Finset.card_le_card Finset.sdiff_subset) hfuel
  have hcall : ∀ (tid : TaskId) (st : Finset TaskId × Finset TaskId), tid ∈ U →
      (∀ y ∈ st.1, ∀ d ∈ E y, d ∈ st.2) →
      st.1 ⊆ (findDownstream E fuel tid st).1 ∧ st.2 ⊆ (findDownstream E fuel tid st).2 ∧
      tid ∈ (findDownstream E fuel tid st).1 ∧
      (∀ y ∈ (findDownstream E fuel tid st).1, ∀ d ∈ E y, d ∈ (findDownstream E fuel tid st).2) ∧
      (findDownstream E fuel tid st).2 ⊆ st.2 ∪ (findDownstream E fuel tid st).1 := by
    intro tid st htid hgood
    obtain ⟨ha, hb, hc⟩ := findDownstream_complete E U hE fuel tid st htid (hcard st)
    have hm := findDownstream_mono E fuel tid st
    refine ⟨hm.1, hm.2, ha, ?_, hc⟩
    intro y hy d hd
    by_cases hy0 : y ∈ st.1
    · exact hm.2 (hgood y hy0 d hd)
    · exact hb y hy hy0 d hd
  have hdf : ∀ (l : List TaskId) (st : Finset TaskId × Finset TaskId), (∀ d ∈ l, d ∈ U) →
      (∀ y ∈ st.1, ∀ d ∈ E y, d ∈ st.2) →
      st.1 ⊆ (l.foldl (fun st d => findDownstream E fuel d st) st).1 ∧
      st.2 ⊆ (l.foldl (fun st d => findDownstream E fuel d st) st).2 ∧
      (∀ d ∈ l, d ∈ (l.foldl (fun st d => findDownstream E fuel d st) st).1) ∧
      (∀ y ∈ (l.foldl (fun st d => findDownstream E fuel d st) st).1, ∀ d ∈ E y,
        d ∈ (l.foldl (fun st d => findDownstream E fuel d st) st).2) ∧
      (l.foldl (fun st d => findDownstream E fuel d st) st).2 ⊆
        st.2 ∪ (l.foldl (fun st d => findDownstream E fuel d st) st).1 := by
    intro l
    induction l with
    | nil =>
      intro st _ hgood
      refine ⟨Finset.Subset.refl _, Finset.Subset.refl _, ?_, hgood, Finset.subset_union_left⟩
      intro d hd
      cases hd
    | cons d rest ihl =>
      intro st hl hgood
      obtain ⟨m1a, m1b, hdin, good1, clo1⟩ := hcall d st (hl d (List.mem_cons_self d rest)) hgood
      obtain ⟨m2a, m2b, hmem2, good2, clo2⟩ := ihl (findDownstream E fuel d st)
        (fun d' hd' => hl d' (List.mem_cons_of_mem d hd')) good1
      refine ⟨m1a.trans m2a, m1b.trans m2b, ?_, good2, ?_⟩
      · intro d' hd'
        rcases List.mem_cons.mp hd' with rfl | hd'r
        · exact m2a hdin
        · exact hmem2 d' hd'r
      · intro y hy
        rcases Finset.mem_union.mp (clo2 hy) with hy2 | hy1
        · rcases Finset.mem_union.mp (clo1 hy2) with hy3 | hy4
          · exact Finset.mem_union_left _ hy3
          · exact Finset.mem_union_right _ (m2a hy4)
        · exact Finset.mem_union_right _ hy1
  have hseedU : ∀ sd ∈ insert root deps.toFinset, sd ∈ U := by
    intro sd hsd
    rcases Finset.mem_insert.mp hsd with rfl | hd
    · exact hroot
    · exact hdeps sd (List.mem_toFinset.mp hd)
  obtain ⟨mda, mdb, hdepsin, goodd, clod⟩ := hdf deps ((∅ : Finset TaskId), insert root deps.toFinset)
    hdeps (fun y hy => absurd hy (Finset.not_mem_empty y))
  obtain ⟨mfa, mfb, hrootin, goodf, clof⟩ := hcall root
    (deps.foldl (fun st d => findDownstream E fuel d st) ((∅ : Finset TaskId), insert root deps.toFinset))
    hroot goodd
  have hseedF1 : ∀ sd ∈ insert root deps.toFinset, sd ∈ (findDownstream E fuel root
      (deps.foldl (fun st d => findDownstream E fuel d st)
        ((∅ : Finset TaskId), insert root deps.toFinset))).1 := by
    intro sd hsd
    rcases Finset.mem_insert.mp hsd with rfl | hd
    · exact hrootin
    · exact mfa (hdepsin sd (List.mem_toFinset.mp hd))
  have hseedF2 : ∀ sd ∈ insert root deps.toFinset, sd ∈ (findDownstream E fuel root
      (deps.foldl (fun st d => findDownstream E fuel d st)
        ((∅ : Finset TaskId), insert root deps.toFinset))).2 := by
    intro sd hsd
    exact mfb (mdb hsd)
  have hclosed : ∀ y ∈ (findDownstream E fuel root
      (deps.foldl (fun st d => findDownstream E fuel d st)
        ((∅ : Finset TaskId), insert root deps.toFinset))).2, ∀ d ∈ E y,
      d ∈ (findDownstream E fuel root
        (deps.foldl (fun st d => findDownstream E fuel d st)
          ((∅ : Finset TaskId), insert root deps.toFinset))).2 := by
    intro y hy d hd
    rcases Finset.mem_union.mp (clof hy) with hy2 | hy1
    · rcases Finset.mem_union.mp (clod hy2) with hy3 | hy4
      · exact goodf y (hseedF1 y hy3) d hd
      · exact goodf y (mfa hy4) d hd
    · exact goodf y hy1 d hd
  constructor
  · intro hx
    have hsnd : ∀ (l : List TaskId) (st : Finset TaskId × Finset TaskId),
        (∀ d ∈ l, ∃ sd ∈ insert root deps.toFinset, Reach E sd d) →
        (∀ y ∈ st.1, ∃ sd ∈ insert root deps.toFinset, Reach E sd y) →
        (∀ y ∈ st.2, ∃ sd ∈ insert root deps.toFinset, Reach E sd y) →
        (∀ y ∈ (l.foldl (fun st d => findDownstream E fuel d st) st).1,
          ∃ sd ∈ insert root deps.toFinset, Reach E sd y) ∧
        (∀ y ∈ (l.foldl (fun st d => findDownstream E fuel d st) st).2,
          ∃ sd ∈ insert root deps.toFinset, Reach E sd y) := by
      intro l
      induction l with
      | nil =>
        intro st _ h1 h2
        exact ⟨h1, h2⟩
      | cons d rest ihl =>
        intro st hl h1 h2
        have hstep := findDownstream_sound E
          (fun y => ∃ sd ∈ insert root deps.toFinset, Reach E sd y)
          (fun y hy d' hd' => by
            obtain ⟨sd, hsd, hr⟩ := hy
            exact ⟨sd, hsd, hr.tail hd'⟩) fuel d st
          (hl d (List.mem_cons_self d rest)) h1 h2
        exact ihl (findDownstream E fuel d st)
          (fun d' hd' => hl d' (List.mem_cons_of_mem d hd')) hstep.1 hstep.2
    have hseedC : ∀ y ∈ insert root deps.toFinset,
        ∃ sd ∈ insert root deps.toFinset, Reach E sd y :=
      fun y hy => ⟨y, hy, Reach.refl⟩
    have hst1 := hsnd deps ((∅ : Finset TaskId), insert root deps.toFinset)
      (fun d hd => ⟨d, Finset.mem_insert_of_mem (List.mem_toFinset.mpr hd), Reach.refl⟩)
      (fun y hy => absurd hy (Finset.not_mem_empty y)) hseedC
    have hfin := findDownstream_sound E
      (fun y => ∃ sd ∈ insert root deps.toFinset, Reach E sd y)
      (fun y hy d' hd' => by
        obtain ⟨sd, hsd, hr⟩ := hy
        exact ⟨sd, hsd, hr.tail hd'⟩) fuel root
      (deps.foldl (fun st d => findDownstream E fuel d st)
        ((∅ : Finset TaskId), insert root deps.toFinset))
      ⟨root, Finset.mem_insert_self root deps.toFinset, Reach.refl⟩ hst1.1 hst1.2
    exact hfin.2 x hx
  · rintro ⟨sd, hsd, hr⟩
    induction hr with
    | refl => exact hseedF2 sd hsd
    | tail hab hm ihr => exact hclosed _ ihr _ hm

theorem mem_rollbackClosure (chain : List TaskSpec) (t : TaskSpec) (x : TaskId) :
    x ∈ rollbackClosure chain t ↔
      ∃ sd ∈ insert t.task_id t.dependencies.toFinset, Reach (dependentsOf chain) sd x := by
  classical
  have hcardU : (insert t.task_id
      (t.dependencies.toFinset ∪ (chainIds chain).toFinset)).card ≤
      chain.length + t.dependencies.length + 2 := by
    have h1 := Finset.card_insert_le t.task_id
      (t.dependencies.toFinset ∪ (chainIds chain).toFinset)
    have h2 := Finset.card_union_le t.dependencies.toFinset (chainIds chain).toFinset
    have h3 := List.toFinset_card_le t.dependencies
    have h4 := List.toFinset_card_le (chainIds chain)
    have h5 : (chainIds chain).length = chain.length := List.length_map _ _
    omega
  simp only [rollbackClosure]
  exact findDownstream_closure_iff (dependentsOf chain)
    (insert t.task_id (t.dependencies.toFinset ∪ (chainIds chain).toFinset))
    (fun y d hd => Finset.mem_insert_of_mem (Finset.mem_union_right _
      (List.mem_toFinset.mpr (dependentsOf_subset_chain chain y d hd))))
    (chain.length + t.dependencies.length + 2) hcardU
    t.task_id t.dependencies (Finset.mem_insert_self _ _)
    (fun d hd => Finset.mem_insert_of_mem (Finset.mem_union_left _ (List.mem_toFinset.mpr hd)))
    x

theorem lookupO_removeKey_same {α : Type} (m : List (TaskId × α)) (k : TaskId)
    (h : (keysOf m).Nodup) : lookupO (removeKey m k) k = none := by
  by_cases hk : (lookupO (removeKey m k) k).isSome
  · have hmem := (lookupO_isSome_iff _ _).mp hk
    rw [keysOf_removeKey] at hmem
    exact absurd hmem (h.not_mem_erase)
  · exact Option.not_isSome_iff_eq_none.mp hk

theorem rollbackOne_frame (s : RunnerState) (id x : TaskId) (hne : x ≠ id) :
    getStatus (rollbackOne s id) x = getStatus s x ∧
    ((x ∈ (rollbackOne s id).completedTasks) ↔ x ∈ s.completedTasks) ∧
    ((x ∈ (rollbackOne s id).runningTasks) ↔ x ∈ s.runningTasks) ∧
    ((x ∈ (rollbackOne s id).pendingTasks) ↔ x ∈ s.pendingTasks) ∧
    lookupO (rollbackOne s id).taskFailureCount x = lookupO s.taskFailureCount x ∧
    ((x ∈ (rollbackOne s id).artifacts) ↔ x ∈ s.artifacts) := by
  have hidx : id ≠ x := fun h => hne h.symm
  simp only [rollbackOne]
  rcases hmm : taskMapGet s.chain id with _ | tk
  · simp only [hmm]
    split
    · refine ⟨rfl, Iff.rfl, Iff.rfl, Iff.rfl, rfl, ?_⟩
      simp [Finset.mem_erase, hne]
    · exact ⟨rfl, Iff.rfl, Iff.rfl, Iff.rfl, rfl, Iff.rfl⟩
  · simp only [hmm]
    rw [updStatus_of_mem _ id "undone"
      (by show (taskMapGet s.chain id).isSome = true; rw [hmm]; rfl)]
    split
    · refine ⟨?_, ?_, ?_, ?_, ?_, ?_⟩
      · show lookupD (setKey s.statuses id "undone") x "" = lookupD s.statuses x ""
        exact lookupD_setKey_other _ _ _ _ _ hidx
      · show x ∈ s.completedTasks.erase id ↔ x ∈ s.completedTasks
        simp [Finset.mem_erase, hne]
      · show x ∈ s.runningTasks.erase id ↔ x ∈ s.runningTasks
        simp [Finset.mem_erase, hne]
      · show x ∈ insert id s.pendingTasks ↔ x ∈ s.pendingTasks
        simp [Finset.mem_insert, hne]
      · show lookupO (removeKey s.taskFailureCount id) x = lookupO s.taskFailureCount x
        exact lookupO_removeKey_other _ _ _ hidx
      · show x ∈ s.artifacts.erase id ↔ x ∈ s.artifacts
        simp [Finset.mem_erase, hne]
    · refine ⟨?_, ?_, ?_, ?_, ?_, ?_⟩
      · show lookupD (setKey s.statuses id "undone") x "" = lookupD s.statuses x ""
        exact lookupD_setKey_other _ _ _ _ _ hidx
      · show x ∈ s.completedTasks.erase id ↔ x ∈ s.completedTasks
        simp [Finset.mem_erase, hne]
      · show x ∈ s.runningTasks.erase id ↔ x ∈ s.runningTasks
        simp [Finset.mem_erase, hne]
      · show x ∈ insert id s.pendingTasks ↔ x ∈ s.pendingTasks
        simp [Finset.mem_insert, hne]
      · show lookupO (removeKey s.taskFailureCount id) x = lookupO s.taskFailureCount x
        exact lookupO_removeKey_other _ _ _ hidx
      · exact Iff.rfl

theorem rollbackOne_effect (s : RunnerState) (id : TaskId)
    (hm : (taskMapGet s.chain id).isSome = true) (hp : s.planId.isSome = true)
    (hnd : (keysOf s.taskFailureCount).Nodup) :
    getStatus (rollbackOne s id) id = "undone" ∧
    id ∉ (rollbackOne s id).completedTasks ∧
    id ∉ (rollbackOne s id).runningTasks ∧
    id ∈ (rollbackOne s id).pendingTasks ∧
    lookupO (rollbackOne s id).taskFailureCount id = none ∧
    id ∉ (rollbackOne s id).artifacts := by
  simp only [rollbackOne]
  rcases hmm : taskMapGet s.chain id with _ | tk
  · rw [hmm] at hm
    cases hm
  · simp only [hmm]
    rw [updStatus_of_mem _ id "undone"
      (by show (taskMapGet s.chain id).isSome = true; rw [hmm]; rfl)]
    split
    · refine ⟨?_, ?_, ?_, ?_, ?_, ?_⟩
      · show lookupD (setKey s.statuses id "undone") id "" = "undone"
        exact lookupD_setKey_same _ _ _ _
      · show id ∉ s.completedTasks.erase id
        exact Finset.not_mem_erase id _
      · show id ∉ s.runningTasks.erase id
        exact Finset.not_mem_erase id _
      · show id ∈ insert id s.pendingTasks
        exact Finset.mem_insert_self id _
      · show lookupO (removeKey s.taskFailureCount id) id = none
        exact lookupO_removeKey_same _ _ hnd
      · show id ∉ s.artifacts.erase id
        exact Finset.not_mem_erase id _
    · rename_i hfalse
      exact absurd (show _ from hp) hfalse

theorem rollbackOne_const (s : RunnerState) (id : TaskId) :
    (rollbackOne s id).chain = s.chain ∧ (rollbackOne s id).planId = s.planId := by
  simp only [rollbackOne]
  rcases hmm : taskMapGet s.chain id with _ | tk
  · simp only [hmm]
    split
    · exact ⟨rfl, rfl⟩
    · exact ⟨rfl, rfl⟩
  · simp only [hmm]
    rw [updStatus_eq]
    split
    · exact ⟨rfl, rfl⟩
    · exact ⟨rfl, rfl⟩

theorem rollbackOne_fc_nodup (s : RunnerState) (id : TaskId)
    (h : (keysOf s.taskFailureCount).Nodup) :
    (keysOf (rollbackOne s id).taskFailureCount).Nodup := by
  simp only [rollbackOne]
  rcases hmm : taskMapGet s.chain id with _ | tk
  · simp only [hmm]
    split
    · exact h
    · exact h
  · simp only [hmm]
    rw [updStatus_eq]
    split
    · show (keysOf (removeKey s.taskFailureCount id)).Nodup
      rw [keysOf_removeKey]
      exact h.erase id
    · show (keysOf (removeKey s.taskFailureCount id)).Nodup
      rw [keysOf_removeKey]
      exact h.erase id

theorem rollbackFold_const (l : List TaskId) :
    ∀ (x : RunnerState),
      (l.foldl rollbackOne x).chain = x.chain ∧
      (l.foldl rollbackOne x).planId = x.planId ∧
      ((keysOf x.taskFailureCount).Nodup →
        (keysOf (l.foldl rollbackOne x).taskFailureCount).Nodup) := by
  induction l with
  | nil => exact fun x => ⟨rfl, rfl, fun h => h⟩
  | cons id rest ih =>
    intro x
    obtain ⟨hc, hp⟩ := rollbackOne_const x id
    obtain ⟨hc2, hp2, hn2⟩ := ih (rollbackOne x id)
    exact ⟨hc2.trans hc, hp2.trans hp, fun h => hn2 (rollbackOne_fc_nodup x id h)⟩

theorem rollbackFold_keeps (C : List TaskSpec) (id : TaskId)
    (hm : (taskMapGet C id).isSome = true) :
    ∀ (l : List TaskId) (x : RunnerState),
      x.chain = C → x.planId.isSome = true → (keysOf x.taskFailureCount).Nodup →
      (getStatus x id = "undone" ∧ id ∉ x.completedTasks ∧ id ∉ x.runningTasks ∧
        id ∈ x.pendingTasks ∧ lookupO x.taskFailureCount id = none ∧ id ∉ x.artifacts) →
      getStatus (l.foldl rollbackOne x) id = "undone" ∧
      id ∉ (l.foldl rollbackOne x).completedTasks ∧
      id ∉ (l.foldl rollbackOne x).runningTasks ∧
      id ∈ (l.foldl rollbackOne x).pendingTasks ∧
      lookupO (l.foldl rollbackOne x).taskFailureCount id = none ∧
      id ∉ (l.foldl rollbackOne x).artifacts := by
  intro l
  induction l with
  | nil => exact fun x _ _ _ hf => hf
  | cons id' rest ih =>
    intro x hxc hxp hxn hf
    obtain ⟨hc1, hp1⟩ := rollbackOne_const x id'
    have hxc1 : (rollbackOne x id').chain = C := hc1.trans hxc
    have hxp1 : (rollbackOne x id').planId.isSome = true := by rw [hp1]; exact hxp
    have hxn1 := rollbackOne_fc_nodup x id' hxn
    apply ih (rollbackOne x id') hxc1 hxp1 hxn1
    by_cases he : id' = id
    · subst he
      exact rollbackOne_effect x id' (by rw [hxc]; exact hm) hxp hxn
    · obtain ⟨f1, f2, f3, f4, f5, f6⟩ := rollbackOne_frame x id' id (fun h => he h.symm)
      obtain ⟨g1, g2, g3, g4, g5, g6⟩ := hf
      exact ⟨f1.trans g1, fun h => g2 (f2.mp h), fun h => g3 (f3.mp h), f4.mpr g4,
        f5.trans g5, fun h => g6 (f6.mp h)⟩

theorem rollbackFold_effect (C : List TaskSpec) (id : TaskId)
    (hm : (taskMapGet C id).isSome = true) :
    ∀ (l : List TaskId) (x : RunnerState),
      x.chain = C → x.planId.isSome = true → (keysOf x.taskFailureCount).Nodup →
      id ∈ l →
      getStatus (l.foldl rollbackOne x) id = "undone" ∧
      id ∉ (l.foldl rollbackOne x).completedTasks ∧
      id ∉ (l.foldl rollbackOne x).runningTasks ∧
      id ∈ (l.foldl rollbackOne x).pendingTasks ∧
      lookupO (l.foldl rollbackOne x).taskFailureCount id = none ∧
      id ∉ (l.foldl rollbackOne x).artifacts := by
  intro l
  induction l with
  | nil =>
    intro x _ _ _ hmem
    cases hmem
  | cons id' rest ih =>
    intro x hxc hxp hxn hmem
    obtain ⟨hc1, hp1⟩ := rollbackOne_const x id'
    have hxc1 : (rollbackOne x id').chain = C := hc1.trans hxc
    have hxp1 : (rollbackOne x id').planId.isSome = true := by rw [hp1]; exact hxp
    have hxn1 := rollbackOne_fc_nodup x id' hxn
    by_cases he : id ∈ rest
    · exact ih (rollbackOne x id') hxc1 hxp1 hxn1 he
    · have hid : id = id' := by
        rcases List.mem_cons.mp hmem with h | h
        · exact h
        · exact absurd h he
      subst hid
      apply rollbackFold_keeps C id hm rest (rollbackOne x id) hxc1 hxp1 hxn1
      exact rollbackOne_effect x id (by rw [hxc]; exact hm) hxp hxn

theorem rollbackFold_frame (id : TaskId) :
    ∀ (l : List TaskId) (x : RunnerState), id ∉ l →
      getStatus (l.foldl rollbackOne x) id = getStatus x id ∧
      ((id ∈ (l.foldl rollbackOne x).completedTasks) ↔ id ∈ x.completedTasks) ∧
      ((id ∈ (l.foldl rollbackOne x).runningTasks) ↔ id ∈ x.runningTasks) ∧
      ((id ∈ (l.foldl rollbackOne x).pendingTasks) ↔ id ∈ x.pendingTasks) ∧
      lookupO (l.foldl rollbackOne x).taskFailureCount id = lookupO x.taskFailureCount id ∧
      ((id ∈ (l.foldl rollbackOne x).artifacts) ↔ id ∈ x.artifacts) := by
  intro l
  induction l with
  | nil => exact fun x _ => ⟨rfl, Iff.rfl, Iff.rfl, Iff.rfl, rfl, Iff.rfl⟩
  | cons id' rest ih =>
    intro x hmem
    have hne : id ≠ id' := fun h => hmem (h ▸ List.mem_cons_self id' rest)
    obtain ⟨f1, f2, f3, f4, f5, f6⟩ := rollbackOne_frame x id' id hne
    obtain ⟨g1, g2, g3, g4, g5, g6⟩ := ih (rollbackOne x id')
      (fun h => hmem (List.mem_cons_of_mem id' h))
    exact ⟨g1.trans f1, g2.trans f2, g3.trans f3, g4.trans f4, g5.trans f5, g6.trans f6⟩

theorem rollbackTask_eq (s : RunnerState) (t : TaskSpec) :
    rollbackTask s t = { (rollbackList s.chain t).foldl rollbackOne s with
      rollbackCount := (rollbackTask s t).rollbackCount,
      taskTasks := (rollbackTask s t).taskTasks,
      units := (rollbackTask s t).units } := by
  simp only [rollbackTask]
  split
  · rw [scheduleReady_eq]
  · rfl

theorem taskMapGet_isSome_of_mem (chain : List TaskSpec) (id : TaskId)
    (h : id ∈ chainIds chain) : (taskMapGet chain id).isSome = true := by
  simp only [chainIds, List.mem_map] at h
  obtain ⟨tk, htk, rfl⟩ := h
  simp only [taskMapGet]
  rw [List.find?_isSome]
  exact ⟨tk, htk, by simp⟩

theorem mem_rollbackList_iff (chain : List TaskSpec) (t : TaskSpec) (id : TaskId)
    (ht : t ∈ chain) (hdeps : ∀ d ∈ t.dependencies, d ∈ chainIds chain) :
    id ∈ rollbackList chain t ↔ id ∈ rollbackClosure chain t := by
  simp only [rollbackList, List.mem_filter, decide_eq_true_eq]
  constructor
  · rintro ⟨_, h2⟩
    exact h2
  · intro h2
    refine ⟨?_, h2⟩
    rcases (mem_rollbackClosure chain t id).mp h2 with ⟨sd, hsd, hr⟩
    cases hr with
    | refl =>
      rcases Finset.mem_insert.mp hsd with rfl | hdep
      · exact List.mem_append_left _ (List.mem_map.mpr ⟨t, ht, rfl⟩)
      · exact List.mem_append_left _ (hdeps _ (List.mem_toFinset.mp hdep))
    | tail hab hm =>
      exact List.mem_append_left _ (dependentsOf_subset_chain chain _ id hm)

theorem rollbackClosure_subset_chain (chain : List TaskSpec) (t : TaskSpec) (id : TaskId)
    (ht : t ∈ chain) (hdeps : ∀ d ∈ t.dependencies, d ∈ chainIds chain)
    (h : id ∈ rollbackClosure chain t) : id ∈ chainIds chain := by
  rcases (mem_rollbackClosure chain t id).mp h with ⟨sd, hsd, hr⟩
  cases hr with
  | refl =>
    rcases Finset.mem_insert.mp hsd with rfl | hdep
    · exact List.mem_map.mpr ⟨t, ht, rfl⟩
    · exact hdeps _ (List.mem_toFinset.mp hdep)
  | tail hab hm =>
    exact dependentsOf_subset_chain chain _ id hm

/-- C2: `_rollback_task` computes exactly the closure `{task} ∪ task.dependencies ∪
transitiveDependents(task) ∪ transitiveDependents(each dependency)` — formalised
as reverse-dependency reachability from the seed — and, when every dependency
names a chain task and a plan id is set, it resets every closure member
(status `undone`, out of `completed_tasks` and `running_tasks`, into
`pending_tasks`, failure count cleared, artifact deleted) and touches no task
outside the closure. -/
theorem c2_rollback_closure_effect (s : RunnerState) (t : TaskSpec) (p : String)
    (hplan : s.planId = some p) (ht : t ∈ s.chain)
    (hdeps : ∀ d ∈ t.dependencies, d ∈ chainIds s.chain)
    (hnd : (keysOf s.taskFailureCount).Nodup) :
    (∀ x, x ∈ rollbackClosure s.chain t ↔
      ∃ sd ∈ insert t.task_id t.dependencies.toFinset, Reach (dependentsOf s.chain) sd x) ∧
    (∀ id ∈ rollbackClosure s.chain t,
      getStatus (rollbackTask s t) id = "undone" ∧
      id ∉ (rollbackTask s t).completedTasks ∧
      id ∉ (rollbackTask s t).runningTasks ∧
      id ∈ (rollbackTask s t).pendingTasks ∧
      lookupO (rollbackTask s t).taskFailureCount id = none ∧
      id ∉ (rollbackTask s t).artifacts) ∧
    (∀ id, id ∉ rollbackClosure s.chain t →
      getStatus (rollbackTask s t) id = getStatus s id ∧
      ((id ∈ (rollbackTask s t).completedTasks) ↔ id ∈ s.completedTasks) ∧
      ((id ∈ (rollbackTask s t).runningTasks) ↔ id ∈ s.runningTasks) ∧
      ((id ∈ (rollbackTask s t).pendingTasks) ↔ id ∈ s.pendingTasks) ∧
      lookupO (rollbackTask s t).taskFailureCount id = lookupO s.taskFailureCount id ∧
      ((id ∈ (rollbackTask s t).artifacts) ↔ id ∈ s.artifacts)) := by
  refine ⟨mem_rollbackClosure s.chain t, ?_, ?_⟩
  · intro id hid
    have hmapped : (taskMapGet s.chain id).isSome = true :=
      taskMapGet_isSome_of_mem s.chain id (rollbackClosure_subset_chain s.chain t id ht hdeps hid)
    have hlst : id ∈ rollbackList s.chain t :=
      (mem_rollbackList_iff s.chain t id ht hdeps).mpr hid
    have hf := rollbackFold_effect s.chain id hmapped (rollbackList s.chain t) s rfl
      (by rw [hplan]; rfl) hnd hlst
    rw [rollbackTask_eq]
    exact hf
  · intro id hid
    have hlst : id ∉ rollbackList s.chain t :=
      fun h => hid ((mem_rollbackList_iff s.chain t id ht hdeps).mp h)
    have hf := rollbackFold_frame id (rollbackList s.chain t) s hlst
    rw [rollbackTask_eq]
    exact hf

/-- Witness for C2 on the fan graph `A ← B, A ← C` rolling back `B`: the
closure is `{B, A, C}` (the dependency `A` and its transitive dependent `C`),
every member is reset, and the theorem applies with all hypotheses discharged
on the concrete start state. -/
theorem c2_rollback_closure_effect_witness :
    (runTrace c1Start [Label.unitStep 0 .go]).planId = some "p" ∧
    (⟨"B", ["A"], true⟩ : TaskSpec) ∈ (runTrace c1Start [Label.unitStep 0 .go]).chain ∧
    (∀ d ∈ (⟨"B", ["A"], true⟩ : TaskSpec).dependencies,
      d ∈ chainIds (runTrace c1Start [Label.unitStep 0 .go]).chain) ∧
    (keysOf (runTrace c1Start [Label.unitStep 0 .go]).taskFailureCount).Nodup ∧
    (∀ id ∈ rollbackClosure (runTrace c1Start [Label.unitStep 0 .go]).chain
        (⟨"B", ["A"], true⟩ : TaskSpec),
      getStatus (rollbackTask (runTrace c1Start [Label.unitStep 0 .go])
        (⟨"B", ["A"], true⟩ : TaskSpec)) id = "undone") := by
  have h := c2_rollback_closure_effect (runTrace c1Start [Label.unitStep 0 .go])
    (⟨"B", ["A"], true⟩ : TaskSpec) "p" (by decide) (by decide) (by decide) (by decide)
  refine ⟨by decide, by decide, by decide, by decide, ?_⟩
  intro id hid
  exact (h.2.1 id hid).1

theorem getStatus_updStatus_other (s : RunnerState) (k : TaskId) (st : String) (x : TaskId)
    (hne : x ≠ k) : getStatus (updStatus s k st) x = getStatus s x := by
  simp only [updStatus]
  split
  · show lookupD (setKey s.statuses k st) x "" = lookupD s.statuses x ""
    exact lookupD_setKey_other _ _ _ _ _ (fun h => hne h.symm)
  · rfl

theorem resumeStep_frame (toReset : Finset TaskId) (s : RunnerState) (t' : TaskSpec)
    (id : TaskId) (hne : id ≠ t'.task_id) :
    getStatus (if t'.task_id ∈ toReset then
        let a := updStatus s t'.task_id "undone"
        let b := if a.planId.isSome then { a with artifacts := a.artifacts.erase t'.task_id }
                 else a
        { b with pendingTasks := insert t'.task_id b.pendingTasks,
                 completedTasks := b.completedTasks.erase t'.task_id,
                 taskFailureCount := removeKey b.taskFailureCount t'.task_id }
      else if getStatus s t'.task_id = "done" then
        { s with completedTasks := insert t'.task_id s.completedTasks,
                 pendingTasks := s.pendingTasks.erase t'.task_id }
      else s) id = getStatus s id ∧
    ((id ∈ (if t'.task_id ∈ toReset then
        let a := updStatus s t'.task_id "undone"
        let b := if a.planId.isSome then { a with artifacts := a.artifacts.erase t'.task_id }
                 else a
        { b with pendingTasks := insert t'.task_id b.pendingTasks,
                 completedTasks := b.completedTasks.erase t'.task_id,
                 taskFailureCount := removeKey b.taskFailureCount t'.task_id }
      else if getStatus s t'.task_id = "done" then
        { s with completedTasks := insert t'.task_id s.completedTasks,
                 pendingTasks := s.pendingTasks.erase t'.task_id }
      else s).pendingTasks) ↔ id ∈ s.pendingTasks) ∧
    ((id ∈ (if t'.task_id ∈ toReset then
        let a := updStatus s t'.task_id "undone"
        let b := if a.planId.isSome then { a with artifacts := a.artifacts.erase t'.task_id }
                 else a
        { b with pendingTasks := insert t'.task_id b.pendingTasks,
                 completedTasks := b.completedTasks.erase t'.task_id,
                 taskFailureCount := removeKey b.taskFailureCount t'.task_id }
      else if getStatus s t'.task_id = "done" then
        { s with completedTasks := insert t'.task_id s.completedTasks,
                 pendingTasks := s.pendingTasks.erase t'.task_id }
      else s).artifacts) ↔ id ∈ s.artifacts) ∧
    ((id ∈ (if t'.task_id ∈ toReset then
        let a := updStatus s t'.task_id "undone"
        let b := if a.planId.isSome then { a with artifacts := a.artifacts.erase t'.task_id }
                 else a
        { b with pendingTasks := insert t'.task_id b.pendingTasks,
                 completedTasks := b.completedTasks.erase t'.task_id,
                 taskFailureCount := removeKey b.taskFailureCount t'.task_id }
      else if getStatus s t'.task_id = "done" then
        { s with completedTasks := insert t'.task_id s.completedTasks,
                 pendingTasks := s.pendingTasks.erase t'.task_id }
      else s).completedTasks) ↔ id ∈ s.completedTasks) := by
  split
  · rw [updStatus_eq]
    simp only []
    split
    · refine ⟨?_, ?_, ?_, ?_⟩
      · show lookupD (updStatus s t'.task_id "undone").statuses id "" = lookupD s.statuses id ""
        exact getStatus_updStatus_other s t'.task_id "undone" id hne
      · show id ∈ insert t'.task_id s.pendingTasks ↔ id ∈ s.pendingTasks
        simp [Finset.mem_insert, hne]
      · show id ∈ s.artifacts.erase t'.task_id ↔ id ∈ s.artifacts
        simp [Finset.mem_erase, hne]
      · show id ∈ s.completedTasks.erase t'.task_id ↔ id ∈ s.completedTasks
        simp [Finset.mem_erase, hne]
    · refine ⟨?_, ?_, ?_, ?_⟩
      · show lookupD (updStatus s t'.task_id "undone").statuses id "" = lookupD s.statuses id ""
        exact getStatus_updStatus_other s t'.task_id "undone" id hne
      · show id ∈ insert t'.task_id s.pendingTasks ↔ id ∈ s.pendingTasks
        simp [Finset.mem_insert, hne]
      · exact Iff.rfl
      · show id ∈ s.completedTasks.erase t'.task_id ↔ id ∈ s.completedTasks
        simp [Finset.mem_erase, hne]
  · split
    · refine ⟨rfl, ?_, Iff.rfl, ?_⟩
      · show id ∈ s.pendingTasks.erase t'.task_id ↔ id ∈ s.pendingTasks
        simp [Finset.mem_erase, hne]
      · show id ∈ insert t'.task_id s.completedTasks ↔ id ∈ s.completedTasks
        simp [Finset.mem_insert, hne]
    · exact ⟨rfl, Iff.rfl, Iff.rfl, Iff.rfl⟩

theorem resumeStep_const (toReset : Finset TaskId) (s : RunnerState) (t' : TaskSpec) :
    ((if t'.task_id ∈ toReset then
        let a := updStatus s t'.task_id "undone"
        let b := if a.planId.isSome then { a with artifacts := a.artifacts.erase t'.task_id }
                 else a
        { b with pendingTasks := insert t'.task_id b.pendingTasks,
                 completedTasks := b.completedTasks.erase t'.task_id,
                 taskFailureCount := removeKey b.taskFailureCount t'.task_id }
      else if getStatus s t'.task_id = "done" then
        { s with completedTasks := insert t'.task_id s.completedTasks,
                 pendingTasks := s.pendingTasks.erase t'.task_id }
      else s).chain = s.chain) ∧
    ((if t'.task_id ∈ toReset then
        let a := updStatus s t'.task_id "undone"
        let b := if a.planId.isSome then { a with artifacts := a.artifacts.erase t'.task_id }
                 else a
        { b with pendingTasks := insert t'.task_id b.pendingTasks,
                 completedTasks := b.completedTasks.erase t'.task_id,
                 taskFailureCount := removeKey b.taskFailureCount t'.task_id }
      else if getStatus s t'.task_id = "done" then
        { s with completedTasks := insert t'.task_id s.completedTasks,
                 pendingTasks := s.pendingTasks.erase t'.task_id }
      else s).planId = s.planId) := by
  split
  · rw [updStatus_eq]
    simp only []
    split
    · exact ⟨rfl, rfl⟩
    · exact ⟨rfl, rfl⟩
  · split
    · exact ⟨rfl, rfl⟩
    · exact ⟨rfl, rfl⟩

theorem resumeStep_reset (toReset : Finset TaskId) (s : RunnerState) (t' : TaskSpec)
    (hin : t'.task_id ∈ toReset) (hm : (taskMapGet s.chain t'.task_id).isSome = true)
    (hp : s.planId.isSome = true) :
    getStatus (if t'.task_id ∈ toReset then
        let a := updStatus s t'.task_id "undone"
        let b := if a.planId.isSome then { a with artifacts := a.artifacts.erase t'.task_id }
                 else a
        { b with pendingTasks := insert t'.task_id b.pendingTasks,
                 completedTasks := b.completedTasks.erase t'.task_id,
                 taskFailureCount := removeKey b.taskFailureCount t'.task_id }
      else if getStatus s t'.task_id = "done" then
        { s with completedTasks := insert t'.task_id s.completedTasks,
                 pendingTasks := s.pendingTasks.erase t'.task_id }
      else s) t'.task_id = "undone" ∧
    t'.task_id ∈ (if t'.task_id ∈ toReset then
        let a := updStatus s t'.task_id "undone"
        let b := if a.planId.isSome then { a with artifacts := a.artifacts.erase t'.task_id }
                 else a
        { b with pendingTasks := insert t'.task_id b.pendingTasks,
                 completedTasks := b.completedTasks.erase t'.task_id,
                 taskFailureCount := removeKey b.taskFailureCount t'.task_id }
      else if getStatus s t'.task_id = "done" then
        { s with completedTasks := insert t'.task_id s.completedTasks,
                 pendingTasks := s.pendingTasks.erase t'.task_id }
      else s).pendingTasks ∧
    t'.task_id ∉ (if t'.task_id ∈ toReset then
        let a := updStatus s t'.task_id "undone"
        let b := if a.planId.isSome then { a with artifacts := a.artifacts.erase t'.task_id }
                 else a
        { b with pendingTasks := insert t'.task_id b.pendingTasks,
                 completedTasks := b.completedTasks.erase t'.task_id,
                 taskFailureCount := removeKey b.taskFailureCount t'.task_id }
      else if getStatus s t'.task_id = "done" then
        { s with completedTasks := insert t'.task_id s.completedTasks,
                 pendingTasks := s.pendingTasks.erase t'.task_id }
      else s).artifacts ∧
    t'.task_id ∉ (if t'.task_id ∈ toReset then
        let a := updStatus s t'.task_id "undone"
        let b := if a.planId.isSome then { a with artifacts := a.artifacts.erase t'.task_id }
                 else a
        { b with pendingTasks := insert t'.task_id b.pendingTasks,
                 completedTasks := b.completedTasks.erase t'.task_id,
                 taskFailureCount := removeKey b.taskFailureCount t'.task_id }
      else if getStatus s t'.task_id = "done" then
        { s with completedTasks := insert t'.task_id s.completedTasks,
                 pendingTasks := s.pendingTasks.erase t'.task_id }
      else s).completedTasks := by
  rw [if_pos hin]
  rw [updStatus_of_mem _ _ _ hm]
  simp only []
  split
  · refine ⟨?_, ?_, ?_, ?_⟩
    · show lookupD (setKey s.statuses t'.task_id "undone") t'.task_id "" = "undone"
      exact lookupD_setKey_same _ _ _ _
    · show t'.task_id ∈ insert t'.task_id s.pendingTasks
      exact Finset.mem_insert_self _ _
    · show t'.task_id ∉ s.artifacts.erase t'.task_id
      exact Finset.not_mem_erase _ _
    · show t'.task_id ∉ s.completedTasks.erase t'.task_id
      exact Finset.not_mem_erase _ _
  · rename_i hfalse
    exact absurd (show _ from hp) hfalse

theorem resumeFold_frame (toReset : Finset TaskId) (id : TaskId) :
    ∀ (l : List TaskSpec) (x : RunnerState), (∀ t' ∈ l, t'.task_id ≠ id) →
      getStatus (l.foldl (fun s t' =>
        if t'.task_id ∈ toReset then
          let a := updStatus s t'.task_id "undone"
          let b := if a.planId.isSome then { a with artifacts := a.artifacts.erase t'.task_id }
                   else a
          { b with pendingTasks := insert t'.task_id b.pendingTasks,
                   completedTasks := b.completedTasks.erase t'.task_id,
                   taskFailureCount := removeKey b.taskFailureCount t'.task_id }
        else if getStatus s t'.task_id = "done" then
          { s with completedTasks := insert t'.task_id s.completedTasks,
                   pendingTasks := s.pendingTasks.erase t'.task_id }
        else s) x) id = getStatus x id ∧
      ((id ∈ (l.foldl (fun s t' =>
        if t'.task_id ∈ toReset then
          let a := updStatus s t'.task_id "undone"
          let b := if a.planId.isSome then { a with artifacts := a.artifacts.erase t'.task_id }
                   else a
          { b with pendingTasks := insert t'.task_id b.pendingTasks,
                   completedTasks := b.completedTasks.erase t'.task_id,
                   taskFailureCount := removeKey b.taskFailureCount t'.task_id }
        else if getStatus s t'.task_id = "done" then
          { s with completedTasks := insert t'.task_id s.completedTasks,
                   pendingTasks := s.pendingTasks.erase t'.task_id }
        else s) x).pendingTasks) ↔ id ∈ x.pendingTasks) ∧
      ((id ∈ (l.foldl (fun s t' =>
        if t'.task_id ∈ toReset then
          let a := updStatus s t'.task_id "undone"
          let b := if a.planId.isSome then { a with artifacts := a.artifacts.erase t'.task_id }
                   else a
          { b with pendingTasks := insert t'.task_id b.pendingTasks,
                   completedTasks := b.completedTasks.erase t'.task_id,
                   taskFailureCount := removeKey b.taskFailureCount t'.task_id }
        else if getStatus s t'.task_id = "done" then
          { s with completedTasks := insert t'.task_id s.completedTasks,
                   pendingTasks := s.pendingTasks.erase t'.task_id }
        else s) x).artifacts) ↔ id ∈ x.artifacts) ∧
      ((id ∈ (l.foldl (fun s t' =>
        if t'.task_id ∈ toReset then
          let a := updStatus s t'.task_id "undone"
          let b := if a.planId.isSome then { a with artifacts := a.artifacts.erase t'.task_id }
                   else a
          { b with pendingTasks := insert t'.task_id b.pendingTasks,
                   completedTasks := b.completedTasks.erase t'.task_id,
                   taskFailureCount := removeKey b.taskFailureCount t'.task_id }
        else if getStatus s t'.task_id = "done" then
          { s with completedTasks := insert t'.task_id s.completedTasks,
                   pendingTasks := s.pendingTasks.erase t'.task_id }
        else s) x).completedTasks) ↔ id ∈ x.completedTasks) := by
  intro l
  induction l with
  | nil => exact fun x _ => ⟨rfl, Iff.rfl, Iff.rfl, Iff.rfl⟩
  | cons t' rest ih =>
    intro x hl
    have hne : id ≠ t'.task_id := fun h => hl t' (List.mem_cons_self t' rest) h.symm
    obtain ⟨f1, f2, f3, f4⟩ := resumeStep_frame toReset x t' id hne
    obtain ⟨g1, g2, g3, g4⟩ := ih _ (fun t'' h'' => hl t'' (List.mem_cons_of_mem t' h''))
    exact ⟨g1.trans f1, g2.trans f2, g3.trans f3, g4.trans f4⟩

theorem resumeFold_reset (toReset : Finset TaskId) (C : List TaskSpec) :
    ∀ (l : List TaskSpec) (x : RunnerState) (tk : TaskSpec),
      (l.map (fun t => t.task_id)).Nodup → tk ∈ l → tk.task_id ∈ toReset →
      x.chain = C → x.planId.isSome = true → (taskMapGet C tk.task_id).isSome = true →
      getStatus (l.foldl (fun s t' =>
        if t'.task_id ∈ toReset then
          let a := updStatus s t'.task_id "undone"
          let b := if a.planId.isSome then { a with artifacts := a.artifacts.erase t'.task_id }
                   else a
          { b with pendingTasks := insert t'.task_id b.pendingTasks,
                   completedTasks := b.completedTasks.erase t'.task_id,
                   taskFailureCount := removeKey b.taskFailureCount t'.task_id }
        else if getStatus s t'.task_id = "done" then
          { s with completedTasks := insert t'.task_id s.completedTasks,
                   pendingTasks := s.pendingTasks.erase t'.task_id }
        else s) x) tk.task_id = "undone" ∧
      tk.task_id ∈ (l.foldl (fun s t' =>
        if t'.task_id ∈ toReset then
          let a := updStatus s t'.task_id "undone"
          let b := if a.planId.isSome then { a with artifacts := a.artifacts.erase t'.task_id }
                   else a
          { b with pendingTasks := insert t'.task_id b.pendingTasks,
                   completedTasks := b.completedTasks.erase t'.task_id,
                   taskFailureCount := removeKey b.taskFailureCount t'.task_id }
        else if getStatus s t'.task_id = "done" then
          { s with completedTasks := insert t'.task_id s.completedTasks,
                   pendingTasks := s.pendingTasks.erase t'.task_id }
        else s) x).pendingTasks ∧
      tk.task_id ∉ (l.foldl (fun s t' =>
        if t'.task_id ∈ toReset then
          let a := updStatus s t'.task_id "undone"
          let b := if a.planId.isSome then { a with artifacts := a.artifacts.erase t'.task_id }
                   else a
          { b with pendingTasks := insert t'.task_id b.pendingTasks,
                   completedTasks := b.completedTasks.erase t'.task_id,
                   taskFailureCount := removeKey b.taskFailureCount t'.task_id }
        else if getStatus s t'.task_id = "done" then
          { s with completedTasks := insert t'.task_id s.completedTasks,
                   pendingTasks := s.pendingTasks.erase t'.task_id }
        else s) x).artifacts ∧
      tk.task_id ∉ (l.foldl (fun s t' =>
        if t'.task_id ∈ toReset then
          let a := updStatus s t'.task_id "undone"
          let b := if a.planId.isSome then { a with artifacts := a.artifacts.erase t'.task_id }
                   else a
          { b with pendingTasks := insert t'.task_id b.pendingTasks,
                   completedTasks := b.completedTasks.erase t'.task_id,
                   taskFailureCount := removeKey b.taskFailureCount t'.task_id }
        else if getStatus s t'.task_id = "done" then
          { s with completedTasks := insert t'.task_id s.completedTasks,
                   pendingTasks := s.pendingTasks.erase t'.task_id }
        else s) x).completedTasks := by
  intro l
  induction l with
  | nil =>
    intro x tk _ htk
    cases htk
  | cons t' rest ih =>
    intro x tk hnd htk hin hxc hxp hmC
    simp only [List.map_cons] at hnd
    obtain ⟨hhead, htail⟩ := List.nodup_cons.mp hnd
    obtain ⟨hc1, hp1⟩ := resumeStep_const toReset x t'
    by_cases hmem : tk ∈ rest
    · exact ih _ tk htail hmem hin (hc1.trans hxc) (by rw [hp1]; exact hxp) hmC
    · have heq : tk = t' := by
        rcases List.mem_cons.mp htk with h | h
        · exact h
        · exact absurd h hmem
      subst heq
      have hstep := resumeStep_reset toReset x tk hin (by rw [hxc]; exact hmC) hxp
      have hneq : ∀ t'' ∈ rest, t''.task_id ≠ tk.task_id := by
        intro t'' h'' he
        exact hhead (he ▸ List.mem_map.mpr ⟨t'', h'', rfl⟩)
      obtain ⟨g1, g2, g3, g4⟩ := resumeFold_frame toReset tk.task_id rest _ hneq
      exact ⟨g1.trans hstep.1, g2.mpr hstep.2.1, fun h => hstep.2.2.1 (g3.mp h),
        fun h => hstep.2.2.2 (g4.mp h)⟩

theorem resumeFold_outside (toReset : Finset TaskId) :
    ∀ (l : List TaskSpec) (x : RunnerState) (tk : TaskSpec),
      (l.map (fun t => t.task_id)).Nodup → tk ∈ l → tk.task_id ∉ toReset →
      getStatus (l.foldl (fun s t' =>
        if t'.task_id ∈ toReset then
          let a := updStatus s t'.task_id "undone"
          let b := if a.planId.isSome then { a with artifacts := a.artifacts.erase t'.task_id }
                   else a
          { b with pendingTasks := insert t'.task_id b.pendingTasks,
                   completedTasks := b.completedTasks.erase t'.task_id,
                   taskFailureCount := removeKey b.taskFailureCount t'.task_id }
        else if getStatus s t'.task_id = "done" then
          { s with completedTasks := insert t'.task_id s.completedTasks,
                   pendingTasks := s.pendingTasks.erase t'.task_id }
        else s) x) tk.task_id = getStatus x tk.task_id ∧
      ((tk.task_id ∈ (l.foldl (fun s t' =>
        if t'.task_id ∈ toReset then
          let a := updStatus s t'.task_id "undone"
          let b := if a.planId.isSome then { a with artifacts := a.artifacts.erase t'.task_id }
                   else a
          { b with pendingTasks := insert t'.task_id b.pendingTasks,
                   completedTasks := b.completedTasks.erase t'.task_id,
                   taskFailureCount := removeKey b.taskFailureCount t'.task_id }
        else if getStatus s t'.task_id = "done" then
          { s with completedTasks := insert t'.task_id s.completedTasks,
                   pendingTasks := s.pendingTasks.erase t'.task_id }
        else s) x).artifacts) ↔ tk.task_id ∈ x.artifacts) ∧
      (getStatus x tk.task_id = "done" → tk.task_id ∈ (l.foldl (fun s t' =>
        if t'.task_id ∈ toReset then
          let a := updStatus s t'.task_id "undone"
          let b := if a.planId.isSome then { a with artifacts := a.artifacts.erase t'.task_id }
                   else a
          { b with pendingTasks := insert t'.task_id b.pendingTasks,
                   completedTasks := b.completedTasks.erase t'.task_id,
                   taskFailureCount := removeKey b.taskFailureCount t'.task_id }
        else if getStatus s t'.task_id = "done" then
          { s with completedTasks := insert t'.task_id s.completedTasks,
                   pendingTasks := s.pendingTasks.erase t'.task_id }
        else s) x).completedTasks) := by
  intro l
  induction l with
  | nil =>
    intro x tk _ htk
    cases htk
  | cons t' rest ih =>
    intro x tk hnd htk hout
    simp only [List.map_cons] at hnd
    obtain ⟨hhead, htail⟩ := List.nodup_cons.mp hnd
    by_cases hmem : tk ∈ rest
    · have hne : tk.task_id ≠ t'.task_id := by
        intro he
        exact hhead (he ▸ List.mem_map.mpr ⟨tk, hmem, rfl⟩)
      obtain ⟨f1, f2, f3, f4⟩ := resumeStep_frame toReset x t' tk.task_id hne
      obtain ⟨g1, g3, g5⟩ := ih _ tk htail hmem hout
      refine ⟨g1.trans f1, g3.trans f3, ?_⟩
      intro hd
      exact g5 (f1.trans hd)
    · have heq : tk = t' := by
        rcases List.mem_cons.mp htk with h | h
        · exact h
        · exact absurd h hmem
      subst heq
      have hneq : ∀ t'' ∈ rest, t''.task_id ≠ tk.task_id := by
        intro t'' h'' he
        exact hhead (he ▸ List.mem_map.mpr ⟨t'', h'', rfl⟩)
      by_cases hdone : getStatus x tk.task_id = "done"
      · have hstep1 : getStatus (if tk.task_id ∈ toReset then
            let a := updStatus x tk.task_id "undone"
            let b := if a.planId.isSome then { a with artifacts := a.artifacts.erase tk.task_id }
                     else a
            { b with pendingTasks := insert tk.task_id b.pendingTasks,
                     completedTasks := b.completedTasks.erase tk.task_id,
                     taskFailureCount := removeKey b.taskFailureCount tk.task_id }
          else if getStatus x tk.task_id = "done" then
            { x with completedTasks := insert tk.task_id x.completedTasks,
                     pendingTasks := x.pendingTasks.erase tk.task_id }
          else x) tk.task_id = getStatus x tk.task_id := by
          rw [if_neg hout, if_pos hdone]
          rfl
        have hstep3 : (tk.task_id ∈ (if tk.task_id ∈ toReset then
            let a := updStatus x tk.task_id "undone"
            let b := if a.planId.isSome then { a with artifacts := a.artifacts.erase tk.task_id }
                     else a
            { b with pendingTasks := insert tk.task_id b.pendingTasks,
                     completedTasks := b.completedTasks.erase tk.task_id,
                     taskFailureCount := removeKey b.taskFailureCount tk.task_id }
          else if getStatus x tk.task_id = "done" then
            { x with completedTasks := insert tk.task_id x.completedTasks,
                     pendingTasks := x.pendingTasks.erase tk.task_id }
          else x).artifacts) ↔ tk.task_id ∈ x.artifacts := by
          rw [if_neg hout, if_pos hdone]
        have hstep4 : tk.task_id ∈ (if tk.task_id ∈ toReset then
            let a := updStatus x tk.task_id "undone"
            let b := if a.planId.isSome then { a with artifacts := a.artifacts.erase tk.task_id }
                     else a
            { b with pendingTasks := insert tk.task_id b.pendingTasks,
                     completedTasks := b.completedTasks.erase tk.task_id,
                     taskFailureCount := removeKey b.taskFailureCount tk.task_id }
          else if getStatus x tk.task_id = "done" then
            { x with completedTasks := insert tk.task_id x.completedTasks,
                     pendingTasks := x.pendingTasks.erase tk.task_id }
          else x).completedTasks := by
          rw [if_neg hout, if_pos hdone]
          exact Finset.mem_insert_self _ _
        obtain ⟨g1, g2, g3, g4⟩ := resumeFold_frame toReset tk.task_id rest
          (if tk.task_id ∈ toReset then
            let a := updStatus x tk.task_id "undone"
            let b := if a.planId.isSome then { a with artifacts := a.artifacts.erase tk.task_id }
                     else a
            { b with pendingTasks := insert tk.task_id b.pendingTasks,
                     completedTasks := b.completedTasks.erase tk.task_id,
                     taskFailureCount := removeKey b.taskFailureCount tk.task_id }
          else if getStatus x tk.task_id = "done" then
            { x with completedTasks := insert tk.task_id x.completedTasks,
                     pendingTasks := x.pendingTasks.erase tk.task_id }
          else x) hneq
        exact ⟨g1.trans hstep1, g3.trans hstep3, fun _ => g4.mpr hstep4⟩
      · have hsx : (if tk.task_id ∈ toReset then
            let a := updStatus x tk.task_id "undone"
            let b := if a.planId.isSome then { a with artifacts := a.artifacts.erase tk.task_id }
                     else a
            { b with pendingTasks := insert tk.task_id b.pendingTasks,
                     completedTasks := b.completedTasks.erase tk.task_id,
                     taskFailureCount := removeKey b.taskFailureCount tk.task_id }
          else if getStatus x tk.task_id = "done" then
            { x with completedTasks := insert tk.task_id x.completedTasks,
                     pendingTasks := x.pendingTasks.erase tk.task_id }
          else x) = x := by
          rw [if_neg hout, if_neg hdone]
        obtain ⟨g1, g2, g3, g4⟩ := resumeFold_frame toReset tk.task_id rest x hneq
        simp only [List.foldl_cons]
        rw [hsx]
        exact ⟨g1, g3, fun hd => absurd hd hdone⟩

theorem spawnFoldPlain_eq (l : List TaskSpec) :
    ∀ (s : RunnerState), l.foldl (fun s t => spawnUnit s t) s =
      { s with taskTasks := (l.foldl (fun s t => spawnUnit s t) s).taskTasks,
               units := (l.foldl (fun s t => spawnUnit s t) s).units } := by
  induction l with
  | nil => intro s; rfl
  | cons t rest ih =>
    intro s
    rw [List.foldl_cons, ih (spawnUnit s t)]
    rfl

/-- C4: resuming from task `r` resets exactly `{r} ∪ transitiveDependents(r)` —
characterised as reverse-dependency reachability from `r` — to `undone`,
re-adding those tasks to `pending_tasks` and deleting their artifacts and
completed membership, while every chain task outside the closure keeps its
prior status and artifact, and outside tasks whose prior status is `done` are
seeded directly into `completed_tasks`. -/
theorem c4_resume_resets_downstream_closure (chain : List TaskSpec)
    (status0 : List (TaskId × String)) (artifacts0 : Finset TaskId) (p : String)
    (maxConc maxF : Nat) (r : TaskId)
    (hnd : (chainIds chain).Nodup) (hr : r ∈ chainIds chain) :
    (∀ x, x ∈ getDownstreamTaskIds chain r ↔ Reach (dependentsOf chain) r x) ∧
    (∀ tk ∈ chain, tk.task_id ∈ getDownstreamTaskIds chain r →
      getStatus (startState chain status0 artifacts0 (some p) maxConc maxF (some r))
        tk.task_id = "undone" ∧
      tk.task_id ∈ (startState chain status0 artifacts0 (some p) maxConc maxF
        (some r)).pendingTasks ∧
      tk.task_id ∉ (startState chain status0 artifacts0 (some p) maxConc maxF
        (some r)).artifacts ∧
      tk.task_id ∉ (startState chain status0 artifacts0 (some p) maxConc maxF
        (some r)).completedTasks) ∧
    (∀ tk ∈ chain, tk.task_id ∉ getDownstreamTaskIds chain r →
      getStatus (startState chain status0 artifacts0 (some p) maxConc maxF (some r))
        tk.task_id = lookupD status0 tk.task_id "" ∧
      ((tk.task_id ∈ (startState chain status0 artifacts0 (some p) maxConc maxF
        (some r)).artifacts) ↔ tk.task_id ∈ artifacts0) ∧
      (lookupD status0 tk.task_id "" = "done" →
        tk.task_id ∈ (startState chain status0 artifacts0 (some p) maxConc maxF
          (some r)).completedTasks)) := by
  refine ⟨mem_getDownstreamTaskIds chain r, ?_, ?_⟩
  · intro tk htk hmem
    simp only [startState]
    rw [if_pos hr]
    rw [spawnFoldPlain_eq]
    have hf := resumeFold_reset (getDownstreamTaskIds chain r) chain chain
      { isRunning := true, abortSet := false,
        runningTasks := ∅, completedTasks := ∅,
        pendingTasks := (chainIds chain).foldl (fun acc id => insert id acc) ∅,
        taskTasks := [], chain := chain, statuses := status0,
        taskFailureCount := [], units := [], artifacts := artifacts0,
        planId := some p, maxFailures := maxF, pool := initPool maxConc,
        rollbackCount := 0, everExecuting := ∅, everValidating := ∅ }
      tk hnd htk hmem rfl rfl
      (taskMapGet_isSome_of_mem chain tk.task_id (List.mem_map.mpr ⟨tk, htk, rfl⟩))
    exact hf
  · intro tk htk hmem
    simp only [startState]
    rw [if_pos hr]
    rw [spawnFoldPlain_eq]
    have hf := resumeFold_outside (getDownstreamTaskIds chain r) chain
      { isRunning := true, abortSet := false,
        runningTasks := ∅, completedTasks := ∅,
        pendingTasks := (chainIds chain).foldl (fun acc id => insert id acc) ∅,
        taskTasks := [], chain := chain, statuses := status0,
        taskFailureCount := [], units := [], artifacts := artifacts0,
        planId := some p, maxFailures := maxF, pool := initPool maxConc,
        rollbackCount := 0, everExecuting := ∅, everValidating := ∅ }
      tk hnd htk hmem
    exact hf

/-- Witness for C4: on the fan graph, resuming from `B` resets exactly `B`
(`B` has no dependents) to `undone`, and the theorem applies with all
hypotheses discharged on the concrete graph. -/
theorem c4_resume_resets_downstream_closure_witness :
    (chainIds fanGraph).Nodup ∧ "B" ∈ chainIds fanGraph ∧
    (∀ tk ∈ fanGraph, tk.task_id ∈ getDownstreamTaskIds fanGraph "B" →
      getStatus (startState fanGraph [("A", "done"), ("B", "done"), ("C", "done")] ∅
        (some "p") 7 3 (some "B")) tk.task_id = "undone") ∧
    (∀ tk ∈ fanGraph, tk.task_id ∉ getDownstreamTaskIds fanGraph "B" →
      getStatus (startState fanGraph [("A", "done"), ("B", "done"), ("C", "done")] ∅
        (some "p") 7 3 (some "B")) tk.task_id = lookupD [("A", "done"), ("B", "done"),
          ("C", "done")] tk.task_id "") :=
  ⟨by decide, by decide,
   fun tk htk hmem =>
     ((c4_resume_resets_downstream_closure fanGraph [("A", "done"), ("B", "done"), ("C", "done")]
       ∅ "p" 7 3 "B" (by decide) (by decide)).2.1 tk htk hmem).1,
   fun tk htk hmem =>
     ((c4_resume_resets_downstream_closure fanGraph [("A", "done"), ("B", "done"), ("C", "done")]
       ∅ "p" 7 3 "B" (by decide) (by decide)).2.2 tk htk hmem).1⟩
